import Mathlib

/-!
# Roller-coaster track and track-following camera

A shallow embedding of `Project_2/Headers/track.hpp` and
`Project_2/Headers/camera.hpp`.

* `float` values are elements of an ordered field `K`, and the arithmetic on
  points and vectors is exact; the square root is a parameter `sqrt : K → K` of
  every function that reaches `sqrt`, `glm::normalize` or `glm::distance`.  The
  model instantiates at `ℚ` (with `Rat.sqrt`) for evaluation and at `ℝ` for
  calculus.
* Where `float` rounding decides which point is read or whether a loop ends,
  it is modelled by `toFloat` (24 significant bits, round to nearest, ties to
  even): the counter `s += step_size` of the extrusion loop of
  `Track::create_track`, and the conversion of an integer argument to the
  `float` parameter of `Track::get_point`.
* `NaN` has no counterpart in `K`.  `glm::normalize` of the zero vector is `NaN`
  in the program and the zero vector in the model, so the length and the dot
  products of a normalized vector are stated where its argument is not the
  zero vector.
* `int` values are integers checked against the 32-bit range: a conversion or
  an addition that leaves the range, a remainder by zero and a vector index
  outside the vector have no defined result and are `none`.
* `while` and `for` loops over `float` counters take a fuel argument and are
  `none` when the fuel runs out before the loop condition turns false.
-/

namespace Coaster

/-! ## glm vectors and matrices -/

/-- The type glm::vec3. -/
@[ext]
structure Vec3 (K : Type) where
  x : K
  y : K
  z : K

/-- The type glm::vec2. -/
@[ext]
structure Vec2 (K : Type) where
  x : K
  y : K

/-- The type glm::vec4. -/
@[ext]
structure Vec4 (K : Type) where
  x : K
  y : K
  z : K
  w : K

/-- The type glm::mat4x3: four columns, each a vec3. -/
@[ext]
structure Mat4x3 (K : Type) where
  c0 : Vec3 K
  c1 : Vec3 K
  c2 : Vec3 K
  c3 : Vec3 K

/-- The type glm::mat4: four columns, each a vec4. -/
@[ext]
structure Mat4 (K : Type) where
  c0 : Vec4 K
  c1 : Vec4 K
  c2 : Vec4 K
  c3 : Vec4 K

section VectorOps

variable {K : Type} [Field K]

/-- Componentwise sum of two vec3. -/
def Vec3.add (a b : Vec3 K) : Vec3 K := ⟨a.x + b.x, a.y + b.y, a.z + b.z⟩

/-- Componentwise difference of two vec3. -/
def Vec3.sub (a b : Vec3 K) : Vec3 K := ⟨a.x - b.x, a.y - b.y, a.z - b.z⟩

/-- The product vec3 * scalar. -/
def Vec3.scale (a : Vec3 K) (k : K) : Vec3 K := ⟨a.x * k, a.y * k, a.z * k⟩

/-- The product scalar * vec3. -/
def Vec3.smul (k : K) (a : Vec3 K) : Vec3 K := ⟨k * a.x, k * a.y, k * a.z⟩

/-- The function glm::dot on vec3. -/
def Vec3.dot (a b : Vec3 K) : K := a.x * b.x + a.y * b.y + a.z * b.z

/-- The function glm::cross. -/
def Vec3.cross (a b : Vec3 K) : Vec3 K :=
  ⟨a.y * b.z - b.y * a.z, a.z * b.x - b.z * a.x, a.x * b.y - b.x * a.y⟩

/-- The function glm::length: the square root of the dot product with itself. -/
def Vec3.length (sqrt : K → K) (a : Vec3 K) : K := sqrt (a.dot a)

/-- The function glm::distance(p0, p1) = length(p1 - p0). -/
def Vec3.distance (sqrt : K → K) (p0 p1 : Vec3 K) : K := (p1.sub p0).length sqrt

/-- The function glm::normalize: v * inversesqrt(dot(v, v)).  At the zero vector
the program computes 0 * inf = NaN; the value of the model there, the zero
vector, stands for no value of the program. -/
def Vec3.normalize (sqrt : K → K) (a : Vec3 K) : Vec3 K := a.scale (1 / sqrt (a.dot a))

/-- The function glm::transpose on mat4. -/
def Mat4.transpose (m : Mat4 K) : Mat4 K :=
  ⟨⟨m.c0.x, m.c1.x, m.c2.x, m.c3.x⟩,
   ⟨m.c0.y, m.c1.y, m.c2.y, m.c3.y⟩,
   ⟨m.c0.z, m.c1.z, m.c2.z, m.c3.z⟩,
   ⟨m.c0.w, m.c1.w, m.c2.w, m.c3.w⟩⟩

/-- The product mat4x3 * vec4: the combination of the columns with the
components of the vector. -/
def Mat4x3.mulVec (m : Mat4x3 K) (v : Vec4 K) : Vec3 K :=
  (((m.c0.scale v.x).add (m.c1.scale v.y)).add (m.c2.scale v.z)).add (m.c3.scale v.w)

/-- The product mat4x3 * mat4: column c of the result is the left matrix
applied to column c of the right matrix. -/
def Mat4x3.mulMat (m : Mat4x3 K) (n : Mat4 K) : Mat4x3 K :=
  ⟨m.mulVec n.c0, m.mulVec n.c1, m.mulVec n.c2, m.mulVec n.c3⟩

/-- Componentwise sum of two vec4. -/
def Vec4.add (a b : Vec4 K) : Vec4 K := ⟨a.x + b.x, a.y + b.y, a.z + b.z, a.w + b.w⟩

/-- The product vec4 * scalar. -/
def Vec4.scale (a : Vec4 K) (k : K) : Vec4 K := ⟨a.x * k, a.y * k, a.z * k, a.w * k⟩

/-- The constructor glm::vec4(v, w) from a vec3 and a scalar. -/
def Vec4.ofVec3 (v : Vec3 K) (w : K) : Vec4 K := ⟨v.x, v.y, v.z, w⟩

/-- The identity mat4. -/
def Mat4.identity : Mat4 K :=
  ⟨⟨1, 0, 0, 0⟩, ⟨0, 1, 0, 0⟩, ⟨0, 0, 1, 0⟩, ⟨0, 0, 0, 1⟩⟩

/-- The product mat4 * vec4: the combination of the columns with the
components of the vector. -/
def Mat4.mulVec (m : Mat4 K) (v : Vec4 K) : Vec4 K :=
  (((m.c0.scale v.x).add (m.c1.scale v.y)).add (m.c2.scale v.z)).add (m.c3.scale v.w)

/-- The product mat4 * mat4: column c of the result is the left matrix
applied to column c of the right matrix. -/
def Mat4.mul (m n : Mat4 K) : Mat4 K :=
  ⟨m.mulVec n.c0, m.mulVec n.c1, m.mulVec n.c2, m.mulVec n.c3⟩

/-- The function glm::translate(m, v): m with its last column replaced by
m[0] * v.x + m[1] * v.y + m[2] * v.z + m[3]. -/
def Mat4.translate (m : Mat4 K) (v : Vec3 K) : Mat4 K :=
  { m with c3 := (((m.c0.scale v.x).add (m.c1.scale v.y)).add (m.c2.scale v.z)).add m.c3 }

end VectorOps

/-! ## 32-bit `int` arithmetic -/

/-- The largest value of a 32-bit int. -/
def INT_MAX : Int := 2147483647

/-- The smallest value of a 32-bit int. -/
def INT_MIN : Int := -2147483648

/-- A mathematical integer as an int: defined only inside the 32-bit range
(signed overflow and an out-of-range float-to-int conversion are undefined). -/
def toInt (z : Int) : Option Int :=
  if INT_MIN ≤ z ∧ z ≤ INT_MAX then some z else none

/-- The sum of two int values. -/
def addInt (a b : Int) : Option Int := toInt (a + b)

/-- The difference of two int values. -/
def subInt (a b : Int) : Option Int := toInt (a - b)

/-- The C++ remainder a % b: truncated division, undefined for b = 0 and for
INT_MIN % -1. -/
def modInt (a b : Int) : Option Int :=
  if b = 0 ∨ (a = INT_MIN ∧ b = -1) then none else some (Int.tmod a b)

/-- The element v[i] of a std::vector for an int index: defined only for
0 ≤ i < v.size(). -/
def vecAt {α : Type} (v : List α) (i : Int) : Option α :=
  if 0 ≤ i then v[i.toNat]? else none

/-! ## `float` rounding -/

section FloatOps

variable {K : Type} [LinearOrderedField K] [FloorRing K]

/-- Rounding to the nearest integer, a tie going to the even neighbour (the
rounding of IEEE arithmetic). -/
def roundEven (x : K) : Int :=
  if x - (⌊x⌋ : K) < 1 / 2 then ⌊x⌋
  else if 1 / 2 < x - (⌊x⌋ : K) then ⌊x⌋ + 1
  else if ⌊x⌋ % 2 = 0 then ⌊x⌋ else ⌊x⌋ + 1

/-- The float nearest to x: x is scaled by a power of two so that its integer
part has 24 bits, rounded with roundEven and scaled back.  This is what storing
x in a float does (binary32, round to nearest, ties to even); the exponent
range (overflow to infinity, subnormals) is not modelled. -/
def toFloat (x : K) : K :=
  if x = 0 then 0
  else
    let e : Int := Int.log 2 |x| - 23
    (roundEven (x / (2 : K) ^ e) : K) * (2 : K) ^ e

end FloatOps

/-! ## Track -/

/-- The struct Orientation of track.hpp. -/
@[ext]
structure Orientation (K : Type) where
  Front : Vec3 K
  Up : Vec3 K
  Right : Vec3 K
  origin : Vec3 K

/-- The struct Vertex used by track.hpp (declared in a header outside the two
files): a position, a normal and texture coordinates. -/
@[ext]
structure Vertex (K : Type) where
  Position : Vec3 K
  Normal : Vec3 K
  TexCoords : Vec2 K

/-- The data members of class Track that the geometry reads and writes
(the OpenGL handles VAO, VBO, EBO and the loader g_Track are left out). -/
@[ext]
structure Track (K : Type) where
  controlPoints : List (Vec3 K)
  vertices : List (Vertex K)
  hmax : K
  max_s : Int

section TrackOps

variable {K : Type} [LinearOrderedField K] [FloorRing K]

/-- The method Track::interpolate: the Catmull-Rom blend
mat_points * transpose(mat_tau) * vec_u. -/
def Track.interpolate (pointA pointB pointC pointD : Vec3 K) (tau u : K) : Vec3 K :=
  let mat_points : Mat4x3 K := ⟨pointA, pointB, pointC, pointD⟩
  let mat_tau : Mat4 K :=
    ⟨⟨0, -tau, 2 * tau, -tau⟩,
     ⟨1, 0, tau - 3, 2 - tau⟩,
     ⟨0, tau, 3 - 2 * tau, tau - 2⟩,
     ⟨0, 0, -tau, tau⟩⟩
  let mat_tau := mat_tau.transpose
  let vec_u : Vec4 K := ⟨1, u, u * u, u * u * u⟩
  (mat_points.mulMat mat_tau).mulVec vec_u

/-- The first five lines of Track::get_point: the four window indices
pA, pB, pC, pD and the local parameter u. -/
def Track.get_point_window (t : Track K) (s : K) : Option (Int × Int × Int × Int × K) := do
  let fl ← toInt ⌊s⌋
  let base ← addInt fl t.max_s
  let pA ← (subInt base 1).bind (fun a => modInt a t.max_s)
  let pB ← modInt base t.max_s
  let pC ← (addInt base 1).bind (fun a => modInt a t.max_s)
  let pD ← (addInt base 2).bind (fun a => modInt a t.max_s)
  let u : K := s - (⌊s⌋ : K)
  some (pA, pB, pC, pD, u)

/-- The method Track::get_point. -/
def Track.get_point (t : Track K) (s : K) : Option (Vec3 K) := do
  let (pA, pB, pC, pD, u) ← t.get_point_window s
  let a ← vecAt t.controlPoints pA
  let b ← vecAt t.controlPoints pB
  let c ← vecAt t.controlPoints pC
  let d ← vecAt t.controlPoints pD
  some (Track.interpolate a b c d (1 / 2) u)

/-- The C function fmod(x, y) = x - trunc(x / y) * y, for y nonzero (the
floating-point result for y = 0 is NaN, which the number domain lacks). -/
def fmod (x y : K) : K :=
  let q := x / y
  x - ((if 0 ≤ q then ⌊q⌋ else ⌈q⌉ : Int) : K) * y

/-- The method Track::make_face: two triangles A,B,C and C,B,D with one
flat normal (the flag flipNormal is not read). -/
def Track.make_face (sqrt : K → K) (t : Track K) (pointA pointB pointC pointD : Vec3 K)
    (_flipNormal : Bool) : Track K :=
  let normal := ((pointC.sub pointA).cross (pointB.sub pointA)).normalize sqrt
  let A : Vertex K := ⟨pointA, normal, ⟨0, 1⟩⟩
  let B : Vertex K := ⟨pointB, normal, ⟨1, 1⟩⟩
  let C : Vertex K := ⟨pointC, normal, ⟨0, 0⟩⟩
  let D : Vertex K := ⟨pointD, normal, ⟨1, 0⟩⟩
  { t with vertices := t.vertices ++ [A, B, C, C, B, D] }

/-- The method Track::makeRailPart: the two rail tubes between two frames. -/
def Track.makeRailPart (sqrt : K → K) (t : Track K) (ori_prev ori_cur : Orientation K)
    (offset : Vec2 K) : Track K :=
  let right_offset_1 := ori_prev.Right.scale offset.x
  let right_offset_2 := ori_prev.Right.scale (offset.x - offset.y)
  let up_offset := ori_prev.Up.scale offset.y
  let prev_A := (ori_prev.origin.sub right_offset_1).add up_offset
  let prev_F := (ori_prev.origin.add right_offset_1).add up_offset
  let prev_C := (ori_prev.origin.sub right_offset_1).sub up_offset
  let prev_H := (ori_prev.origin.add right_offset_1).sub up_offset
  let prev_B := (ori_prev.origin.sub right_offset_2).add up_offset
  let prev_E := (ori_prev.origin.add right_offset_2).add up_offset
  let prev_D := (ori_prev.origin.sub right_offset_2).sub up_offset
  let prev_G := (ori_prev.origin.add right_offset_2).sub up_offset
  let right_offset_1 := ori_cur.Right.scale offset.x
  let right_offset_2 := ori_cur.Right.scale (offset.x - offset.y)
  let up_offset := ori_cur.Up.scale offset.y
  let cur_A := (ori_cur.origin.sub right_offset_1).add up_offset
  let cur_F := (ori_cur.origin.add right_offset_1).add up_offset
  let cur_C := (ori_cur.origin.sub right_offset_1).sub up_offset
  let cur_H := (ori_cur.origin.add right_offset_1).sub up_offset
  let cur_B := (ori_cur.origin.sub right_offset_2).add up_offset
  let cur_E := (ori_cur.origin.add right_offset_2).add up_offset
  let cur_D := (ori_cur.origin.sub right_offset_2).sub up_offset
  let cur_G := (ori_cur.origin.add right_offset_2).sub up_offset
  let t := t.make_face sqrt prev_B cur_B prev_D cur_D false
  let t := t.make_face sqrt prev_A cur_A prev_B cur_B false
  let t := t.make_face sqrt prev_C cur_C prev_A cur_A false
  let t := t.make_face sqrt prev_D cur_D prev_C cur_C false
  let t := t.make_face sqrt prev_F cur_F prev_H cur_H false
  let t := t.make_face sqrt prev_E cur_E prev_F cur_F false
  let t := t.make_face sqrt prev_G cur_G prev_E cur_E false
  t.make_face sqrt prev_H cur_H prev_G cur_G false

/-- The method Track::makePlank: the crosstie around a frame. -/
def Track.makePlank (sqrt : K → K) (t : Track K) (ori_cur : Orientation K)
    (offset : Vec2 K) : Track K :=
  let up_offset := (ori_cur.Up.scale offset.y).scale (7 / 10)
  let right_offset := (ori_cur.Right.scale offset.x).scale (9 / 10)
  let front_offset := (ori_cur.Front.scale offset.y).scale (7 / 10)
  let pA := ((ori_cur.origin.sub right_offset).add up_offset).add front_offset
  let pB := ((ori_cur.origin.sub right_offset).add up_offset).sub front_offset
  let pC := ((ori_cur.origin.sub right_offset).sub up_offset).sub front_offset
  let pD := ((ori_cur.origin.sub right_offset).sub up_offset).add front_offset
  let pE := ((ori_cur.origin.add right_offset).add up_offset).add front_offset
  let pF := ((ori_cur.origin.add right_offset).add up_offset).sub front_offset
  let pG := ((ori_cur.origin.add right_offset).sub up_offset).sub front_offset
  let pH := ((ori_cur.origin.add right_offset).sub up_offset).add front_offset
  let t := t.make_face sqrt pA pE pB pF false
  let t := t.make_face sqrt pD pH pA pE false
  let t := t.make_face sqrt pC pG pD pH false
  t.make_face sqrt pB pF pC pG false

/-- The first loop of Track::create_track, over the loaded displacements:
accumulate the position, store the doubled point, raise hmax, count max_s. -/
def Track.create_track_points (t : Track K) (currentpos : Vec3 K) :
    List (Vec3 K) → Option (Track K)
  | [] => some t
  | pt :: rest => do
    let currentpos := currentpos.add pt
    let controlPoints := t.controlPoints ++ [currentpos.scale 2]
    let hmax := if currentpos.y * 2 > t.hmax then currentpos.y * 2 else t.hmax
    let max_s ← addInt t.max_s 1
    Track.create_track_points
      { t with controlPoints := controlPoints, hmax := hmax, max_s := max_s } currentpos rest

/-- The body of the second loop of Track::create_track at parameter s:
propagate the frame Ori_Pn to s, emit the rail part between the previous and the
new frame and, when s is a multiple of 0.125, the plank.  Returns the track and
the new frame.  (The argument s + step_size of the second get_point call is a
float sum; it is exact at every sample s = k/32 below 2^19 = 524288.) -/
def Track.create_track_step (sqrt : K → K) (step_size : K) (t : Track K)
    (Ori_Pn : Orientation K) (s : K) : Option (Track K × Orientation K) := do
  let Ori_Pn_1 := Ori_Pn
  let origin ← t.get_point s
  let ahead ← t.get_point (s + step_size)
  let Front := (ahead.sub origin).normalize sqrt
  let Up := (Ori_Pn_1.Right.cross Front).normalize sqrt
  let Up :=
    if s ≥ (t.max_s : K) - 64 * step_size then
      let local_step := (s - ((t.max_s : K) - 64 * step_size)) / (64 * step_size)
      Up.add (Vec3.smul local_step ((⟨0, 1, 0⟩ : Vec3 K).sub Up))
    else Up
  let Right := (Front.cross Up).normalize sqrt
  let Ori_Pn : Orientation K := ⟨Front, Up, Right, origin⟩
  let t := t.makeRailPart sqrt Ori_Pn_1 Ori_Pn ⟨1 / 2, 1 / 10⟩
  let t := if fmod s (1 / 8) ≤ 1 / 50 then t.makePlank sqrt Ori_Pn ⟨1 / 2, 1 / 10⟩ else t
  some (t, Ori_Pn)

/-- The second loop of Track::create_track,
for (float s = 1 * step_size; s <= max_s; s += step_size).  The counter is a
float: s += step_size stores the rounded sum, which is s itself once s has
reached 2^19 = 524288, where neighbouring floats are 1/16 apart.  (The test
s <= max_s converts max_s to float; no s the counter reaches lies between
max_s and its float, so the test is written with max_s itself.) -/
def Track.create_track_rails (sqrt : K → K) (step_size : K) :
    Nat → Track K → Orientation K → K → Option (Track K)
  | 0, t, _, s => if s ≤ (t.max_s : K) then none else some t
  | fuel + 1, t, Ori_Pn, s =>
    if s ≤ (t.max_s : K) then do
      let (t, Ori_Pn) ← Track.create_track_step sqrt step_size t Ori_Pn s
      Track.create_track_rails sqrt step_size fuel t Ori_Pn (toFloat (s + step_size))
    else some t

/-- The method Track::create_track, run on the track state t with the loaded
displacements points (the sequence g_Track.points() of the loader). -/
def Track.create_track (sqrt : K → K) (fuel : Nat) (t : Track K) (points : List (Vec3 K)) :
    Option (Track K) := do
  let currentpos : Vec3 K := ⟨-2, 0, -2⟩
  let t ← Track.create_track_points { t with max_s := 0 } currentpos points
  let t := { t with hmax := t.hmax * (21 / 20) }
  let step_size : K := 1 / 32
  let origin ← t.get_point 0
  let ahead ← t.get_point (0 + step_size)
  let start ← t.get_point 0
  let Front := (ahead.sub start).normalize sqrt
  let Up : Vec3 K := ⟨0, 1, 0⟩
  let Right := (Front.cross Up).normalize sqrt
  let Ori_Pn : Orientation K := ⟨Front, Up, Right, origin⟩
  Track.create_track_rails sqrt step_size fuel t Ori_Pn (1 * step_size)

/-- The constructor Track::Track on the loaded displacements: a fresh object
(empty vectors, hmax = 0.0f) on which create_track runs.  The file read of
load_track and the OpenGL calls of setup_track are outside the model. -/
def Track.construct (sqrt : K → K) (fuel : Nat) (points : List (Vec3 K)) : Option (Track K) :=
  Track.create_track sqrt fuel ⟨[], [], 0, 0⟩ points

/-- The largest y coordinate in a list of points (none for the empty list). -/
def maxY : List (Vec3 K) → Option K
  | [] => none
  | p :: ps =>
    match maxY ps with
    | none => some p.y
    | some m => some (max p.y m)

/-- The control points that the first loop of create_track stores for the
displacements points when it starts from the position currentpos: twice the
running sums. -/
def storedPoints (currentpos : Vec3 K) : List (Vec3 K) → List (Vec3 K)
  | [] => []
  | pt :: rest => (currentpos.add pt).scale 2 :: storedPoints (currentpos.add pt) rest

/-- The value of hmax after the first loop of create_track, started with hmax = h
at the position currentpos. -/
def raisedHmax (h : K) (currentpos : Vec3 K) : List (Vec3 K) → K
  | [] => h
  | pt :: rest =>
    raisedHmax (if (currentpos.add pt).y * 2 > h then (currentpos.add pt).y * 2 else h)
      (currentpos.add pt) rest

/-- The frame that Track::create_track builds at s = 0 before its second loop:
Front toward get_point(step_size), Up = (0,1,0), Right = normalize(Front x Up). -/
def Track.create_track_seed (sqrt : K → K) (step_size : K) (t : Track K) :
    Option (Orientation K) := do
  let origin ← t.get_point 0
  let ahead ← t.get_point (0 + step_size)
  let start ← t.get_point 0
  let Front := (ahead.sub start).normalize sqrt
  let Up : Vec3 K := ⟨0, 1, 0⟩
  let Right := (Front.cross Up).normalize sqrt
  some ⟨Front, Up, Right, origin⟩

/-- A frame is orthonormal: Front, Up and Right have length 1 and are pairwise
perpendicular. -/
def Orientation.orthonormal (sqrt : K → K) (o : Orientation K) : Prop :=
  o.Front.length sqrt = 1 ∧ o.Up.length sqrt = 1 ∧ o.Right.length sqrt = 1 ∧
  o.Front.dot o.Up = 0 ∧ o.Front.dot o.Right = 0 ∧ o.Up.dot o.Right = 0

/-- The point origin + r * Right + u * Up + f * Front of a frame. -/
def Orientation.corner (o : Orientation K) (r u f : K) : Vec3 K :=
  ((o.origin.add (o.Right.scale r)).add (o.Up.scale u)).add (o.Front.scale f)

end TrackOps

/-! ## Camera -/

/-- The data members of class Camera. -/
@[ext]
structure Camera (K : Type) where
  Position : Vec3 K
  Front : Vec3 K
  Up : Vec3 K
  Right : Vec3 K
  bg_Position : Vec3 K
  bg_Front : Vec3 K
  bg_Up : Vec3 K
  bg_Right : Vec3 K
  WorldUp : Vec3 K
  Yaw : K
  Pitch : K
  MovementSpeed : K
  MouseSensitivity : K
  Zoom : K
  s : K
  onTrack : Bool

section CameraOps

variable {K : Type} [LinearOrderedField K] [FloorRing K]

/-- The constant G = 9.8f of camera.hpp. -/
def G : K := 49 / 5

/-- The while loop of Camera::ProcessTrackMovement,
while (distance < frame_movement).  The three declarations at the end of the
body open new variables that shadow temp_pos, next_pos and distance of the
enclosing scope, so the loop condition keeps reading the outer distance.
Returns the final s and frame_movement. -/
def Camera.ProcessTrackMovement_loop (sqrt : K → K) (track : Track K)
    (next_pos : Vec3 K) (distance step_size : K) : Nat → K → K → Option (K × K)
  | 0, s, frame_movement => if distance < frame_movement then none else some (s, frame_movement)
  | fuel + 1, s, frame_movement =>
    if distance < frame_movement then do
      let s := s + step_size
      let frame_movement := frame_movement - distance
      let temp_pos_inner := next_pos
      let next_pos_inner ← track.get_point (s + step_size)
      let _distance_inner := Vec3.distance sqrt next_pos_inner temp_pos_inner
      Camera.ProcessTrackMovement_loop sqrt track next_pos distance step_size fuel s frame_movement
    else some (s, frame_movement)

/-- The method Camera::ProcessTrackMovement. -/
def Camera.ProcessTrackMovement (sqrt : K → K) (fuel : Nat) (cam : Camera K) (deltaTime : K)
    (track : Track K) : Option (Camera K) := do
  let here ← track.get_point cam.s
  let velocity := sqrt (2 * G * (track.hmax - here.y))
  let frame_movement := velocity * deltaTime
  let s := if cam.s > (track.max_s : K) then fmod cam.s (track.max_s : K) else cam.s
  let step_size : K := 1 / 10000
  let temp_pos ← track.get_point s
  let next_pos ← track.get_point (s + step_size)
  let distance := Vec3.distance sqrt next_pos temp_pos
  let (s, _) ← Camera.ProcessTrackMovement_loop sqrt track next_pos distance step_size fuel s
    frame_movement
  let bg_Front := (next_pos.sub temp_pos).normalize sqrt
  let bg_Up := (cam.bg_Right.cross bg_Front).normalize sqrt
  let bg_Up :=
    if s ≥ (track.max_s : K) - 2 ∧ s ≤ (track.max_s : K) then
      let local_step := (s - ((track.max_s : K) - 2)) / 2
      bg_Up.add (Vec3.smul local_step ((⟨0, 1, 0⟩ : Vec3 K).sub bg_Up))
    else bg_Up
  let bg_Right := (bg_Front.cross bg_Up).normalize sqrt
  let bg_Position := temp_pos.add bg_Up
  let cam := { cam with s := s, bg_Front := bg_Front, bg_Up := bg_Up, bg_Right := bg_Right,
                        bg_Position := bg_Position }
  if cam.onTrack then
    some { cam with Front := cam.bg_Front, Up := cam.bg_Up, Right := cam.bg_Right,
                    Position := cam.bg_Position }
  else some cam

/-- The substep march as section 4.2.2 of the specification words it (step 3
with its correction): at each substep the micro-distance
d = |get_point(s + step) - get_point(s)| is computed at the current s; if d ≤ L
then s advances by the step and L is reduced by d, else the march stops.
Returns the final s and the remaining L. -/
def specMarch (sqrt : K → K) (track : Track K) (step_size : K) : Nat → K → K → Option (K × K)
  | 0, s, L => do
    let here ← track.get_point s
    let ahead ← track.get_point (s + step_size)
    let d := Vec3.distance sqrt ahead here
    if d ≤ L then none else some (s, L)
  | fuel + 1, s, L => do
    let here ← track.get_point s
    let ahead ← track.get_point (s + step_size)
    let d := Vec3.distance sqrt ahead here
    if d ≤ L then specMarch sqrt track step_size fuel (s + step_size) (L - d) else some (s, L)

/-- The function glm::radians: degrees times pi / 180, with the constant glm
uses for it. -/
def radians (degrees : K) : K :=
  degrees * (1745329251994329576923690768489 / 100000000000000000000000000000000)

/-- The method Camera::updateCameraVectors, with the functions cos and sin as
parameters. -/
def Camera.updateCameraVectors (cos sin sqrt : K → K) (cam : Camera K) : Camera K :=
  let front : Vec3 K :=
    ⟨cos (radians cam.Yaw) * cos (radians cam.Pitch), sin (radians cam.Pitch),
     sin (radians cam.Yaw) * cos (radians cam.Pitch)⟩
  let Front := front.normalize sqrt
  let Right := (Front.cross cam.WorldUp).normalize sqrt
  let Up := (Right.cross Front).normalize sqrt
  { cam with Front := Front, Right := Right, Up := Up }

/-- The method Camera::ProcessMouseMovement. -/
def Camera.ProcessMouseMovement (cos sin sqrt : K → K) (cam : Camera K) (xoffset yoffset : K)
    (constrainPitch : Bool) : Camera K :=
  let xoffset := xoffset * cam.MouseSensitivity
  let yoffset := yoffset * cam.MouseSensitivity
  let cam := { cam with Yaw := cam.Yaw + xoffset, Pitch := cam.Pitch + yoffset }
  let cam :=
    if constrainPitch then
      let cam := if cam.Pitch > 89 then { cam with Pitch := 89 } else cam
      if cam.Pitch < -89 then { cam with Pitch := -89 } else cam
    else cam
  cam.updateCameraVectors cos sin sqrt

/-- The method Camera::ProcessMouseScroll. -/
def Camera.ProcessMouseScroll (cam : Camera K) (yoffset : K) : Camera K :=
  let cam := if cam.Zoom ≥ 1 ∧ cam.Zoom ≤ 45 then { cam with Zoom := cam.Zoom - yoffset } else cam
  let cam := if cam.Zoom ≤ 1 then { cam with Zoom := 1 } else cam
  if cam.Zoom ≥ 45 then { cam with Zoom := 45 } else cam

/-- The method Camera::getCartTrans.  The argument mat4_init is the value of a
default-constructed glm::mat4 (the two declarations glm::mat4 rotation and
glm::mat4 translation); glm, which fixes it, is outside the two files. -/
def Camera.getCartTrans (mat4_init : Mat4 K) (origin front up right : Vec3 K) : Mat4 K :=
  let rotation : Mat4 K := mat4_init
  let rotation := { rotation with c0 := Vec4.ofVec3 right 0 }
  let rotation := { rotation with c1 := Vec4.ofVec3 up 0 }
  let rotation := { rotation with c2 := Vec4.ofVec3 front 0 }
  let rotation := { rotation with c3 := (⟨0, 0, 0, 1⟩ : Vec4 K) }
  let translation : Mat4 K := mat4_init
  let translation :=
    translation.translate ((origin.sub (Vec3.smul 1 up)).add (Vec3.smul (3 / 2) front))
  translation.mul rotation

end CameraOps

/-! ## Scenario data -/

/-- The eight control points of scenario S2 (a figure-eight in the xy plane),
as a track state with max_s = 8 and hmax = 1.05 * 1. -/
def figureEight : Track ℚ :=
  ⟨[⟨0, 0, 0⟩, ⟨1, 1 / 2, 0⟩, ⟨2, 1, 0⟩, ⟨3, 1 / 2, 0⟩, ⟨4, 0, 0⟩, ⟨3, -1 / 2, 0⟩, ⟨2, -1, 0⟩,
    ⟨1, -1 / 2, 0⟩], [], 21 / 20, 8⟩

/-- Displacements whose control points all lie below y = 0:
(0,-2,0), (2,-2,0), (2,-2,2), (0,-2,2). -/
def sunkenLoop : List (Vec3 ℚ) := [⟨2, -1, 2⟩, ⟨1, 0, 0⟩, ⟨0, 0, 1⟩, ⟨-1, 0, 0⟩]

/-- Displacements whose control points are (0,0,0), (2,10,0), (2,10,2), (0,0,2):
a loop with a raised edge. -/
def raisedEdgeLoop : List (Vec3 ℚ) := [⟨2, 0, 2⟩, ⟨1, 5, 0⟩, ⟨0, 0, 1⟩, ⟨-1, -5, 0⟩]

/-- Displacements whose control points are those of scenario S1, the flat
square loop (0,0,0), (1,0,0), (1,0,1), (0,0,1). -/
def flatSquare : List (Vec3 ℚ) := [⟨2, 0, 2⟩, ⟨1 / 2, 0, 0⟩, ⟨0, 0, 1 / 2⟩, ⟨-1 / 2, 0, 0⟩]

/-- Three displacements, with control points (0,0,0), (2,0,0), (2,0,2). -/
def threePoints : List (Vec3 ℚ) := [⟨2, 0, 2⟩, ⟨1, 0, 0⟩, ⟨0, 0, 1⟩]

/-- Displacements whose control points lie on a line at height 50 with uneven
spacing: (0,50,0), (1,50,0), (3,50,0), (-1,50,0). -/
def unevenLine : List (Vec3 ℚ) := [⟨2, 25, 2⟩, ⟨1 / 2, 0, 0⟩, ⟨1, 0, 0⟩, ⟨-2, 0, 0⟩]

/-- A camera as its constructor leaves it with the default arguments, with the
members the constructor does not set (s and the bg_ frame) at zero. -/
def freshCamera : Camera ℚ :=
  { Position := ⟨0, 0, 0⟩, Front := ⟨0, 0, -1⟩, Up := ⟨0, 1, 0⟩, Right := ⟨1, 0, 0⟩,
    bg_Position := ⟨0, 0, 0⟩, bg_Front := ⟨0, 0, 0⟩, bg_Up := ⟨0, 0, 0⟩, bg_Right := ⟨0, 0, 0⟩,
    WorldUp := ⟨0, 1, 0⟩, Yaw := -90, Pitch := 0, MovementSpeed := 5,
    MouseSensitivity := 1 / 10, Zoom := 45, s := 0, onTrack := false }

/-- A frame time for which the arc length to consume on the uneven line from
s = 0 at speed 7 is L = 399970005 / 2000000000000. -/
def shortTick : ℚ := 399970005 / 14000000000000

/-- A camera riding the track: the fresh camera with the bound frame an earlier
tick on a track along x leaves (bg_Right = (0,0,1)). -/
def ridingCamera : Camera ℚ :=
  { freshCamera with bg_Front := ⟨1, 0, 0⟩, bg_Up := ⟨0, 1, 0⟩, bg_Right := ⟨0, 0, 1⟩ }

/-- Displacements whose four control points coincide at (0,50,0). -/
def stalledLoop : List (Vec3 ℚ) := [⟨2, 25, 2⟩, ⟨0, 0, 0⟩, ⟨0, 0, 0⟩, ⟨0, 0, 0⟩]

/-- Ten displacements: a track with max_s = 10. -/
def tenPoints : List (Vec3 ℚ) :=
  [⟨2, 0, 2⟩, ⟨1, 0, 0⟩, ⟨1, 0, 0⟩, ⟨1, 0, 0⟩, ⟨0, 0, 1⟩, ⟨0, 0, 1⟩, ⟨-1, 0, 0⟩, ⟨-1, 0, 0⟩,
   ⟨-1, 0, 0⟩, ⟨0, 0, -1⟩]

/-- A track state over any number domain whose control points lie on the
slanted line through (0,0,0) with direction (3,4,0):
(0,0,0), (3,4,0), (9,12,0), (-3,-4,0). -/
def slantedTrack (K : Type) [LinearOrderedField K] : Track K :=
  ⟨[⟨0, 0, 0⟩, ⟨3, 4, 0⟩, ⟨9, 12, 0⟩, ⟨-3, -4, 0⟩], [], 63 / 5, 4⟩

/-- A frame with Front = (1,0,0), Up = (0,1,0), Right = (0,0,1) at the origin. -/
def axisFrame (K : Type) [LinearOrderedField K] : Orientation K :=
  ⟨⟨1, 0, 0⟩, ⟨0, 1, 0⟩, ⟨0, 0, 1⟩, ⟨0, 0, 0⟩⟩

/-- Displacements whose control points are those of the slanted track:
(0,0,0), (3,4,0), (9,12,0), (-3,-4,0). -/
def slantedPoints : List (Vec3 ℚ) := [⟨2, 0, 2⟩, ⟨3 / 2, 2, 0⟩, ⟨3, 4, 0⟩, ⟨-6, -8, 0⟩]

/-- A track file of 524288 = 2^19 displacements, each one unit along x. -/
def longLine : List (Vec3 ℚ) := List.replicate 524288 ⟨1, 0, 0⟩

/-! ## Rounding to `float` -/

section Rounding

variable {K : Type} [LinearOrderedField K] [FloorRing K]

theorem roundEven_intCast (z : Int) : roundEven (z : K) = z := by
  have h : (z : K) - ((⌊(z : K)⌋ : Int) : K) < 1 / 2 := by
    rw [Int.floor_intCast, sub_self]; norm_num
  rw [roundEven, if_pos h, Int.floor_intCast]

/-- A value half way between the even integer m and m + 1 rounds to m. -/
theorem roundEven_half (m : Int) (hm : m % 2 = 0) : roundEven ((m : K) + 1 / 2) = m := by
  have hfl : ⌊(m : K) + 1 / 2⌋ = m := by
    rw [Int.floor_eq_iff]; constructor <;> norm_num
  have h1 : ¬ ((m : K) + 1 / 2 - ((⌊(m : K) + 1 / 2⌋ : Int) : K) < 1 / 2) := by
    rw [hfl]; norm_num
  have h2 : ¬ ((1 : K) / 2 < (m : K) + 1 / 2 - ((⌊(m : K) + 1 / 2⌋ : Int) : K)) := by
    rw [hfl]; norm_num
  rw [roundEven, if_neg h1, if_neg h2, hfl, if_pos hm]

/-- The exponent toFloat picks for a positive x with 2^(23 + e) ≤ x < 2^(24 + e). -/
theorem log_of_bounds (x : K) (e : Int) (h1 : (2 : K) ^ (23 + e) ≤ x)
    (h2 : x < (2 : K) ^ (24 + e)) : Int.log 2 |x| - 23 = e := by
  have hpos : 0 < x := lt_of_lt_of_le (zpow_pos (by norm_num) _) h1
  rw [abs_of_pos hpos]
  have ha : 23 + e ≤ Int.log 2 x := by
    rw [← Int.zpow_le_iff_le_log (by norm_num) hpos]
    simpa using h1
  have hb : Int.log 2 x < 24 + e := by
    rw [← Int.lt_zpow_iff_log_lt (by norm_num) hpos]
    simpa using h2
  omega

/-- Storing m * 2^e with 2^23 ≤ m < 2^24 in a float rounds m to an integer. -/
theorem toFloat_of_mantissa (m : K) (e : Int) (h1 : (2 : K) ^ (23 : ℕ) ≤ m)
    (h2 : m < (2 : K) ^ (24 : ℕ)) :
    toFloat (m * (2 : K) ^ e) = (roundEven m : K) * (2 : K) ^ e := by
  have h2e : (0 : K) < (2 : K) ^ e := zpow_pos (by norm_num) _
  have hm : 0 < m := lt_of_lt_of_le (by positivity) h1
  have hx : m * (2 : K) ^ e ≠ 0 := ne_of_gt (mul_pos hm h2e)
  have hlog : Int.log 2 |m * (2 : K) ^ e| - 23 = e := by
    apply log_of_bounds
    · rw [zpow_add₀ (by norm_num : (2 : K) ≠ 0)]
      refine mul_le_mul_of_nonneg_right ?_ (le_of_lt h2e)
      rw [show (23 : Int) = ((23 : ℕ) : Int) by rfl, zpow_natCast]
      exact h1
    · rw [zpow_add₀ (by norm_num : (2 : K) ≠ 0)]
      refine mul_lt_mul_of_pos_right ?_ h2e
      rw [show (24 : Int) = ((24 : ℕ) : Int) by rfl, zpow_natCast]
      exact h2
  simp only [toFloat, if_neg hx, hlog]
  rw [mul_div_assoc, div_self (ne_of_gt h2e), mul_one]

/-- A value j * 2^c with an integer 0 < j < 2^24 is a float. -/
theorem toFloat_dyadic (j : ℕ) (c : Int) (hj0 : 0 < j) (hj : j < 16777216) :
    toFloat ((j : K) * (2 : K) ^ c) = (j : K) * (2 : K) ^ c := by
  have h2 : (2 : K) ≠ 0 := by norm_num
  have h2c : (0 : K) < (2 : K) ^ c := zpow_pos (by norm_num) _
  have hjK : (0 : K) < (j : K) := by exact_mod_cast hj0
  have hpos : (0 : K) < (j : K) * (2 : K) ^ c := mul_pos hjK h2c
  have hlt : (j : K) * (2 : K) ^ c < (2 : K) ^ (24 + c) := by
    rw [zpow_add₀ h2]
    apply mul_lt_mul_of_pos_right _ h2c
    have : (j : K) < ((16777216 : ℕ) : K) := by exact_mod_cast hj
    calc (j : K) < ((16777216 : ℕ) : K) := this
      _ = (2 : K) ^ (24 : Int) := by norm_num
  have hL : Int.log 2 ((j : K) * (2 : K) ^ c) < 24 + c := by
    rw [← Int.lt_zpow_iff_log_lt (by norm_num) hpos]
    simpa using hlt
  obtain ⟨n, hn⟩ : ∃ n : ℕ, (n : Int) = c - (Int.log 2 ((j : K) * (2 : K) ^ c) - 23) :=
    ⟨(c - (Int.log 2 ((j : K) * (2 : K) ^ c) - 23)).toNat, Int.toNat_of_nonneg (by omega)⟩
  have hc : c = (n : Int) + (Int.log 2 ((j : K) * (2 : K) ^ c) - 23) := by omega
  have hq : (j : K) * (2 : K) ^ c / (2 : K) ^ (Int.log 2 ((j : K) * (2 : K) ^ c) - 23)
      = ((((j * 2 ^ n : ℕ) : Int)) : K) := by
    have h2e : (2 : K) ^ (Int.log 2 ((j : K) * (2 : K) ^ c) - 23) ≠ 0 :=
      ne_of_gt (zpow_pos (by norm_num) _)
    rw [div_eq_iff h2e]
    nth_rewrite 1 [hc]
    rw [zpow_add₀ h2, zpow_natCast]
    push_cast
    ring
  simp only [toFloat, if_neg (ne_of_gt hpos), abs_of_pos hpos, hq, roundEven_intCast]
  have h2e : (2 : K) ^ (Int.log 2 ((j : K) * (2 : K) ^ c) - 23) ≠ 0 :=
    ne_of_gt (zpow_pos (by norm_num) _)
  rw [← hq, div_mul_cancel₀ _ h2e]

/-- Every integer from 0 to 2^24 is a float. -/
theorem toFloat_natCast (k : ℕ) (hk : k ≤ 16777216) : toFloat (k : K) = (k : K) := by
  rcases Nat.eq_zero_or_pos k with h0 | hpos
  · subst h0; simp [toFloat]
  · rcases Nat.lt_or_ge k 16777216 with hlt | hge
    · have := @toFloat_dyadic K _ _ k 0 hpos hlt
      simpa using this
    · have hk' : k = 16777216 := le_antisymm hk hge
      subst hk'
      have := @toFloat_dyadic K _ _ 1 24 (by norm_num) (by norm_num)
      have e : ((1 : ℕ) : K) * (2 : K) ^ (24 : Int) = ((16777216 : ℕ) : K) := by norm_num
      rw [e] at this
      exact this

/-- Every multiple k/32 of the step with k ≤ 2^24, that is every multiple up to
524288, is a float. -/
theorem toFloat_step (k : ℕ) (hk : k ≤ 16777216) : toFloat ((k : K) / 32) = (k : K) / 32 := by
  rcases Nat.eq_zero_or_pos k with h0 | hpos
  · subst h0; simp [toFloat]
  · rcases Nat.lt_or_ge k 16777216 with hlt | hge
    · have := @toFloat_dyadic K _ _ k (-5) hpos hlt
      have e : (k : K) * (2 : K) ^ (-5 : Int) = (k : K) / 32 := by
        rw [zpow_neg, div_eq_mul_inv]; norm_num
      rw [e] at this
      exact this
    · have hk' : k = 16777216 := le_antisymm hk hge
      subst hk'
      have := @toFloat_dyadic K _ _ 1 19 (by norm_num) (by norm_num)
      have e : ((1 : ℕ) : K) * (2 : K) ^ (19 : Int) = ((16777216 : ℕ) : K) / 32 := by norm_num
      rw [e] at this
      exact this

/-- The counter of the extrusion loop stalls at 524288: the sum 524288 + 1/32
lies half way between the floats 524288 and 524288 + 1/16 and rounds to the
even one. -/
theorem toFloat_stall : toFloat ((524288 : K) + 1 / 32) = 524288 := by
  have e : (524288 : K) + 1 / 32 = (((8388608 : Int) : K) + 1 / 2) * (2 : K) ^ (-4 : Int) := by
    rw [zpow_neg]; norm_num
  rw [e, toFloat_of_mantissa _ _ (by norm_num) (by norm_num),
    roundEven_half 8388608 (by norm_num), zpow_neg]
  norm_num

/-- The integer 2^24 + 1 is not a float: it is stored as 2^24. -/
theorem toFloat_16777217 : toFloat ((16777217 : ℕ) : K) = 16777216 := by
  have e : ((16777217 : ℕ) : K) = (((8388608 : Int) : K) + 1 / 2) * (2 : K) ^ (1 : Int) := by
    norm_num
  rw [e, toFloat_of_mantissa _ _ (by norm_num) (by norm_num),
    roundEven_half 8388608 (by norm_num)]
  norm_num

end Rounding

/-! ## Integer helpers -/

theorem toInt_of_range {z : Int} (h1 : INT_MIN ≤ z) (h2 : z ≤ INT_MAX) : toInt z = some z := by
  simp [toInt, h1, h2]

theorem toInt_of_nonneg {z : Int} (h1 : 0 ≤ z) (h2 : z ≤ INT_MAX) : toInt z = some z :=
  toInt_of_range (le_trans (by decide) h1) h2

theorem toInt_eq_some {z v : Int} (h : toInt z = some v) : v = z := by
  unfold toInt at h
  split_ifs at h
  exact (Option.some.inj h).symm

theorem addInt_one {a : Int} (h0 : 0 ≤ a) (h1 : a + 1 ≤ INT_MAX) : addInt a 1 = some (a + 1) :=
  toInt_of_nonneg (by omega) h1

theorem modInt_of_pos {a b : Int} (ha : 0 ≤ a) (hb : 0 < b) : modInt a b = some (a % b) := by
  have h1 : b ≠ 0 := ne_of_gt hb
  have h2 : b ≠ -1 := by omega
  simp [modInt, h1, h2, Int.tmod_eq_emod ha (le_of_lt hb)]

/-- An index reduced modulo the number of elements reads an element. -/
theorem vecAt_emod {α : Type} (l : List α) (N i : Int) (hN : 1 ≤ N)
    (hlen : (l.length : Int) = N) :
    ∃ p, vecAt l (i % N) = some p ∧ l[(i % N).toNat]? = some p := by
  have h0 : 0 ≤ i % N := Int.emod_nonneg _ (by omega)
  have h1 : i % N < N := Int.emod_lt_of_pos _ (by omega)
  have h2 : (i % N).toNat < l.length := by omega
  exact ⟨l[(i % N).toNat], by simp [vecAt, h0, List.getElem?_eq_getElem h2],
    List.getElem?_eq_getElem h2⟩

/-! ## The blend and the first loop of create_track -/

section Algebra

variable {K : Type} [LinearOrderedField K]

theorem Track.interpolate_zero (A B C D : Vec3 K) (tau : K) :
    Track.interpolate A B C D tau 0 = B := by
  ext <;> simp [Track.interpolate, Mat4x3.mulMat, Mat4x3.mulVec, Mat4.transpose, Vec3.add,
    Vec3.scale]

/-- The blend written out as a cubic polynomial in u, coordinate by coordinate. -/
theorem Track.interpolate_poly (A B C D : Vec3 K) (tau u : K) :
    Track.interpolate A B C D tau u =
      ⟨B.x + tau * (C.x - A.x) * u
          + (2 * tau * A.x + (tau - 3) * B.x + (3 - 2 * tau) * C.x - tau * D.x) * u ^ 2
          + (-tau * A.x + (2 - tau) * B.x + (tau - 2) * C.x + tau * D.x) * u ^ 3,
       B.y + tau * (C.y - A.y) * u
          + (2 * tau * A.y + (tau - 3) * B.y + (3 - 2 * tau) * C.y - tau * D.y) * u ^ 2
          + (-tau * A.y + (2 - tau) * B.y + (tau - 2) * C.y + tau * D.y) * u ^ 3,
       B.z + tau * (C.z - A.z) * u
          + (2 * tau * A.z + (tau - 3) * B.z + (3 - 2 * tau) * C.z - tau * D.z) * u ^ 2
          + (-tau * A.z + (2 - tau) * B.z + (tau - 2) * C.z + tau * D.z) * u ^ 3⟩ := by
  ext <;> simp [Track.interpolate, Mat4x3.mulMat, Mat4x3.mulVec, Mat4.transpose, Vec3.add,
    Vec3.scale] <;> ring

theorem storedPoints_length (cur : Vec3 K) (pts : List (Vec3 K)) :
    (storedPoints cur pts).length = pts.length := by
  induction pts generalizing cur with
  | nil => rfl
  | cons pt rest ih => simp [storedPoints, ih]

theorem storedPoints_ne_nil (cur : Vec3 K) (pts : List (Vec3 K)) (h : pts ≠ []) :
    storedPoints cur pts ≠ [] := by
  cases pts with
  | nil => exact absurd rfl h
  | cons _ _ => simp [storedPoints]

/-- When every displacement has dy = 0 and the start has y = 0, every stored
control point has y = 0. -/
theorem storedPoints_flat (pts : List (Vec3 K)) :
    ∀ cur : Vec3 K, cur.y = 0 → (∀ d ∈ pts, d.y = 0) → ∀ p ∈ storedPoints cur pts, p.y = 0 := by
  induction pts with
  | nil => intro cur _ _ p hp; simp [storedPoints] at hp
  | cons d rest ih =>
    intro cur hcur hd p hp
    have hd0 : d.y = 0 := hd d (List.mem_cons_self _ _)
    have hcy : (cur.add d).y = 0 := by simp [Vec3.add, hcur, hd0]
    simp only [storedPoints, List.mem_cons] at hp
    rcases hp with rfl | hp
    · simp [Vec3.scale, hcy]
    · exact ih (cur.add d) hcy (fun e he => hd e (List.mem_cons_of_mem _ he)) p hp

theorem raisedHmax_eq (pts : List (Vec3 K)) :
    ∀ (h : K) (cur : Vec3 K),
      raisedHmax h cur pts =
        match maxY (storedPoints cur pts) with
        | none => h
        | some m => max h m := by
  induction pts with
  | nil => intro h cur; rfl
  | cons pt rest ih =>
    intro h cur
    have hmx : (if (cur.add pt).y * 2 > h then (cur.add pt).y * 2 else h)
        = max h ((cur.add pt).y * 2) := by
      split_ifs with hc
      · exact (max_eq_right (le_of_lt hc)).symm
      · exact (max_eq_left (not_lt.1 hc)).symm
    simp only [raisedHmax, storedPoints, maxY]
    rw [ih, hmx]
    cases maxY (storedPoints (cur.add pt) rest) with
    | none => simp [Vec3.scale]
    | some m => simp [Vec3.scale, max_assoc]

theorem maxY_isSome (l : List (Vec3 K)) (h : l ≠ []) : ∃ m, maxY l = some m := by
  cases l with
  | nil => exact absurd rfl h
  | cons p ps =>
    simp only [maxY]
    cases maxY ps with
    | none => exact ⟨_, rfl⟩
    | some m => exact ⟨_, rfl⟩

theorem maxY_spec (l : List (Vec3 K)) (m : K) (h : maxY l = some m) :
    (∃ p ∈ l, p.y = m) ∧ ∀ p ∈ l, p.y ≤ m := by
  induction l generalizing m with
  | nil => simp [maxY] at h
  | cons q qs ih =>
    simp only [maxY] at h
    cases hq : maxY qs with
    | none =>
      rw [hq] at h
      have hm : q.y = m := Option.some.inj h
      have hnil : qs = [] := by
        cases qs with
        | nil => rfl
        | cons r rs =>
          obtain ⟨m', hm'⟩ := maxY_isSome (r :: rs) (by simp)
          rw [hm'] at hq; cases hq
      subst hnil
      exact ⟨⟨q, by simp, hm⟩, by intro p hp; simp at hp; rw [hp, hm]⟩
    | some m' =>
      rw [hq] at h
      have hm : max q.y m' = m := Option.some.inj h
      obtain ⟨⟨p, hp, hpy⟩, hall⟩ := ih m' hq
      refine ⟨?_, ?_⟩
      · rcases le_total q.y m' with hle | hle
        · exact ⟨p, List.mem_cons_of_mem _ hp, by rw [hpy, ← hm, max_eq_right hle]⟩
        · exact ⟨q, List.mem_cons_self _ _, by rw [← hm, max_eq_left hle]⟩
      · intro r hr
        rcases List.mem_cons.1 hr with rfl | hr'
        · rw [← hm]; exact le_max_left _ _
        · rw [← hm]; exact le_trans (hall r hr') (le_max_right _ _)

theorem Track.create_track_points_eq (pts : List (Vec3 K)) :
    ∀ (t : Track K) (cur : Vec3 K), 0 ≤ t.max_s → t.max_s + pts.length ≤ INT_MAX →
      Track.create_track_points t cur pts =
        some ⟨t.controlPoints ++ storedPoints cur pts, t.vertices, raisedHmax t.hmax cur pts,
          t.max_s + pts.length⟩ := by
  induction pts with
  | nil => intro t cur _ _; simp [Track.create_track_points, storedPoints, raisedHmax]
  | cons pt rest ih =>
    intro t cur h0 h1
    have hlen : ((pt :: rest).length : Int) = (rest.length : Int) + 1 := by simp
    rw [hlen] at h1
    simp only [Track.create_track_points, bind, Option.bind,
      addInt_one h0 (by omega : t.max_s + 1 ≤ INT_MAX)]
    rw [ih _ _ (by simp; omega) (by simp; omega)]
    simp [storedPoints, raisedHmax, add_comm, add_left_comm, add_assoc]

/-- Whatever the first loop of create_track returns has the stored points
appended, hmax raised and max_s advanced by the number of displacements. -/
theorem Track.create_track_points_inv (pts : List (Vec3 K)) :
    ∀ (t t' : Track K) (cur : Vec3 K), Track.create_track_points t cur pts = some t' →
      t'.controlPoints = t.controlPoints ++ storedPoints cur pts ∧
      t'.hmax = raisedHmax t.hmax cur pts ∧ t'.max_s = t.max_s + pts.length := by
  induction pts with
  | nil =>
    intro t t' cur h
    simp only [Track.create_track_points, Option.some.injEq] at h
    subst h
    simp [storedPoints, raisedHmax]
  | cons pt rest ih =>
    intro t t' cur h
    simp only [Track.create_track_points, bind, Option.bind] at h
    cases hv : addInt t.max_s 1 with
    | none => rw [hv] at h; cases h
    | some v =>
      rw [hv] at h
      have hv' : v = t.max_s + 1 := toInt_eq_some hv
      obtain ⟨h1, h2, h3⟩ := ih _ _ _ h
      refine ⟨?_, ?_, ?_⟩
      · rw [h1]; simp [storedPoints]
      · rw [h2]; simp [raisedHmax]
      · rw [h3, hv']; simp; ring

theorem Track.makeRailPart_fields (sqrt : K → K) (t : Track K) (o1 o2 : Orientation K)
    (offset : Vec2 K) :
    (t.makeRailPart sqrt o1 o2 offset).controlPoints = t.controlPoints ∧
    (t.makeRailPart sqrt o1 o2 offset).hmax = t.hmax ∧
    (t.makeRailPart sqrt o1 o2 offset).max_s = t.max_s := ⟨rfl, rfl, rfl⟩

theorem Track.makePlank_fields (sqrt : K → K) (t : Track K) (o : Orientation K)
    (offset : Vec2 K) :
    (t.makePlank sqrt o offset).controlPoints = t.controlPoints ∧
    (t.makePlank sqrt o offset).hmax = t.hmax ∧
    (t.makePlank sqrt o offset).max_s = t.max_s := ⟨rfl, rfl, rfl⟩

theorem Track.rail_and_plank_fields (sqrt : K → K) (t : Track K) (o1 o2 : Orientation K)
    (c : Prop) [Decidable c] :
    (if c then (t.makeRailPart sqrt o1 o2 ⟨1 / 2, 1 / 10⟩).makePlank sqrt o2 ⟨1 / 2, 1 / 10⟩
      else t.makeRailPart sqrt o1 o2 ⟨1 / 2, 1 / 10⟩).controlPoints = t.controlPoints ∧
    (if c then (t.makeRailPart sqrt o1 o2 ⟨1 / 2, 1 / 10⟩).makePlank sqrt o2 ⟨1 / 2, 1 / 10⟩
      else t.makeRailPart sqrt o1 o2 ⟨1 / 2, 1 / 10⟩).hmax = t.hmax ∧
    (if c then (t.makeRailPart sqrt o1 o2 ⟨1 / 2, 1 / 10⟩).makePlank sqrt o2 ⟨1 / 2, 1 / 10⟩
      else t.makeRailPart sqrt o1 o2 ⟨1 / 2, 1 / 10⟩).max_s = t.max_s := by
  by_cases h : c
  · simp only [h, if_true]
    exact ⟨(Track.makePlank_fields _ _ _ _).1.trans (Track.makeRailPart_fields _ _ _ _ _).1,
      (Track.makePlank_fields _ _ _ _).2.1.trans (Track.makeRailPart_fields _ _ _ _ _).2.1,
      (Track.makePlank_fields _ _ _ _).2.2.trans (Track.makeRailPart_fields _ _ _ _ _).2.2⟩
  · simp only [h, if_false]
    exact Track.makeRailPart_fields _ _ _ _ _

end Algebra

/-! ## The spline: get_point -/

section Spline

variable {K : Type} [LinearOrderedField K] [FloorRing K]

theorem Track.get_point_window_eq (t : Track K) (s : K) (hN : 1 ≤ t.max_s) (hs : 0 ≤ s)
    (hr : ⌊s⌋ + t.max_s + 2 ≤ INT_MAX) :
    t.get_point_window s =
      some ((⌊s⌋ - 1) % t.max_s, ⌊s⌋ % t.max_s, (⌊s⌋ + 1) % t.max_s, (⌊s⌋ + 2) % t.max_s,
        s - (⌊s⌋ : K)) := by
  have hfl : 0 ≤ ⌊s⌋ := Int.floor_nonneg.2 hs
  have hpos : 0 < t.max_s := by omega
  have e1 : (⌊s⌋ + t.max_s - 1) % t.max_s = (⌊s⌋ - 1) % t.max_s := by
    rw [show ⌊s⌋ + t.max_s - 1 = ⌊s⌋ - 1 + t.max_s by ring, Int.add_emod_self]
  have e2 : (⌊s⌋ + t.max_s) % t.max_s = ⌊s⌋ % t.max_s := Int.add_emod_self
  have e3 : (⌊s⌋ + t.max_s + 1) % t.max_s = (⌊s⌋ + 1) % t.max_s := by
    rw [show ⌊s⌋ + t.max_s + 1 = ⌊s⌋ + 1 + t.max_s by ring, Int.add_emod_self]
  have e4 : (⌊s⌋ + t.max_s + 2) % t.max_s = (⌊s⌋ + 2) % t.max_s := by
    rw [show ⌊s⌋ + t.max_s + 2 = ⌊s⌋ + 2 + t.max_s by ring, Int.add_emod_self]
  simp only [Track.get_point_window, addInt, subInt, bind, Option.bind]
  rw [toInt_of_nonneg hfl (by omega)]
  simp only []
  rw [toInt_of_nonneg (by omega) (by omega)]
  simp only []
  rw [toInt_of_nonneg (by omega) (by omega), toInt_of_nonneg (by omega) (by omega),
    toInt_of_nonneg (by omega) (by omega)]
  simp only []
  rw [modInt_of_pos (by omega) hpos, modInt_of_pos (by omega) hpos, modInt_of_pos (by omega) hpos,
    modInt_of_pos (by omega) hpos]
  simp only [e1, e2, e3, e4]

theorem Track.get_point_eq (t : Track K) (s : K) (hN : 1 ≤ t.max_s)
    (hlen : (t.controlPoints.length : Int) = t.max_s) (hs : 0 ≤ s)
    (hr : ⌊s⌋ + t.max_s + 2 ≤ INT_MAX) :
    ∃ a b c d, vecAt t.controlPoints ((⌊s⌋ - 1) % t.max_s) = some a ∧
      vecAt t.controlPoints (⌊s⌋ % t.max_s) = some b ∧
      vecAt t.controlPoints ((⌊s⌋ + 1) % t.max_s) = some c ∧
      vecAt t.controlPoints ((⌊s⌋ + 2) % t.max_s) = some d ∧
      t.get_point s = some (Track.interpolate a b c d (1 / 2) (s - (⌊s⌋ : K))) := by
  obtain ⟨a, ha, -⟩ := vecAt_emod t.controlPoints t.max_s (⌊s⌋ - 1) hN hlen
  obtain ⟨b, hb, -⟩ := vecAt_emod t.controlPoints t.max_s ⌊s⌋ hN hlen
  obtain ⟨c, hc, -⟩ := vecAt_emod t.controlPoints t.max_s (⌊s⌋ + 1) hN hlen
  obtain ⟨d, hd, -⟩ := vecAt_emod t.controlPoints t.max_s (⌊s⌋ + 2) hN hlen
  refine ⟨a, b, c, d, ha, hb, hc, hd, ?_⟩
  simp only [Track.get_point, Track.get_point_window_eq t s hN hs hr, bind, Option.bind, ha, hb,
    hc, hd]

/-- The point get_point returns depends on the control points and max_s only. -/
theorem Track.get_point_congr (t t' : Track K) (h1 : t'.controlPoints = t.controlPoints)
    (h2 : t'.max_s = t.max_s) (s : K) : t'.get_point s = t.get_point s := by
  simp only [Track.get_point, Track.get_point_window, h1, h2]

/-- At a natural number k, passed exactly, get_point returns the control
point P[k mod N], when k + N + 2 fits in a 32-bit int. -/
theorem Track.get_point_natCast (t : Track K) (k : ℕ) (hN : 1 ≤ t.max_s)
    (hlen : (t.controlPoints.length : Int) = t.max_s)
    (hk : (k : Int) + t.max_s + 2 ≤ INT_MAX) :
    ∃ p, t.controlPoints[k % t.controlPoints.length]? = some p ∧
      t.get_point (k : K) = some p := by
  have hfl : ⌊(k : K)⌋ = (k : Int) := Int.floor_natCast k
  obtain ⟨a, b, c, d, -, hb, -, -, hg⟩ :=
    Track.get_point_eq t (k : K) hN hlen (Nat.cast_nonneg k) (by rw [hfl]; exact hk)
  obtain ⟨p, hp1, hp2⟩ := vecAt_emod t.controlPoints t.max_s (k : Int) hN hlen
  rw [hfl] at hb hg
  have hpb : p = b := by rw [hp1] at hb; exact Option.some.inj hb
  have hidx : ((k : Int) % t.max_s).toNat = k % t.controlPoints.length := by
    rw [← hlen]; omega
  refine ⟨p, ?_, ?_⟩
  · rw [← hidx]; exact hp2
  · rw [hg, hpb]; simp [Track.interpolate_zero]

/-- C1 (amended): on a track whose max_s = N ≥ 1 counts its control points,
get_point called with an integer k ≥ 0 that its float parameter holds exactly
(every k ≤ 2^24 = 16777216, and every larger k equal to its float) returns
exactly the control point P[k mod N], provided k + N + 2 fits in a 32-bit
int. -/
theorem get_point_at_integer (t : Track K) (k : ℕ) (hN : 1 ≤ t.max_s)
    (hlen : (t.controlPoints.length : Int) = t.max_s)
    (hrep : k ≤ 16777216 ∨ toFloat (k : K) = (k : K))
    (hk : (k : Int) + t.max_s + 2 ≤ INT_MAX) :
    toFloat (k : K) = (k : K) ∧
    ∃ p, t.controlPoints[k % t.controlPoints.length]? = some p ∧
      t.get_point (toFloat (k : K)) = some p := by
  have hf : toFloat (k : K) = (k : K) := by
    rcases hrep with h | h
    · exact toFloat_natCast k h
    · exact h
  rw [hf]
  exact ⟨rfl, Track.get_point_natCast t k hN hlen hk⟩

end Spline

/-- C1 witness: on the figure-eight of scenario S2, get_point(4) = P[4] = (4,0,0). -/
theorem get_point_at_integer_witness :
    (1 : Int) ≤ figureEight.max_s ∧
    (figureEight.controlPoints.length : Int) = figureEight.max_s ∧
    ((4 : ℕ) ≤ 16777216 ∨ toFloat ((4 : ℕ) : ℚ) = ((4 : ℕ) : ℚ)) ∧
    ((4 : ℕ) : Int) + figureEight.max_s + 2 ≤ INT_MAX ∧
    figureEight.get_point (toFloat ((4 : ℕ) : ℚ)) = some ⟨4, 0, 0⟩ := by
  have h1 : (1 : Int) ≤ figureEight.max_s := by decide
  have h2 : (figureEight.controlPoints.length : Int) = figureEight.max_s := by decide
  have h3 : ((4 : ℕ) : Int) + figureEight.max_s + 2 ≤ INT_MAX := by decide
  have h4 : (4 : ℕ) ≤ 16777216 ∨ toFloat ((4 : ℕ) : ℚ) = ((4 : ℕ) : ℚ) := Or.inl (by norm_num)
  obtain ⟨-, p, hp1, hp2⟩ := get_point_at_integer figureEight 4 h1 h2 h4 h3
  refine ⟨h1, h2, h4, h3, ?_⟩
  rw [hp2, ← hp1]
  simp [figureEight]

/-- C1 counterexample: the integer k = 2^24 + 1 = 16777217 is not a float; the
float parameter of get_point receives 16777216, so on the figure-eight of
scenario S2 get_point(k) returns P[16777216 mod 8] = P[0] = (0,0,0), not
P[k mod 8] = P[1] = (1, 1/2, 0), although k + N + 2 is far inside the int
range. -/
theorem get_point_at_rounded_integer :
    (1 : Int) ≤ figureEight.max_s ∧
    (figureEight.controlPoints.length : Int) = figureEight.max_s ∧
    ((16777217 : ℕ) : Int) + figureEight.max_s + 2 ≤ INT_MAX ∧
    toFloat ((16777217 : ℕ) : ℚ) = 16777216 ∧
    figureEight.get_point (toFloat ((16777217 : ℕ) : ℚ)) = some ⟨0, 0, 0⟩ ∧
    figureEight.controlPoints[16777217 % figureEight.controlPoints.length]?
      = some ⟨1, 1 / 2, 0⟩ ∧
    ¬ ∃ p, figureEight.controlPoints[16777217 % figureEight.controlPoints.length]? = some p ∧
      figureEight.get_point (toFloat ((16777217 : ℕ) : ℚ)) = some p := by
  have h1 : (1 : Int) ≤ figureEight.max_s := by decide
  have h2 : (figureEight.controlPoints.length : Int) = figureEight.max_s := by decide
  have h3 : ((16777217 : ℕ) : Int) + figureEight.max_s + 2 ≤ INT_MAX := by decide
  have hf : toFloat ((16777217 : ℕ) : ℚ) = 16777216 := toFloat_16777217
  have hg : figureEight.get_point (toFloat ((16777217 : ℕ) : ℚ)) = some ⟨0, 0, 0⟩ := by
    obtain ⟨p, hp1, hp2⟩ :=
      @Track.get_point_natCast ℚ _ _ figureEight 16777216 h1 h2 (by decide)
    rw [hf, show (16777216 : ℚ) = ((16777216 : ℕ) : ℚ) by norm_num, hp2, ← hp1]
    simp [figureEight]
  have hp : figureEight.controlPoints[16777217 % figureEight.controlPoints.length]?
      = some ⟨1, 1 / 2, 0⟩ := by
    simp [figureEight]
  refine ⟨h1, h2, h3, hf, hg, hp, ?_⟩
  rintro ⟨p, hp1, hp2⟩
  rw [hp] at hp1
  rw [hg] at hp2
  have e := (Option.some.inj hp1).trans (Option.some.inj hp2).symm
  have ex := congrArg Vec3.x e
  norm_num at ex

section Periodic

variable {K : Type} [LinearOrderedField K] [FloorRing K]

/-- On a track whose max_s = N ≥ 1 counts its control points,
get_point(s + max_s) = get_point(s) for every s ≥ 0, and both are defined,
provided floor(s) + 2*max_s + 2 fits in a 32-bit int. -/
theorem Track.get_point_add_max_s (t : Track K) (s : K) (hN : 1 ≤ t.max_s)
    (hlen : (t.controlPoints.length : Int) = t.max_s) (hs : 0 ≤ s)
    (hr : ⌊s⌋ + 2 * t.max_s + 2 ≤ INT_MAX) :
    t.get_point (s + (t.max_s : K)) = t.get_point s ∧ (t.get_point s).isSome = true := by
  have hfl : ⌊s + (t.max_s : K)⌋ = ⌊s⌋ + t.max_s := Int.floor_add_int s t.max_s
  have hfl0 : 0 ≤ ⌊s⌋ := Int.floor_nonneg.2 hs
  have hN0 : (0 : K) ≤ (t.max_s : K) := by exact_mod_cast (by omega : (0 : Int) ≤ t.max_s)
  have w1 := Track.get_point_window_eq t s hN hs (by omega)
  have w2 := Track.get_point_window_eq t (s + (t.max_s : K)) hN (add_nonneg hs hN0)
    (by rw [hfl]; omega)
  have e1 : (⌊s⌋ + t.max_s - 1) % t.max_s = (⌊s⌋ - 1) % t.max_s := by
    rw [show ⌊s⌋ + t.max_s - 1 = ⌊s⌋ - 1 + t.max_s by ring, Int.add_emod_self]
  have e2 : (⌊s⌋ + t.max_s) % t.max_s = ⌊s⌋ % t.max_s := Int.add_emod_self
  have e3 : (⌊s⌋ + t.max_s + 1) % t.max_s = (⌊s⌋ + 1) % t.max_s := by
    rw [show ⌊s⌋ + t.max_s + 1 = ⌊s⌋ + 1 + t.max_s by ring, Int.add_emod_self]
  have e4 : (⌊s⌋ + t.max_s + 2) % t.max_s = (⌊s⌋ + 2) % t.max_s := by
    rw [show ⌊s⌋ + t.max_s + 2 = ⌊s⌋ + 2 + t.max_s by ring, Int.add_emod_self]
  have eu : s + (t.max_s : K) - ((⌊s⌋ + t.max_s : Int) : K) = s - (⌊s⌋ : K) := by
    push_cast; ring
  rw [hfl, e1, e2, e3, e4, eu, ← w1] at w2
  obtain ⟨a, b, c, d, -, -, -, -, hg⟩ := Track.get_point_eq t s hN hlen hs (by omega)
  refine ⟨?_, by rw [hg]; rfl⟩
  simp only [Track.get_point, w2]

end Periodic

theorem hasDerivAt_cubic (a b c d x : ℝ) :
    HasDerivAt (fun u : ℝ => a + b * u + c * u ^ 2 + d * u ^ 3)
      (b + 2 * c * x + 3 * d * x ^ 2) x := by
  have h := (((hasDerivAt_const x a).add ((hasDerivAt_id x).const_mul b)).add
    ((hasDerivAt_pow 2 x).const_mul c)).add ((hasDerivAt_pow 3 x).const_mul d)
  convert h using 1
  norm_num
  ring

/-- C3: for any five consecutive control points A,B,C,D,E and any tau, the
segment through (A,B,C,D) ends at C, the segment through (B,C,D,E) starts at C,
and the derivatives in u of the two segments agree there, coordinate by
coordinate: both are tau * (D - B). -/
theorem interpolate_joins_C1 (A B C D E : Vec3 ℝ) (tau : ℝ) :
    Track.interpolate A B C D tau 1 = C ∧ Track.interpolate B C D E tau 0 = C ∧
    HasDerivAt (fun u : ℝ => (Track.interpolate A B C D tau u).x) (tau * (D.x - B.x)) 1 ∧
    HasDerivAt (fun u : ℝ => (Track.interpolate A B C D tau u).y) (tau * (D.y - B.y)) 1 ∧
    HasDerivAt (fun u : ℝ => (Track.interpolate A B C D tau u).z) (tau * (D.z - B.z)) 1 ∧
    HasDerivAt (fun u : ℝ => (Track.interpolate B C D E tau u).x) (tau * (D.x - B.x)) 0 ∧
    HasDerivAt (fun u : ℝ => (Track.interpolate B C D E tau u).y) (tau * (D.y - B.y)) 0 ∧
    HasDerivAt (fun u : ℝ => (Track.interpolate B C D E tau u).z) (tau * (D.z - B.z)) 0 := by
  refine ⟨?_, ?_, ?_, ?_, ?_, ?_, ?_, ?_⟩
  · rw [Track.interpolate_poly]; ext <;> simp <;> ring
  · rw [Track.interpolate_poly]; ext <;> simp
  all_goals
    simp only [Track.interpolate_poly]
    refine (hasDerivAt_cubic _ _ _ _ _).congr_deriv ?_
    ring

section Window

variable {K : Type} [LinearOrderedField K] [FloorRing K]

/-- C4 (amended): for s ≥ 0 with floor(s) + max_s + 2 inside the 32-bit int
range, on a track whose max_s = N ≥ 1 counts its control points, get_point
selects pA = (floor(s)-1) mod N, pB = floor(s) mod N, pC = (floor(s)+1) mod N,
pD = (floor(s)+2) mod N and u = s - floor(s); the four indices lie in [0, N),
the four reads of controlPoints are in bounds, u lies in [0, 1) and get_point
returns a point. -/
theorem get_point_window_in_bounds (t : Track K) (s : K) (hN : 1 ≤ t.max_s)
    (hlen : (t.controlPoints.length : Int) = t.max_s) (hs : 0 ≤ s)
    (hr : ⌊s⌋ + t.max_s + 2 ≤ INT_MAX) :
    ∃ pA pB pC pD u, t.get_point_window s = some (pA, pB, pC, pD, u) ∧
      pA = (⌊s⌋ - 1) % t.max_s ∧ pB = ⌊s⌋ % t.max_s ∧ pC = (⌊s⌋ + 1) % t.max_s ∧
      pD = (⌊s⌋ + 2) % t.max_s ∧ u = s - (⌊s⌋ : K) ∧
      (0 ≤ pA ∧ pA < t.max_s) ∧ (0 ≤ pB ∧ pB < t.max_s) ∧
      (0 ≤ pC ∧ pC < t.max_s) ∧ (0 ≤ pD ∧ pD < t.max_s) ∧
      (vecAt t.controlPoints pA).isSome = true ∧ (vecAt t.controlPoints pB).isSome = true ∧
      (vecAt t.controlPoints pC).isSome = true ∧ (vecAt t.controlPoints pD).isSome = true ∧
      0 ≤ u ∧ u < 1 ∧ (t.get_point s).isSome = true := by
  have hne : t.max_s ≠ 0 := by omega
  have hpos : 0 < t.max_s := by omega
  obtain ⟨a, b, c, d, ha, hb, hc, hd, hg⟩ := Track.get_point_eq t s hN hlen hs hr
  refine ⟨_, _, _, _, _, Track.get_point_window_eq t s hN hs hr, rfl, rfl, rfl, rfl, rfl,
    ⟨Int.emod_nonneg _ hne, Int.emod_lt_of_pos _ hpos⟩,
    ⟨Int.emod_nonneg _ hne, Int.emod_lt_of_pos _ hpos⟩,
    ⟨Int.emod_nonneg _ hne, Int.emod_lt_of_pos _ hpos⟩,
    ⟨Int.emod_nonneg _ hne, Int.emod_lt_of_pos _ hpos⟩, ?_, ?_, ?_, ?_, ?_, ?_, ?_⟩
  · rw [ha]; rfl
  · rw [hb]; rfl
  · rw [hc]; rfl
  · rw [hd]; rfl
  · exact sub_nonneg.2 (Int.floor_le s)
  · have := Int.lt_floor_add_one s
    linarith
  · rw [hg]; rfl

end Window

/-- C4 witness: the figure-eight of scenario S2 at s = 15/2, where the window
wraps around the seam: indices 6, 7, 0, 1 and u = 1/2. -/
theorem get_point_window_in_bounds_witness :
    (1 : Int) ≤ figureEight.max_s ∧
    (figureEight.controlPoints.length : Int) = figureEight.max_s ∧
    (0 : ℚ) ≤ 15 / 2 ∧ ⌊(15 / 2 : ℚ)⌋ + figureEight.max_s + 2 ≤ INT_MAX ∧
    figureEight.get_point_window (15 / 2) = some (6, 7, 0, 1, 1 / 2) := by
  have h1 : (1 : Int) ≤ figureEight.max_s := by decide
  have h2 : (figureEight.controlPoints.length : Int) = figureEight.max_s := by decide
  have h3 : (0 : ℚ) ≤ 15 / 2 := by norm_num
  have h4 : ⌊(15 / 2 : ℚ)⌋ + figureEight.max_s + 2 ≤ INT_MAX := by
    norm_num [figureEight, INT_MAX]
  obtain ⟨pA, pB, pC, pD, u, hw, hA, hB, hC, hD, hu, -⟩ :=
    get_point_window_in_bounds figureEight (15 / 2) h1 h2 h3 h4
  refine ⟨h1, h2, h3, h4, ?_⟩
  rw [hw, hA, hB, hC, hD, hu]
  norm_num [figureEight]

/-- C4 counterexample: s = 2^31 is finite and non-negative, but the conversion
(int)floor(s) leaves the int range: no window index is defined and get_point
returns no point. -/
theorem get_point_window_overflow :
    (1 : Int) ≤ figureEight.max_s ∧
    (figureEight.controlPoints.length : Int) = figureEight.max_s ∧
    (0 : ℚ) ≤ 2147483648 ∧
    figureEight.get_point_window (2147483648 : ℚ) = none ∧
    figureEight.get_point (2147483648 : ℚ) = none := by
  have hfl : ⌊(2147483648 : ℚ)⌋ = 2147483648 := by norm_num
  have hw : figureEight.get_point_window (2147483648 : ℚ) = none := by
    simp [Track.get_point_window, hfl, toInt, INT_MAX]
  refine ⟨by decide, by decide, by norm_num, hw, ?_⟩
  simp [Track.get_point, hw]

/-! ## Track construction -/

section Samples

variable {K : Type} [LinearOrderedField K]

/-- The test s <= max_s of the extrusion loop at the sample s = k/32. -/
theorem sample_le_iff (k : ℕ) (N : Int) : (k : K) / 32 ≤ (N : K) ↔ (k : Int) ≤ 32 * N := by
  rw [div_le_iff₀ (by norm_num : (0 : K) < 32)]
  constructor
  · intro h
    have h2 : ((k : Int) : K) ≤ ((32 * N : Int) : K) := by
      push_cast; linarith
    exact_mod_cast h2
  · intro h
    have h2 : ((k : Int) : K) ≤ ((32 * N : Int) : K) := by exact_mod_cast h
    push_cast at h2
    linarith

end Samples

section Construction

variable {K : Type} [LinearOrderedField K] [FloorRing K]

/-- One pass of the extrusion loop body succeeds when its two get_point calls
do, and changes the vertices only. -/
theorem Track.create_track_step_some (sqrt : K → K) (step : K) (t : Track K)
    (o : Orientation K) (s : K) (p q : Vec3 K) (hp : t.get_point s = some p)
    (hq : t.get_point (s + step) = some q) :
    ∃ t' o', Track.create_track_step sqrt step t o s = some (t', o') ∧
      t'.controlPoints = t.controlPoints ∧ t'.hmax = t.hmax ∧ t'.max_s = t.max_s := by
  simp only [Track.create_track_step, hp, hq, bind, Option.bind]
  exact ⟨_, _, rfl, Track.rail_and_plank_fields sqrt t _ _ _⟩

/-- The extrusion loop started at the sample s = k/32 on a track of fewer than
524288 control points ends within the fuel when 32 * max_s < fuel + k, and
changes the vertices only: up to max_s the counter takes the exact values
k/32. -/
theorem Track.create_track_rails_some (sqrt : K → K) :
    ∀ (fuel : ℕ) (t : Track K) (o : Orientation K) (k : ℕ),
      1 ≤ t.max_s → (t.controlPoints.length : Int) = t.max_s → t.max_s < 524288 →
      32 * t.max_s < (fuel : Int) + k →
      ∃ t', Track.create_track_rails sqrt (1 / 32) fuel t o ((k : K) / 32) = some t' ∧
        t'.controlPoints = t.controlPoints ∧ t'.hmax = t.hmax ∧ t'.max_s = t.max_s := by
  intro fuel
  induction fuel with
  | zero =>
    intro t o k _ _ _ hf
    have hgt : ¬ (k : K) / 32 ≤ (t.max_s : K) := by
      rw [sample_le_iff]
      simp only [Nat.cast_zero, zero_add] at hf
      omega
    exact ⟨t, by simp [Track.create_track_rails, hgt], rfl, rfl, rfl⟩
  | succ n ih =>
    intro t o k hN hlen hb hf
    by_cases h : (k : K) / 32 ≤ (t.max_s : K)
    · have hle : (k : Int) ≤ 32 * t.max_s := (sample_le_iff k t.max_s).1 h
      have hs : (0 : K) ≤ (k : K) / 32 := by positivity
      have hfl : ⌊(k : K) / 32⌋ ≤ t.max_s := Int.floor_le_iff.2 (by
        have : (k : K) / 32 < (t.max_s : K) + 1 := by linarith
        exact_mod_cast this)
      have hfl2 : ⌊(k : K) / 32 + 1 / 32⌋ ≤ t.max_s := Int.floor_le_iff.2 (by
        have : (k : K) / 32 + 1 / 32 < (t.max_s : K) + 1 := by linarith
        exact_mod_cast this)
      obtain ⟨_, _, _, _, -, -, -, -, hp⟩ :=
        Track.get_point_eq t ((k : K) / 32) hN hlen hs (by simp only [INT_MAX]; omega)
      obtain ⟨_, _, _, _, -, -, -, -, hq⟩ :=
        Track.get_point_eq t ((k : K) / 32 + 1 / 32) hN hlen (by linarith)
          (by simp only [INT_MAX]; omega)
      obtain ⟨t2, o2, hstep, hc, hh, hm⟩ :=
        Track.create_track_step_some sqrt (1 / 32) t o ((k : K) / 32) _ _ hp hq
      have hnext : toFloat ((k : K) / 32 + 1 / 32) = ((k + 1 : ℕ) : K) / 32 := by
        have e : (k : K) / 32 + 1 / 32 = ((k + 1 : ℕ) : K) / 32 := by push_cast; ring
        rw [e]
        exact toFloat_step (k + 1) (by omega)
      obtain ⟨t', ht', hc', hh', hm'⟩ :=
        ih t2 o2 (k + 1) (by rw [hm]; exact hN) (by rw [hc, hm]; exact hlen)
          (by rw [hm]; exact hb) (by rw [hm]; push_cast at hf ⊢; omega)
      refine ⟨t', ?_, by rw [hc', hc], by rw [hh', hh], by rw [hm', hm]⟩
      simp only [Track.create_track_rails, h, if_true, hstep, bind, Option.bind, hnext]
      exact ht'
    · exact ⟨t, by simp [Track.create_track_rails, h], rfl, rfl, rfl⟩

/-- Construction succeeds on every non-empty list of fewer than 524288
displacements, given fuel for the 32 * N passes of the extrusion loop; the
fields of the track are those the first loop computes. -/
theorem Track.construct_some (sqrt : K → K) (fuel : ℕ) (pts : List (Vec3 K)) (hne : pts ≠ [])
    (hlen : pts.length < 524288) (hfuel : 32 * pts.length ≤ fuel) :
    ∃ t, Track.construct sqrt fuel pts = some t ∧
      t.controlPoints = storedPoints ⟨-2, 0, -2⟩ pts ∧
      t.hmax = raisedHmax 0 ⟨-2, 0, -2⟩ pts * (21 / 20) ∧
      t.max_s = pts.length := by
  have hpos : 1 ≤ pts.length := by
    cases pts with
    | nil => exact absurd rfl hne
    | cons _ _ => simp
  obtain ⟨t1, ht1⟩ : ∃ t1 : Track K, t1 = ⟨[] ++ storedPoints ⟨-2, 0, -2⟩ pts, [],
      raisedHmax 0 ⟨-2, 0, -2⟩ pts * (21 / 20), 0 + (pts.length : Int)⟩ := ⟨_, rfl⟩
  have hc1 : t1.controlPoints = storedPoints ⟨-2, 0, -2⟩ pts := by rw [ht1]; simp
  have hh1 : t1.hmax = raisedHmax 0 ⟨-2, 0, -2⟩ pts * (21 / 20) := by rw [ht1]
  have hm1 : t1.max_s = pts.length := by rw [ht1]; simp
  have hN : 1 ≤ t1.max_s := by rw [hm1]; omega
  have hl : (t1.controlPoints.length : Int) = t1.max_s := by
    rw [hc1, hm1, storedPoints_length]
  have hb : t1.max_s < 524288 := by rw [hm1]; omega
  obtain ⟨_, _, _, _, -, -, -, -, hp⟩ :=
    Track.get_point_eq t1 (0 : K) hN hl (le_refl _) (by simp [INT_MAX]; omega)
  have hfl : ⌊(0 : K) + 1 / 32⌋ = 0 := by
    rw [Int.floor_eq_iff]; constructor <;> norm_num
  obtain ⟨_, _, _, _, -, -, -, -, hq⟩ :=
    Track.get_point_eq t1 ((0 : K) + 1 / 32) hN hl (by norm_num)
      (by rw [hfl]; simp only [INT_MAX]; omega)
  have hrails := fun o => Track.create_track_rails_some sqrt fuel t1 o 1 hN hl hb
    (by rw [hm1]; push_cast; omega)
  have e1 : (1 : K) * (1 / 32) = ((1 : ℕ) : K) / 32 := by norm_num
  simp only [Track.construct, Track.create_track, bind, Option.bind]
  rw [Track.create_track_points_eq pts _ _ (le_refl _) (by simp [INT_MAX]; omega)]
  simp only []
  rw [← ht1, hp, hq]
  simp only []
  rw [← hc1, ← hh1, ← hm1, e1]
  exact hrails _

/-- Whatever one pass of the extrusion loop body returns differs from the
track it started from in the vertices only. -/
theorem Track.create_track_step_inv (sqrt : K → K) (step : K) (t t' : Track K)
    (o o' : Orientation K) (s : K)
    (h : Track.create_track_step sqrt step t o s = some (t', o')) :
    t'.controlPoints = t.controlPoints ∧ t'.hmax = t.hmax ∧ t'.max_s = t.max_s := by
  cases hp : t.get_point s with
  | none => simp [Track.create_track_step, hp] at h
  | some p =>
    cases hq : t.get_point (s + step) with
    | none => simp [Track.create_track_step, hp, hq] at h
    | some q =>
      obtain ⟨t2, o2, h2, hf⟩ := Track.create_track_step_some sqrt step t o s p q hp hq
      rw [h2] at h
      have e : t2 = t' := congrArg Prod.fst (Option.some.inj h)
      rw [← e]; exact hf

/-- Whatever the extrusion loop returns differs from the track it started from
in the vertices only. -/
theorem Track.create_track_rails_inv (sqrt : K → K) (step : K) :
    ∀ (fuel : ℕ) (t t' : Track K) (o : Orientation K) (s : K),
      Track.create_track_rails sqrt step fuel t o s = some t' →
      t'.controlPoints = t.controlPoints ∧ t'.hmax = t.hmax ∧ t'.max_s = t.max_s := by
  intro fuel
  induction fuel with
  | zero =>
    intro t t' o s h
    by_cases hc : s ≤ (t.max_s : K)
    · simp [Track.create_track_rails, hc] at h
    · simp only [Track.create_track_rails, hc, if_false, Option.some.injEq] at h
      subst h; exact ⟨rfl, rfl, rfl⟩
  | succ n ih =>
    intro t t' o s h
    by_cases hc : s ≤ (t.max_s : K)
    · simp only [Track.create_track_rails, hc, if_true, bind, Option.bind] at h
      cases hstep : Track.create_track_step sqrt step t o s with
      | none => rw [hstep] at h; cases h
      | some r =>
        obtain ⟨t2, o2⟩ := r
        rw [hstep] at h
        obtain ⟨a1, a2, a3⟩ := Track.create_track_step_inv sqrt step t t2 o o2 s hstep
        obtain ⟨b1, b2, b3⟩ := ih t2 t' o2 _ h
        exact ⟨b1.trans a1, b2.trans a2, b3.trans a3⟩
    · simp only [Track.create_track_rails, hc, if_false, Option.some.injEq] at h
      subst h; exact ⟨rfl, rfl, rfl⟩

/-- Whatever construction returns has the stored points as control points, the
raised and inflated hmax, and max_s equal to the number of displacements. -/
theorem Track.construct_inv (sqrt : K → K) (fuel : ℕ) (pts : List (Vec3 K)) (t : Track K)
    (h : Track.construct sqrt fuel pts = some t) :
    t.controlPoints = storedPoints ⟨-2, 0, -2⟩ pts ∧
    t.hmax = raisedHmax 0 ⟨-2, 0, -2⟩ pts * (21 / 20) ∧
    t.max_s = pts.length := by
  simp only [Track.construct, Track.create_track, bind, Option.bind] at h
  cases h0 : Track.create_track_points
      (⟨[], [], 0, 0⟩ : Track K)
      ⟨-2, 0, -2⟩ pts with
  | none => rw [h0] at h; cases h
  | some t0 =>
    rw [h0] at h
    simp only [] at h
    obtain ⟨c1, c2, c3⟩ := Track.create_track_points_inv pts _ t0 _ h0
    cases hp : Track.get_point
        (⟨t0.controlPoints, t0.vertices, t0.hmax * (21 / 20), t0.max_s⟩ : Track K) 0 with
    | none => rw [hp] at h; cases h
    | some p =>
      rw [hp] at h
      simp only [] at h
      cases hq : Track.get_point
          (⟨t0.controlPoints, t0.vertices, t0.hmax * (21 / 20), t0.max_s⟩ : Track K)
          (0 + 1 / 32) with
      | none => rw [hq] at h; cases h
      | some q =>
        rw [hq] at h
        simp only [] at h
        obtain ⟨d1, d2, d3⟩ := Track.create_track_rails_inv sqrt _ fuel _ t _ _ h
        refine ⟨?_, ?_, ?_⟩
        · rw [d1, c1]; simp
        · rw [d2, c2]
        · rw [d3, c3]; simp

/-- Construction on the empty list of displacements has no defined result:
get_point(0) takes a remainder by max_s = 0. -/
theorem Track.construct_nil (sqrt : K → K) (fuel : ℕ) :
    Track.construct sqrt fuel ([] : List (Vec3 K)) = none := by
  simp [Track.construct, Track.create_track, Track.create_track_points, Track.get_point,
    Track.get_point_window, toInt, addInt, subInt, modInt, INT_MIN, INT_MAX]

/-- C5 (amended): for every non-empty list of loaded displacements, the track
that create_track returns has hmax equal to 1.05 times the larger of 0 and the
maximum y among the control points stored in controlPoints; and create_track
does return a track when the list has fewer than 524288 entries (given fuel
for the 32 * N passes of the extrusion loop), the sizes for which the float
counter of the extrusion loop reaches max_s. -/
theorem hmax_after_construct (sqrt : K → K) (fuel : ℕ) (pts : List (Vec3 K)) (hne : pts ≠ []) :
    (∀ t, Track.construct sqrt fuel pts = some t →
      ∃ m, maxY t.controlPoints = some m ∧ t.hmax = 21 / 20 * max 0 m) ∧
    (pts.length < 524288 → 32 * pts.length ≤ fuel →
      ∃ t, Track.construct sqrt fuel pts = some t) := by
  constructor
  · intro t ht
    obtain ⟨hc, hh, -⟩ := Track.construct_inv sqrt fuel pts t ht
    obtain ⟨m, hm⟩ := maxY_isSome (storedPoints ⟨-2, 0, -2⟩ pts) (storedPoints_ne_nil _ _ hne)
    refine ⟨m, by rw [hc]; exact hm, ?_⟩
    rw [hh, raisedHmax_eq, hm]
    ring
  · intro hlen hfuel
    obtain ⟨t, ht, -⟩ := Track.construct_some sqrt fuel pts hne hlen hfuel
    exact ⟨t, ht⟩

end Construction

/-- C5 witness: the raised-edge loop, whose highest control point has y = 10:
construction returns a track with hmax = 10.5. -/
theorem hmax_after_construct_witness :
    raisedEdgeLoop ≠ [] ∧
    ∃ t, Track.construct Rat.sqrt 128 raisedEdgeLoop = some t ∧
      maxY t.controlPoints = some 10 ∧ t.hmax = 21 / 2 := by
  have h1 : raisedEdgeLoop ≠ [] := by simp [raisedEdgeLoop]
  obtain ⟨hval, hex⟩ := hmax_after_construct Rat.sqrt 128 raisedEdgeLoop h1
  obtain ⟨t, ht⟩ := hex (by decide) (by decide)
  obtain ⟨m, hm, hh⟩ := hval t ht
  obtain ⟨hc, -, -⟩ := Track.construct_inv Rat.sqrt 128 raisedEdgeLoop t ht
  have hm10 : maxY t.controlPoints = some (10 : ℚ) := by
    rw [hc]; norm_num [raisedEdgeLoop, storedPoints, maxY, Vec3.add, Vec3.scale]
  have : m = 10 := Option.some.inj (hm.symm.trans hm10)
  subst this
  exact ⟨h1, t, ht, hm, by rw [hh]; norm_num⟩

/-- C5 counterexample: on the sunken loop every control point has y = -2, yet
hmax = 0, which is not 1.05 * (-2). -/
theorem hmax_of_sunken_loop :
    sunkenLoop ≠ [] ∧
    ∃ t, Track.construct Rat.sqrt 128 sunkenLoop = some t ∧
      maxY t.controlPoints = some (-2) ∧ t.hmax = 0 ∧ t.hmax ≠ 21 / 20 * (-2) := by
  have h1 : sunkenLoop ≠ [] := by simp [sunkenLoop]
  obtain ⟨t, ht, hc, hh, -⟩ :=
    Track.construct_some Rat.sqrt 128 sunkenLoop h1 (by decide) (by decide)
  have hh0 : t.hmax = 0 := by
    rw [hh]; norm_num [sunkenLoop, raisedHmax, Vec3.add]
  refine ⟨h1, t, ht, ?_, hh0, by rw [hh0]; norm_num⟩
  rw [hc]; norm_num [sunkenLoop, storedPoints, maxY, Vec3.add, Vec3.scale]

/-- C6, the code at two failing inputs.  On the raised-edge loop hmax = 10.5 but
the curve reaches y = 11.25 at s = 1.5, so the radicand 2*G*(hmax - y) is
negative there.  On the flat square loop of scenario S1 hmax = 0 = y at s = 0,
so the radicand and the velocity are zero. -/
theorem hmax_not_above_curve :
    (∃ t p, Track.construct Rat.sqrt 128 raisedEdgeLoop = some t ∧ t.hmax = 21 / 2 ∧
      t.get_point (3 / 2) = some p ∧ p.y = 45 / 4 ∧ ¬ (t.hmax > p.y) ∧
      2 * G * (t.hmax - p.y) < 0) ∧
    (∃ t p, Track.construct Rat.sqrt 128 flatSquare = some t ∧ t.hmax = 0 ∧
      t.get_point 0 = some p ∧ p.y = 0 ∧ ¬ (t.hmax > p.y) ∧
      Rat.sqrt (2 * G * (t.hmax - p.y)) = 0) := by
  constructor
  · obtain ⟨t, ht, hc, hh, hm⟩ :=
      Track.construct_some Rat.sqrt 128 raisedEdgeLoop (by simp [raisedEdgeLoop]) (by decide)
        (by decide)
    have hh' : t.hmax = 21 / 2 := by
      rw [hh]; norm_num [raisedEdgeLoop, raisedHmax, Vec3.add]
    have hc' : t.controlPoints = [⟨0, 0, 0⟩, ⟨2, 10, 0⟩, ⟨2, 10, 2⟩, ⟨0, 0, 2⟩] := by
      rw [hc]; norm_num [raisedEdgeLoop, storedPoints, Vec3.add, Vec3.scale]
    have hm' : t.max_s = 4 := by rw [hm]; rfl
    have hfl : ⌊(3 / 2 : ℚ)⌋ = 1 := by norm_num
    have hg : t.get_point (3 / 2) = some ⟨9 / 4, 45 / 4, 1⟩ := by
      simp only [Track.get_point, Track.get_point_window, hc', hm', hfl, toInt, addInt, subInt,
        INT_MAX, INT_MIN, bind, Option.bind]
      simp [modInt_of_pos, vecAt, Track.interpolate_poly]
      norm_num
    refine ⟨t, _, ht, hh', hg, rfl, ?_, ?_⟩
    · rw [hh']; norm_num
    · rw [hh']; norm_num [G]
  · obtain ⟨t, ht, hc, hh, hm⟩ :=
      Track.construct_some Rat.sqrt 128 flatSquare (by simp [flatSquare]) (by decide)
        (by decide)
    have hh' : t.hmax = 0 := by
      rw [hh]; norm_num [flatSquare, raisedHmax, Vec3.add]
    have hc' : t.controlPoints = [⟨0, 0, 0⟩, ⟨1, 0, 0⟩, ⟨1, 0, 1⟩, ⟨0, 0, 1⟩] := by
      rw [hc]; norm_num [flatSquare, storedPoints, Vec3.add, Vec3.scale]
    have hm' : t.max_s = 4 := by rw [hm]; rfl
    have hfl : ⌊(0 : ℚ)⌋ = 0 := by norm_num
    have hg : t.get_point 0 = some ⟨0, 0, 0⟩ := by
      simp only [Track.get_point, Track.get_point_window, hc', hm', hfl, toInt, addInt, subInt,
        INT_MAX, INT_MIN, bind, Option.bind]
      simp [modInt_of_pos, vecAt, Track.interpolate_poly]
    refine ⟨t, _, ht, hh', hg, rfl, ?_, ?_⟩
    · rw [hh']; norm_num
    · rw [hh']; norm_num [G, Rat.sqrt]

section FewPoints

variable {K : Type} [LinearOrderedField K] [FloorRing K]

/-- C7 (amended): constructing a track from 1, 2 or 3 displacements does not
fail: create_track returns a track whose max_s is the number of points, whose
control points are the doubled running sums, and on which get_point(0) is
evaluated to a point. -/
theorem construct_few_points (sqrt : K → K) (fuel : ℕ) (pts : List (Vec3 K))
    (h1 : 1 ≤ pts.length) (h4 : pts.length < 4) (hfuel : 32 * pts.length ≤ fuel) :
    ∃ t, Track.construct sqrt fuel pts = some t ∧ t.max_s = pts.length ∧
      t.controlPoints = storedPoints ⟨-2, 0, -2⟩ pts ∧ (t.get_point (0 : K)).isSome = true := by
  have hne : pts ≠ [] := by
    intro h; rw [h] at h1; simp at h1
  obtain ⟨t, ht, hc, -, hm⟩ :=
    Track.construct_some sqrt fuel pts hne (by omega) hfuel
  refine ⟨t, ht, hm, hc, ?_⟩
  obtain ⟨_, _, _, _, -, -, -, -, hp⟩ :=
    Track.get_point_eq t (0 : K) (by rw [hm]; omega) (by rw [hc, hm, storedPoints_length])
      (le_refl _) (by simp only [Int.floor_zero, INT_MAX]; omega)
  rw [hp]; rfl

end FewPoints

/-- C7 witness: three displacements build a track with max_s = 3. -/
theorem construct_few_points_witness :
    1 ≤ threePoints.length ∧ threePoints.length < 4 ∧ 32 * threePoints.length ≤ 96 ∧
    ∃ t, Track.construct Rat.sqrt 96 threePoints = some t ∧ t.max_s = 3 ∧
      (t.get_point (0 : ℚ)).isSome = true := by
  have h1 : 1 ≤ threePoints.length := by decide
  have h2 : threePoints.length < 4 := by decide
  have h3 : 32 * threePoints.length ≤ 96 := by decide
  obtain ⟨t, ht, hm, -, hg⟩ := construct_few_points Rat.sqrt 96 threePoints h1 h2 h3
  exact ⟨h1, h2, h3, t, ht, hm, hg⟩

/-- C7 counterexample: construction from three control points returns a track
(max_s = 3, control points (0,0,0), (2,0,0), (2,0,2)); it does not fail. -/
theorem construct_three_points_succeeds :
    threePoints.length < 4 ∧
    ∃ t, Track.construct Rat.sqrt 96 threePoints = some t ∧ t.max_s = 3 ∧
      t.controlPoints = [⟨0, 0, 0⟩, ⟨2, 0, 0⟩, ⟨2, 0, 2⟩] := by
  obtain ⟨t, ht, hc, -, hm⟩ :=
    Track.construct_some Rat.sqrt 96 threePoints (by simp [threePoints]) (by decide) (by decide)
  refine ⟨by decide, t, ht, hm, ?_⟩
  rw [hc]; norm_num [threePoints, storedPoints, Vec3.add, Vec3.scale]

section Flat

variable {K : Type} [LinearOrderedField K] [FloorRing K]

/-- C8 (amended): constructing a track whose displacements all have dy = 0, so
that every control point has y = 0, does not fail: for every such non-empty
list of fewer than 524288 displacements create_track returns a track, whose
control points all have y = 0 and whose max_s is their number. -/
theorem construct_flat (sqrt : K → K) (fuel : ℕ) (pts : List (Vec3 K)) (hne : pts ≠ [])
    (hlen : pts.length < 524288) (hfuel : 32 * pts.length ≤ fuel)
    (hflat : ∀ d ∈ pts, d.y = 0) :
    ∃ t, Track.construct sqrt fuel pts = some t ∧ t.max_s = pts.length ∧
      t.controlPoints = storedPoints ⟨-2, 0, -2⟩ pts ∧
      ∀ p ∈ t.controlPoints, p.y = 0 := by
  obtain ⟨t, ht, hc, -, hm⟩ := Track.construct_some sqrt fuel pts hne hlen hfuel
  have hall := storedPoints_flat pts (⟨-2, 0, -2⟩ : Vec3 K) rfl hflat
  exact ⟨t, ht, hm, hc, by rw [hc]; exact hall⟩

end Flat

/-- C8 witness: the flat square loop of scenario S1 builds a track with
max_s = 4 whose control points all have y = 0. -/
theorem construct_flat_witness :
    flatSquare ≠ [] ∧ flatSquare.length < 524288 ∧
    32 * flatSquare.length ≤ 128 ∧ (∀ d ∈ flatSquare, d.y = 0) ∧
    ∃ t, Track.construct Rat.sqrt 128 flatSquare = some t ∧ t.max_s = 4 ∧
      ∀ p ∈ t.controlPoints, p.y = 0 := by
  have h1 : flatSquare ≠ [] := by simp [flatSquare]
  have h2 : flatSquare.length < 524288 := by decide
  have h3 : 32 * flatSquare.length ≤ 128 := by decide
  have h4 : ∀ d ∈ flatSquare, d.y = 0 := by simp [flatSquare]
  obtain ⟨t, ht, hm, -, hy⟩ := construct_flat Rat.sqrt 128 flatSquare h1 h2 h3 h4
  exact ⟨h1, h2, h3, h4, t, ht, by rw [hm]; rfl, hy⟩

/-- C8 counterexample: scenario S1.  Construction on the flat square loop
returns a track with control points (0,0,0), (1,0,0), (1,0,1), (0,0,1) and
hmax = 0; it does not fail. -/
theorem construct_flat_square_succeeds :
    ∃ t, Track.construct Rat.sqrt 128 flatSquare = some t ∧
      t.controlPoints = [⟨0, 0, 0⟩, ⟨1, 0, 0⟩, ⟨1, 0, 1⟩, ⟨0, 0, 1⟩] ∧ t.hmax = 0 := by
  obtain ⟨t, ht, hc, hh, -⟩ :=
    Track.construct_some Rat.sqrt 128 flatSquare (by simp [flatSquare]) (by decide) (by decide)
  refine ⟨t, ht, ?_, ?_⟩
  · rw [hc]; norm_num [flatSquare, storedPoints, Vec3.add, Vec3.scale]
  · rw [hh]; norm_num [flatSquare, raisedHmax, Vec3.add]

/-! ## The camera tick -/

section Tick

variable {K : Type} [LinearOrderedField K] [FloorRing K]

/-- For x ≥ 0 and y > 0 the remainder fmod(x, y) lies in [0, y). -/
theorem fmod_range (x y : K) (hx : 0 ≤ x) (hy : 0 < y) : 0 ≤ fmod x y ∧ fmod x y < y := by
  have hq : 0 ≤ x / y := div_nonneg hx (le_of_lt hy)
  have h1 : ((⌊x / y⌋ : Int) : K) ≤ x / y := Int.floor_le _
  have h2 : x / y < ((⌊x / y⌋ : Int) : K) + 1 := Int.lt_floor_add_one _
  have e : x = x / y * y := by field_simp
  simp only [fmod, hq, if_true]
  constructor
  · have : ((⌊x / y⌋ : Int) : K) * y ≤ x / y * y := mul_le_mul_of_nonneg_right h1 (le_of_lt hy)
    linarith
  · have : x / y * y < (((⌊x / y⌋ : Int) : K) + 1) * y := mul_lt_mul_of_pos_right h2 hy
    linarith

/-- The value of s from which the march of ProcessTrackMovement starts: the
incoming s, reduced by fmod when it exceeds max_s. -/
theorem wrapped_start_range (s : K) (N : Int) (hN : 1 ≤ N) (hs : 0 ≤ s) :
    0 ≤ (if s > (N : K) then fmod s (N : K) else s) ∧
    (if s > (N : K) then fmod s (N : K) else s) ≤ (N : K) := by
  have hpos : (0 : K) < (N : K) := by exact_mod_cast (by omega : (0 : Int) < N)
  split_ifs with h
  · exact ⟨(fmod_range s _ hs hpos).1, le_of_lt (fmod_range s _ hs hpos).2⟩
  · exact ⟨hs, not_lt.1 h⟩

/-- What the while loop returns: it has advanced s by a whole number n of
steps and reduced frame_movement by n times the one distance measured before
the loop; the loop condition held before each of the n passes and fails at
the end. -/
theorem Camera.ProcessTrackMovement_loop_result (sqrt : K → K) (track : Track K)
    (next_pos : Vec3 K) (distance step : K) :
    ∀ (fuel : ℕ) (s fm : K) (r : K × K),
      Camera.ProcessTrackMovement_loop sqrt track next_pos distance step fuel s fm = some r →
      ∃ n : ℕ, r.1 = s + n * step ∧ r.2 = fm - n * distance ∧ ¬ distance < r.2 ∧
        ∀ k : ℕ, k < n → distance < fm - k * distance := by
  intro fuel
  induction fuel with
  | zero =>
    intro s fm r h
    by_cases hc : distance < fm
    · simp [Camera.ProcessTrackMovement_loop, hc] at h
    · simp only [Camera.ProcessTrackMovement_loop, hc, if_false, Option.some.injEq] at h
      subst h
      exact ⟨0, by simp, by simp, hc, by intro k hk; omega⟩
  | succ m ih =>
    intro s fm r h
    by_cases hc : distance < fm
    · simp only [Camera.ProcessTrackMovement_loop, hc, if_true, bind, Option.bind] at h
      cases hg : track.get_point (s + step + step) with
      | none => rw [hg] at h; cases h
      | some q =>
        rw [hg] at h
        obtain ⟨n, h1, h2, h3, h4⟩ := ih _ _ r h
        refine ⟨n + 1, ?_, ?_, h3, ?_⟩
        · rw [h1]; push_cast; ring
        · rw [h2]; push_cast; ring
        · intro k hk
          cases k with
          | zero => simpa using hc
          | succ j =>
            have := h4 j (by omega)
            push_cast
            linarith
    · simp only [Camera.ProcessTrackMovement_loop, hc, if_false, Option.some.injEq] at h
      subst h
      exact ⟨0, by simp, by simp, hc, by intro k hk; omega⟩

/-- The parts of a completed ProcessTrackMovement: the three get_point calls
before the loop returned points, the loop returned, and the new s is the one
the loop returned. -/
theorem Camera.ProcessTrackMovement_inv (sqrt : K → K) (fuel : ℕ) (cam cam' : Camera K)
    (dt : K) (track : Track K)
    (h : Camera.ProcessTrackMovement sqrt fuel cam dt track = some cam') :
    ∃ here temp next r,
      track.get_point cam.s = some here ∧
      track.get_point (if cam.s > (track.max_s : K) then fmod cam.s (track.max_s : K)
        else cam.s) = some temp ∧
      track.get_point ((if cam.s > (track.max_s : K) then fmod cam.s (track.max_s : K)
        else cam.s) + 1 / 10000) = some next ∧
      Camera.ProcessTrackMovement_loop sqrt track next (Vec3.distance sqrt next temp)
        (1 / 10000) fuel
        (if cam.s > (track.max_s : K) then fmod cam.s (track.max_s : K) else cam.s)
        (sqrt (2 * G * (track.hmax - here.y)) * dt) = some r ∧
      cam'.s = r.1 := by
  unfold Camera.ProcessTrackMovement at h
  simp only [bind, Option.bind] at h
  cases h1 : track.get_point cam.s with
  | none => rw [h1] at h; cases h
  | some here =>
    rw [h1] at h
    simp only [] at h
    cases h2 : track.get_point (if cam.s > (track.max_s : K) then fmod cam.s (track.max_s : K)
        else cam.s) with
    | none => rw [h2] at h; cases h
    | some temp =>
      rw [h2] at h
      simp only [] at h
      cases h3 : track.get_point ((if cam.s > (track.max_s : K) then
          fmod cam.s (track.max_s : K) else cam.s) + 1 / 10000) with
      | none => rw [h3] at h; cases h
      | some next =>
        rw [h3] at h
        simp only [] at h
        cases h4 : Camera.ProcessTrackMovement_loop sqrt track next (Vec3.distance sqrt next temp)
            (1 / 10000) fuel
            (if cam.s > (track.max_s : K) then fmod cam.s (track.max_s : K) else cam.s)
            (sqrt (2 * G * (track.hmax - here.y)) * dt) with
        | none => rw [h4] at h; cases h
        | some r =>
          rw [h4] at h
          refine ⟨here, temp, next, r, rfl, rfl, rfl, h4, ?_⟩
          simp only [] at h
          split_ifs at h
          all_goals
            have e := Option.some.inj h
            subst e
            rfl

/-- ProcessTrackMovement completes when its three get_point calls and its
loop do, and the new s is the one the loop returned. -/
theorem Camera.ProcessTrackMovement_some (sqrt : K → K) (fuel : ℕ) (cam : Camera K)
    (dt : K) (track : Track K) (here temp next : Vec3 K) (r : K × K)
    (h1 : track.get_point cam.s = some here)
    (h2 : track.get_point (if cam.s > (track.max_s : K) then fmod cam.s (track.max_s : K)
        else cam.s) = some temp)
    (h3 : track.get_point ((if cam.s > (track.max_s : K) then fmod cam.s (track.max_s : K)
        else cam.s) + 1 / 10000) = some next)
    (h4 : Camera.ProcessTrackMovement_loop sqrt track next (Vec3.distance sqrt next temp)
        (1 / 10000) fuel
        (if cam.s > (track.max_s : K) then fmod cam.s (track.max_s : K) else cam.s)
        (sqrt (2 * G * (track.hmax - here.y)) * dt) = some r) :
    ∃ cam', Camera.ProcessTrackMovement sqrt fuel cam dt track = some cam' ∧ cam'.s = r.1 := by
  unfold Camera.ProcessTrackMovement
  simp only [bind, Option.bind, h1, h2, h3, h4]
  split_ifs <;> exact ⟨_, rfl, rfl⟩

/-- C9 (amended): for every track with max_s ≥ 1, every deltaTime and every
starting s ≥ 0, ProcessTrackMovement applies the wrap to the incoming s, before
the march: the march starts from a value in [0, max_s] and on return s is that
value plus a whole number of steps of 0.0001, so 0 ≤ s. -/
theorem tick_parameter_range (sqrt : K → K) (fuel : ℕ) (cam cam' : Camera K) (dt : K)
    (track : Track K) (hN : 1 ≤ track.max_s) (hs : 0 ≤ cam.s)
    (h : Camera.ProcessTrackMovement sqrt fuel cam dt track = some cam') :
    0 ≤ (if cam.s > (track.max_s : K) then fmod cam.s (track.max_s : K) else cam.s) ∧
    (if cam.s > (track.max_s : K) then fmod cam.s (track.max_s : K) else cam.s)
      ≤ (track.max_s : K) ∧
    (∃ n : ℕ, cam'.s =
      (if cam.s > (track.max_s : K) then fmod cam.s (track.max_s : K) else cam.s)
        + n * (1 / 10000)) ∧
    0 ≤ cam'.s := by
  obtain ⟨here, temp, next, r, -, -, -, hloop, hr⟩ :=
    Camera.ProcessTrackMovement_inv sqrt fuel cam cam' dt track h
  obtain ⟨n, hn, -, -, -⟩ :=
    Camera.ProcessTrackMovement_loop_result sqrt track next _ _ fuel _ _ r hloop
  obtain ⟨hw0, hw1⟩ := wrapped_start_range cam.s track.max_s hN hs
  refine ⟨hw0, hw1, ⟨n, by rw [hr, hn]⟩, ?_⟩
  rw [hr, hn]
  have : (0 : K) ≤ (n : K) * (1 / 10000) := by positivity
  linarith

end Tick

theorem distance_along_x (a b y z : ℚ) :
    Vec3.distance Rat.sqrt (⟨a, y, z⟩ : Vec3 ℚ) ⟨b, y, z⟩ = |b - a| := by
  simp only [Vec3.distance, Vec3.length, Vec3.sub, Vec3.dot, sub_self, mul_zero, add_zero]
  exact Rat.sqrt_eq _

theorem rat_sqrt_49 : Rat.sqrt 49 = 7 := by
  rw [show (49 : ℚ) = 7 * 7 by norm_num, Rat.sqrt_eq]; norm_num

/-- The points of the uneven line at s = 0, 0.0001, 0.0002 and 0.0003. -/
theorem unevenLine_points (t : Track ℚ)
    (hc : t.controlPoints = [⟨0, 50, 0⟩, ⟨1, 50, 0⟩, ⟨3, 50, 0⟩, ⟨-1, 50, 0⟩])
    (hm : t.max_s = 4) :
    t.get_point 0 = some ⟨0, 50, 0⟩ ∧
    t.get_point (1 / 10000) = some ⟨199990001 / 2000000000000, 50, 0⟩ ∧
    t.get_point (2 / 10000) = some ⟨199980004 / 1000000000000, 50, 0⟩ ∧
    t.get_point (3 / 10000) = some ⟨599910027 / 2000000000000, 50, 0⟩ := by
  have f0 : ⌊(0 : ℚ)⌋ = 0 := by norm_num
  have f1 : ⌊(1 / 10000 : ℚ)⌋ = 0 := by norm_num
  have f2 : ⌊(2 / 10000 : ℚ)⌋ = 0 := by norm_num
  have f3 : ⌊(3 / 10000 : ℚ)⌋ = 0 := by norm_num
  refine ⟨?_, ?_, ?_, ?_⟩
  · simp only [Track.get_point, Track.get_point_window, hc, hm, f0, toInt, addInt, subInt,
      INT_MAX, INT_MIN, bind, Option.bind]
    simp [modInt_of_pos, vecAt, Track.interpolate_poly]
  · simp only [Track.get_point, Track.get_point_window, hc, hm, f1, toInt, addInt, subInt,
      INT_MAX, INT_MIN, bind, Option.bind]
    simp [modInt_of_pos, vecAt, Track.interpolate_poly]
    norm_num
  · simp only [Track.get_point, Track.get_point_window, hc, hm, f2, toInt, addInt, subInt,
      INT_MAX, INT_MIN, bind, Option.bind]
    simp [modInt_of_pos, vecAt, Track.interpolate_poly]
    norm_num
  · simp only [Track.get_point, Track.get_point_window, hc, hm, f3, toInt, addInt, subInt,
      INT_MAX, INT_MIN, bind, Option.bind]
    simp [modInt_of_pos, vecAt, Track.interpolate_poly]
    norm_num

/-- The track that construction builds from the uneven line. -/
theorem unevenLine_track :
    ∃ t, Track.construct Rat.sqrt 128 unevenLine = some t ∧
      t.controlPoints = [⟨0, 50, 0⟩, ⟨1, 50, 0⟩, ⟨3, 50, 0⟩, ⟨-1, 50, 0⟩] ∧
      t.hmax = 105 / 2 ∧ t.max_s = 4 := by
  obtain ⟨t, ht, hc, hh, hm⟩ :=
    Track.construct_some Rat.sqrt 128 unevenLine (by simp [unevenLine]) (by decide) (by decide)
  refine ⟨t, ht, ?_, ?_, by rw [hm]; rfl⟩
  · rw [hc]; norm_num [unevenLine, storedPoints, Vec3.add, Vec3.scale]
  · rw [hh]; norm_num [unevenLine, raisedHmax, Vec3.add]

/-- One tick of the fresh camera on the uneven line with the short frame time:
the loop makes one pass and stops at s = 0.0001 with
frame_movement = 99990002 / 1000000000000 left. -/
theorem unevenLine_tick (t : Track ℚ)
    (hc : t.controlPoints = [⟨0, 50, 0⟩, ⟨1, 50, 0⟩, ⟨3, 50, 0⟩, ⟨-1, 50, 0⟩])
    (hh : t.hmax = 105 / 2) (hm : t.max_s = 4) :
    Camera.ProcessTrackMovement_loop Rat.sqrt t ⟨199990001 / 2000000000000, 50, 0⟩
        (199990001 / 2000000000000) (1 / 10000) 1 0 (7 * shortTick)
      = some (1 / 10000, 99990002 / 1000000000000) ∧
    ∃ cam', Camera.ProcessTrackMovement Rat.sqrt 1 freshCamera shortTick t = some cam' ∧
      cam'.s = 1 / 10000 := by
  obtain ⟨g0, g1, g2, -⟩ := unevenLine_points t hc hm
  have hloop : Camera.ProcessTrackMovement_loop Rat.sqrt t ⟨199990001 / 2000000000000, 50, 0⟩
        (199990001 / 2000000000000) (1 / 10000) 1 0 (7 * shortTick)
      = some (1 / 10000, 99990002 / 1000000000000) := by
    have e2 : (0 : ℚ) + 1 / 10000 + 1 / 10000 = 2 / 10000 := by norm_num
    have c1 : (199990001 / 2000000000000 : ℚ) < 7 * shortTick := by norm_num [shortTick]
    have c2 : ¬ (199990001 / 2000000000000 : ℚ) < 7 * shortTick - 199990001 / 2000000000000 := by
      norm_num [shortTick]
    simp only [Camera.ProcessTrackMovement_loop, c1, c2, if_true, if_false, e2, g2, bind,
      Option.bind]
    norm_num [shortTick]
  refine ⟨hloop, ?_⟩
  have hw : (if freshCamera.s > (t.max_s : ℚ) then fmod freshCamera.s (t.max_s : ℚ)
      else freshCamera.s) = 0 := by
    simp [freshCamera, hm]
  have hs0 : freshCamera.s = 0 := rfl
  obtain ⟨cam', h1, h2⟩ := Camera.ProcessTrackMovement_some Rat.sqrt 1 freshCamera shortTick t
    ⟨0, 50, 0⟩ ⟨0, 50, 0⟩ ⟨199990001 / 2000000000000, 50, 0⟩ (1 / 10000, 99990002 / 1000000000000)
    (by rw [hs0]; exact g0) (by rw [hw]; exact g0)
    (by rw [hw]; simpa using g1)
    (by
      rw [hw, distance_along_x, hh]
      have hv : Rat.sqrt (2 * G * (105 / 2 - 50)) = 7 := by
        rw [show (2 * G * (105 / 2 - 50) : ℚ) = 49 by norm_num [G]]; exact rat_sqrt_49
      have habs : |(0 : ℚ) - 199990001 / 2000000000000| = 199990001 / 2000000000000 := by
        rw [abs_of_neg (by norm_num)]; norm_num
      simp only [hv, habs]
      exact hloop)
  exact ⟨cam', h1, h2⟩

/-- C9 witness: one tick of the fresh camera (s = 0) on the uneven line leaves
s = 0.0001. -/
theorem tick_parameter_range_witness :
    ∃ t cam', Track.construct Rat.sqrt 128 unevenLine = some t ∧ 1 ≤ t.max_s ∧
      (0 : ℚ) ≤ freshCamera.s ∧
      Camera.ProcessTrackMovement Rat.sqrt 1 freshCamera shortTick t = some cam' ∧
      cam'.s = 1 / 10000 ∧ 0 ≤ cam'.s := by
  obtain ⟨t, ht, hc, hh, hm⟩ := unevenLine_track
  obtain ⟨-, cam', hrun, hs⟩ := unevenLine_tick t hc hh hm
  have hN : 1 ≤ t.max_s := by rw [hm]; decide
  have h0 : (0 : ℚ) ≤ freshCamera.s := le_refl _
  exact ⟨t, cam', ht, hN, h0, hrun, hs,
    (tick_parameter_range Rat.sqrt 1 freshCamera cam' shortTick t hN h0 hrun).2.2.2⟩

/-- C9 counterexample: a tick that starts at s = max_s = 4 with deltaTime = 0 on
the uneven line returns with s = 4, which is not below max_s: the wrap tests
s > max_s, before the march. -/
theorem tick_returns_s_at_max_s :
    ∃ t cam', Track.construct Rat.sqrt 128 unevenLine = some t ∧ 1 ≤ t.max_s ∧
      (0 : ℚ) ≤ 4 ∧ (0 : ℚ) ≤ 0 ∧
      Camera.ProcessTrackMovement Rat.sqrt 0 { freshCamera with s := 4 } 0 t = some cam' ∧
      cam'.s = 4 ∧ ¬ cam'.s < (t.max_s : ℚ) := by
  obtain ⟨t, ht, hc, hh, hm⟩ := unevenLine_track
  have hN : 1 ≤ t.max_s := by rw [hm]; decide
  have f4 : ⌊(4 : ℚ)⌋ = 4 := by norm_num
  have f4' : ⌊(4 + 1 / 10000 : ℚ)⌋ = 4 := by norm_num
  have g4 : t.get_point 4 = some ⟨0, 50, 0⟩ := by
    simp only [Track.get_point, Track.get_point_window, hc, hm, f4, toInt, addInt, subInt,
      INT_MAX, INT_MIN, bind, Option.bind]
    simp [modInt_of_pos, vecAt, Track.interpolate_poly]
  have g4' : t.get_point (4 + 1 / 10000) = some ⟨199990001 / 2000000000000, 50, 0⟩ := by
    simp only [Track.get_point, Track.get_point_window, hc, hm, f4', toInt, addInt, subInt,
      INT_MAX, INT_MIN, bind, Option.bind]
    simp [modInt_of_pos, vecAt, Track.interpolate_poly]
    norm_num
  have hw : (if ({ freshCamera with s := 4 } : Camera ℚ).s > (t.max_s : ℚ) then
      fmod ({ freshCamera with s := 4 } : Camera ℚ).s (t.max_s : ℚ)
      else ({ freshCamera with s := 4 } : Camera ℚ).s) = 4 := by
    simp [hm]
  obtain ⟨cam', h1, h2⟩ := Camera.ProcessTrackMovement_some Rat.sqrt 0
    { freshCamera with s := 4 } 0 t ⟨0, 50, 0⟩ ⟨0, 50, 0⟩ ⟨199990001 / 2000000000000, 50, 0⟩
    (4, 0) g4 (by rw [hw]; exact g4) (by rw [hw]; exact g4')
    (by
      rw [hw, distance_along_x]
      have habs : |(0 : ℚ) - 199990001 / 2000000000000| = 199990001 / 2000000000000 := by
        rw [abs_of_neg (by norm_num)]; norm_num
      simp [Camera.ProcessTrackMovement_loop, habs])
  refine ⟨t, cam', ht, hN, by norm_num, le_refl _, h1, h2, ?_⟩
  rw [h2, hm]; norm_num

/-- C10, the code at the failing input: on the uneven line from s = 0 with the
short frame time, the loop of ProcessTrackMovement keeps the distance measured
at s = 0 and stops at s = 0.0001 with more length left than the micro-distance
at that s, while the march of the specification, which measures again at
s = 0.0001, advances to s = 0.0002. -/
theorem march_keeps_first_distance :
    ∃ t cam', Track.construct Rat.sqrt 128 unevenLine = some t ∧
      Camera.ProcessTrackMovement Rat.sqrt 1 freshCamera shortTick t = some cam' ∧
      cam'.s = 1 / 10000 ∧
      Camera.ProcessTrackMovement_loop Rat.sqrt t ⟨199990001 / 2000000000000, 50, 0⟩
        (199990001 / 2000000000000) (1 / 10000) 1 0 (7 * shortTick)
        = some (1 / 10000, 99990002 / 1000000000000) ∧
      (∃ p q, t.get_point (1 / 10000) = some p ∧ t.get_point (1 / 10000 + 1 / 10000) = some q ∧
        Vec3.distance Rat.sqrt q p < 99990002 / 1000000000000) ∧
      specMarch Rat.sqrt t (1 / 10000) 2 0 (7 * shortTick)
        = some (2 / 10000, 9997 / 2000000000000) := by
  obtain ⟨t, ht, hc, hh, hm⟩ := unevenLine_track
  obtain ⟨hloop, cam', hrun, hs⟩ := unevenLine_tick t hc hh hm
  obtain ⟨g0, g1, g2, g3⟩ := unevenLine_points t hc hm
  have e1 : (0 : ℚ) + 1 / 10000 = 1 / 10000 := by norm_num
  have e2 : (1 / 10000 : ℚ) + 1 / 10000 = 2 / 10000 := by norm_num
  have e3 : (2 / 10000 : ℚ) + 1 / 10000 = 3 / 10000 := by norm_num
  have a0 : |(0 : ℚ) - 199990001 / 2000000000000| = 199990001 / 2000000000000 := by
    rw [abs_of_neg (by norm_num)]; norm_num
  have a1 : |(199990001 / 2000000000000 : ℚ) - 199980004 / 1000000000000|
      = 199970007 / 2000000000000 := by
    rw [abs_of_neg (by norm_num)]; norm_num
  have a2 : |(199980004 / 1000000000000 : ℚ) - 599910027 / 2000000000000|
      = 199950019 / 2000000000000 := by
    rw [abs_of_neg (by norm_num)]; norm_num
  refine ⟨t, cam', ht, hrun, hs, hloop, ⟨_, _, g1, by rw [e2]; exact g2, ?_⟩, ?_⟩
  · rw [distance_along_x, a1]; norm_num
  · have c0 : (199990001 / 2000000000000 : ℚ) ≤ 7 * shortTick := by norm_num [shortTick]
    have c1 : (199970007 / 2000000000000 : ℚ) ≤ 7 * shortTick - 199990001 / 2000000000000 := by
      norm_num [shortTick]
    have c2 : ¬ (199950019 / 2000000000000 : ℚ)
        ≤ 7 * shortTick - 199990001 / 2000000000000 - 199970007 / 2000000000000 := by
      norm_num [shortTick]
    simp only [specMarch, e1, e2, e3, g0, g1, g2, g3, bind, Option.bind, distance_along_x, a0,
      a1, a2, c0, c1, c2, if_true, if_false]
    norm_num [shortTick]

/-! ## The bound frame after a tick -/

section TickResult

variable {K : Type} [LinearOrderedField K] [FloorRing K]

/-- Every member of the camera after a completed ProcessTrackMovement, in terms
of the three points read before the loop (here at the incoming s, temp and
next at the wrapped s and one step after it) and of the s the loop returned. -/
theorem Camera.ProcessTrackMovement_result (sqrt : K → K) (fuel : ℕ) (cam cam' : Camera K)
    (dt : K) (track : Track K)
    (h : Camera.ProcessTrackMovement sqrt fuel cam dt track = some cam') :
    ∃ here temp next r,
      track.get_point cam.s = some here ∧
      track.get_point (if cam.s > (track.max_s : K) then fmod cam.s (track.max_s : K)
        else cam.s) = some temp ∧
      track.get_point ((if cam.s > (track.max_s : K) then fmod cam.s (track.max_s : K)
        else cam.s) + 1 / 10000) = some next ∧
      Camera.ProcessTrackMovement_loop sqrt track next (Vec3.distance sqrt next temp)
        (1 / 10000) fuel
        (if cam.s > (track.max_s : K) then fmod cam.s (track.max_s : K) else cam.s)
        (sqrt (2 * G * (track.hmax - here.y)) * dt) = some r ∧
      cam'.s = r.1 ∧
      cam'.bg_Front = (next.sub temp).normalize sqrt ∧
      cam'.bg_Up =
        (if r.1 ≥ (track.max_s : K) - 2 ∧ r.1 ≤ (track.max_s : K) then
          ((cam.bg_Right.cross ((next.sub temp).normalize sqrt)).normalize sqrt).add
            (Vec3.smul ((r.1 - ((track.max_s : K) - 2)) / 2)
              ((⟨0, 1, 0⟩ : Vec3 K).sub
                ((cam.bg_Right.cross ((next.sub temp).normalize sqrt)).normalize sqrt)))
        else (cam.bg_Right.cross ((next.sub temp).normalize sqrt)).normalize sqrt) ∧
      cam'.bg_Right = (cam'.bg_Front.cross cam'.bg_Up).normalize sqrt ∧
      cam'.bg_Position = temp.add cam'.bg_Up ∧
      cam'.WorldUp = cam.WorldUp ∧ cam'.Yaw = cam.Yaw ∧ cam'.Pitch = cam.Pitch ∧
      cam'.Zoom = cam.Zoom ∧ cam'.MovementSpeed = cam.MovementSpeed ∧
      cam'.MouseSensitivity = cam.MouseSensitivity ∧ cam'.onTrack = cam.onTrack ∧
      (cam.onTrack = true → cam'.Position = cam'.bg_Position ∧ cam'.Front = cam'.bg_Front ∧
        cam'.Up = cam'.bg_Up ∧ cam'.Right = cam'.bg_Right) ∧
      (cam.onTrack = false → cam'.Position = cam.Position ∧ cam'.Front = cam.Front ∧
        cam'.Up = cam.Up ∧ cam'.Right = cam.Right) := by
  unfold Camera.ProcessTrackMovement at h
  simp only [bind, Option.bind] at h
  cases h1 : track.get_point cam.s with
  | none => rw [h1] at h; cases h
  | some here =>
    rw [h1] at h
    simp only [] at h
    cases h2 : track.get_point (if cam.s > (track.max_s : K) then fmod cam.s (track.max_s : K)
        else cam.s) with
    | none => rw [h2] at h; cases h
    | some temp =>
      rw [h2] at h
      simp only [] at h
      cases h3 : track.get_point ((if cam.s > (track.max_s : K) then
          fmod cam.s (track.max_s : K) else cam.s) + 1 / 10000) with
      | none => rw [h3] at h; cases h
      | some next =>
        rw [h3] at h
        simp only [] at h
        cases h4 : Camera.ProcessTrackMovement_loop sqrt track next (Vec3.distance sqrt next temp)
            (1 / 10000) fuel
            (if cam.s > (track.max_s : K) then fmod cam.s (track.max_s : K) else cam.s)
            (sqrt (2 * G * (track.hmax - here.y)) * dt) with
        | none => rw [h4] at h; cases h
        | some r =>
          rw [h4] at h
          refine ⟨here, temp, next, r, rfl, rfl, rfl, h4, ?_⟩
          simp only [] at h
          split_ifs at h with hon hbl hbl
          all_goals
            have e := Option.some.inj h
            subst e
            first
              | rw [if_pos hbl]
              | rw [if_neg hbl]
            simp [hon]

end TickResult

theorem rat_sqrt_one : Rat.sqrt 1 = 1 := by
  rw [show (1 : ℚ) = 1 * 1 by norm_num, Rat.sqrt_eq]; norm_num

theorem rat_sqrt_zero : Rat.sqrt 0 = 0 := by
  rw [show (0 : ℚ) = 0 * 0 by norm_num, Rat.sqrt_eq]; norm_num

/-- Over the rationals a vector a * (1,0,0) with a > 0 normalizes to (1,0,0). -/
theorem normalize_along_x (a : ℚ) (ha : 0 < a) :
    (⟨a, 0, 0⟩ : Vec3 ℚ).normalize Rat.sqrt = ⟨1, 0, 0⟩ := by
  have h : Rat.sqrt (a * a + 0 * 0 + 0 * 0) = a := by
    rw [show a * a + 0 * 0 + 0 * 0 = a * a by ring, Rat.sqrt_eq, abs_of_pos ha]
  simp only [Vec3.normalize, Vec3.dot, Vec3.scale, h]
  ext
  · simp; field_simp
  · simp
  · simp

/-- One tick of the riding camera on the uneven line with the short frame time
completes with s = 0.0001. -/
theorem unevenLine_tick_riding (t : Track ℚ)
    (hc : t.controlPoints = [⟨0, 50, 0⟩, ⟨1, 50, 0⟩, ⟨3, 50, 0⟩, ⟨-1, 50, 0⟩])
    (hh : t.hmax = 105 / 2) (hm : t.max_s = 4) :
    ∃ cam', Camera.ProcessTrackMovement Rat.sqrt 1 ridingCamera shortTick t = some cam' ∧
      cam'.s = 1 / 10000 := by
  obtain ⟨g0, g1, g2, -⟩ := unevenLine_points t hc hm
  obtain ⟨hloop, -⟩ := unevenLine_tick t hc hh hm
  have hs0 : ridingCamera.s = 0 := rfl
  have hw : (if ridingCamera.s > (t.max_s : ℚ) then fmod ridingCamera.s (t.max_s : ℚ)
      else ridingCamera.s) = 0 := by
    rw [hs0, hm]; norm_num
  obtain ⟨cam', h1, h2⟩ := Camera.ProcessTrackMovement_some Rat.sqrt 1 ridingCamera shortTick t
    ⟨0, 50, 0⟩ ⟨0, 50, 0⟩ ⟨199990001 / 2000000000000, 50, 0⟩ (1 / 10000, 99990002 / 1000000000000)
    (by rw [hs0]; exact g0) (by rw [hw]; exact g0)
    (by rw [hw]; simpa using g1)
    (by
      rw [hw, distance_along_x, hh]
      have hv : Rat.sqrt (2 * G * (105 / 2 - 50)) = 7 := by
        rw [show (2 * G * (105 / 2 - 50) : ℚ) = 49 by norm_num [G]]; exact rat_sqrt_49
      have habs : |(0 : ℚ) - 199990001 / 2000000000000| = 199990001 / 2000000000000 := by
        rw [abs_of_neg (by norm_num)]; norm_num
      simp only [hv, habs]
      exact hloop)
  exact ⟨cam', h1, h2⟩

/-- C11, the code at the failing input: after one tick of the riding camera on
the uneven line the parameter is s = 0.0001, but bg_Position is
get_point(0) + bg_Up = (0,51,0), the point the tick started from, not
get_point(s) + bg_Up = (199990001/2000000000000, 51, 0). -/
theorem bound_frame_at_stale_point :
    ∃ t cam' p0 p, Track.construct Rat.sqrt 128 unevenLine = some t ∧
      Camera.ProcessTrackMovement Rat.sqrt 1 ridingCamera shortTick t = some cam' ∧
      cam'.s = 1 / 10000 ∧
      t.get_point ridingCamera.s = some p0 ∧ t.get_point cam'.s = some p ∧
      p0 = ⟨0, 50, 0⟩ ∧ p = ⟨199990001 / 2000000000000, 50, 0⟩ ∧
      cam'.bg_Up = ⟨0, 1, 0⟩ ∧ cam'.bg_Position = p0.add cam'.bg_Up ∧
      cam'.bg_Position = ⟨0, 51, 0⟩ ∧ cam'.bg_Position ≠ p.add cam'.bg_Up := by
  obtain ⟨t, ht, hc, hh, hm⟩ := unevenLine_track
  obtain ⟨g0, g1, -, -⟩ := unevenLine_points t hc hm
  obtain ⟨cam', hrun, hs⟩ := unevenLine_tick_riding t hc hh hm
  obtain ⟨here, temp, next, r, -, h2, h3, -, hr, hF, hU, -, hP, -⟩ :=
    Camera.ProcessTrackMovement_result Rat.sqrt 1 ridingCamera cam' shortTick t hrun
  have hs0 : ridingCamera.s = 0 := rfl
  have hw : (if ridingCamera.s > (t.max_s : ℚ) then fmod ridingCamera.s (t.max_s : ℚ)
      else ridingCamera.s) = 0 := by
    rw [hs0, hm]; norm_num
  rw [hw] at h2 h3
  have htemp : temp = ⟨0, 50, 0⟩ := Option.some.inj (h2.symm.trans g0)
  have hnext : next = ⟨199990001 / 2000000000000, 50, 0⟩ :=
    Option.some.inj (h3.symm.trans (by simpa using g1))
  have hr1 : r.1 = 1 / 10000 := hr.symm.trans hs
  have hfront : (next.sub temp).normalize Rat.sqrt = ⟨1, 0, 0⟩ := by
    rw [htemp, hnext]
    have : (Vec3.sub (⟨199990001 / 2000000000000, 50, 0⟩ : Vec3 ℚ) ⟨0, 50, 0⟩)
        = ⟨199990001 / 2000000000000, 0, 0⟩ := by
      ext <;> simp [Vec3.sub]
    rw [this]
    exact normalize_along_x _ (by norm_num)
  have hup : cam'.bg_Up = ⟨0, 1, 0⟩ := by
    rw [hU, hfront, hr1, hm]
    have hno : ¬ ((1 / 10000 : ℚ) ≥ ((4 : Int) : ℚ) - 2 ∧ (1 / 10000 : ℚ) ≤ ((4 : Int) : ℚ)) := by
      norm_num
    rw [if_neg hno]
    have hcr : (ridingCamera.bg_Right.cross (⟨1, 0, 0⟩ : Vec3 ℚ)) = ⟨0, 1, 0⟩ := by
      ext <;> simp [Vec3.cross, ridingCamera]
    rw [hcr]
    simp only [Vec3.normalize, Vec3.dot, Vec3.scale]
    norm_num [rat_sqrt_one]
  have hpos : cam'.bg_Position = ⟨0, 51, 0⟩ := by
    rw [hP, hup, htemp]
    ext <;> norm_num [Vec3.add]
  refine ⟨t, cam', ⟨0, 50, 0⟩, ⟨199990001 / 2000000000000, 50, 0⟩, ht, hrun, hs,
    by rw [hs0]; exact g0, by rw [hs]; exact g1, rfl, rfl, hup, ?_, hpos, ?_⟩
  · rw [hP, htemp]
  · rw [hpos, hup]
    intro hcon
    have := congrArg Vec3.x hcon
    norm_num [Vec3.add] at this

section FrameEffect

variable {K : Type} [LinearOrderedField K] [FloorRing K]

/-- When the one distance measured before the loop is not positive and below
frame_movement, the while loop never reaches its exit: it returns for no
amount of fuel. -/
theorem Camera.ProcessTrackMovement_loop_diverges (sqrt : K → K) (track : Track K)
    (next_pos : Vec3 K) (distance step : K) (hd : distance ≤ 0) :
    ∀ (fuel : ℕ) (s fm : K), distance < fm →
      Camera.ProcessTrackMovement_loop sqrt track next_pos distance step fuel s fm = none := by
  intro fuel
  induction fuel with
  | zero =>
    intro s fm hfm
    simp [Camera.ProcessTrackMovement_loop, hfm]
  | succ n ih =>
    intro s fm hfm
    simp only [Camera.ProcessTrackMovement_loop, hfm, if_true, bind, Option.bind]
    cases track.get_point (s + step + step) with
    | none => rfl
    | some q => exact ih _ _ (by linarith)

end FrameEffect

/-- The track that construction builds from the stalled loop. -/
theorem stalledLoop_track :
    ∃ t, Track.construct Rat.sqrt 128 stalledLoop = some t ∧
      t.controlPoints = [⟨0, 50, 0⟩, ⟨0, 50, 0⟩, ⟨0, 50, 0⟩, ⟨0, 50, 0⟩] ∧
      t.hmax = 105 / 2 ∧ t.max_s = 4 := by
  obtain ⟨t, ht, hc, hh, hm⟩ :=
    Track.construct_some Rat.sqrt 128 stalledLoop (by simp [stalledLoop]) (by decide) (by decide)
  refine ⟨t, ht, ?_, ?_, by rw [hm]; rfl⟩
  · rw [hc]; norm_num [stalledLoop, storedPoints, Vec3.add, Vec3.scale]
  · rw [hh]; norm_num [stalledLoop, raisedHmax, Vec3.add]

/-- C20, the code at the failing input: on the track whose four control points
coincide at (0,50,0) the samples get_point(0) and get_point(0.0001) coincide, so
the distance measured before the loop is 0 while frame_movement = 7 * 1 > 0;
the loop condition 0 < frame_movement never turns false, and
ProcessTrackMovement returns for no amount of fuel. -/
theorem tick_never_returns_on_stalled_loop :
    ∃ t, Track.construct Rat.sqrt 128 stalledLoop = some t ∧ 1 ≤ t.max_s ∧
      (0 : ℚ) ≤ freshCamera.s ∧ (0 : ℚ) ≤ 1 ∧
      t.get_point 0 = some ⟨0, 50, 0⟩ ∧ t.get_point (0 + 1 / 10000) = some ⟨0, 50, 0⟩ ∧
      Vec3.distance Rat.sqrt (⟨0, 50, 0⟩ : Vec3 ℚ) ⟨0, 50, 0⟩ = 0 ∧
      Rat.sqrt (2 * G * (t.hmax - 50)) * 1 = 7 ∧
      (∀ s : ℚ, 0 ≤ s → s ≤ 1000000 → (t.get_point s).isSome = true) ∧
      ∀ fuel, Camera.ProcessTrackMovement Rat.sqrt fuel freshCamera 1 t = none := by
  obtain ⟨t, ht, hc, hh, hm⟩ := stalledLoop_track
  have hN : 1 ≤ t.max_s := by rw [hm]; decide
  have hl : (t.controlPoints.length : Int) = t.max_s := by rw [hc, hm]; rfl
  have f0 : ⌊(0 : ℚ)⌋ = 0 := by norm_num
  have f1 : ⌊(0 + 1 / 10000 : ℚ)⌋ = 0 := by norm_num
  have g0 : t.get_point 0 = some ⟨0, 50, 0⟩ := by
    simp only [Track.get_point, Track.get_point_window, hc, hm, f0, toInt, addInt, subInt,
      INT_MAX, INT_MIN, bind, Option.bind]
    simp [modInt_of_pos, vecAt, Track.interpolate_poly]
  have g1 : t.get_point (0 + 1 / 10000) = some ⟨0, 50, 0⟩ := by
    simp only [Track.get_point, Track.get_point_window, hc, hm, f1, toInt, addInt, subInt,
      INT_MAX, INT_MIN, bind, Option.bind]
    simp [modInt_of_pos, vecAt, Track.interpolate_poly]
    norm_num
  have hd : Vec3.distance Rat.sqrt (⟨0, 50, 0⟩ : Vec3 ℚ) ⟨0, 50, 0⟩ = 0 := by
    rw [distance_along_x]; norm_num
  have hv : Rat.sqrt (2 * G * (t.hmax - 50)) * 1 = 7 := by
    rw [hh, show (2 * G * (105 / 2 - 50) : ℚ) = 49 by norm_num [G], rat_sqrt_49]; norm_num
  refine ⟨t, ht, hN, le_refl _, by norm_num, g0, g1, hd, hv, ?_, ?_⟩
  · intro s hs0 hs1
    have hfl : ⌊s⌋ ≤ 1000000 := Int.floor_le_iff.2 (by
      have : s < ((1000000 : Int) : ℚ) + 1 := by push_cast; linarith
      exact this)
    obtain ⟨_, _, _, _, -, -, -, -, hg⟩ :=
      Track.get_point_eq t s hN hl hs0 (by rw [hm]; simp only [INT_MAX]; omega)
    rw [hg]; rfl
  · intro fuel
    cases hrun : Camera.ProcessTrackMovement Rat.sqrt fuel freshCamera 1 t with
    | none => rfl
    | some cam' =>
      exfalso
      obtain ⟨here, temp, next, r, h1, h2, h3, h4, -⟩ :=
        Camera.ProcessTrackMovement_inv Rat.sqrt fuel freshCamera cam' 1 t hrun
      have hs0 : freshCamera.s = 0 := rfl
      have hw : (if freshCamera.s > (t.max_s : ℚ) then fmod freshCamera.s (t.max_s : ℚ)
          else freshCamera.s) = 0 := by
        simp [freshCamera, hm]
      rw [hw] at h2 h3 h4
      rw [hs0] at h1
      have e1 : here = ⟨0, 50, 0⟩ := Option.some.inj (h1.symm.trans g0)
      have e2 : temp = ⟨0, 50, 0⟩ := Option.some.inj (h2.symm.trans g0)
      have e3 : next = ⟨0, 50, 0⟩ := Option.some.inj (h3.symm.trans g1)
      subst e1 e2 e3
      rw [hd, hv] at h4
      rw [Camera.ProcessTrackMovement_loop_diverges Rat.sqrt t _ 0 _ (le_refl _) fuel 0 7
        (by norm_num)] at h4
      cases h4

/-! ## Mouse input, the cart transform and the plank mesh -/

section Input

variable {K : Type} [LinearOrderedField K]

/-- A value is the clamp of x to [lo, hi] when it is lo for x ≤ lo, hi for
x ≥ hi, and x in between. -/
theorem clamp_cases (x lo hi v : K) (hlh : lo ≤ hi)
    (h : (x ≤ lo ∧ v = lo) ∨ (hi ≤ x ∧ v = hi) ∨ (lo ≤ x ∧ x ≤ hi ∧ v = x)) :
    v = max lo (min hi x) := by
  rcases h with ⟨h1, rfl⟩ | ⟨h1, rfl⟩ | ⟨h1, h2, rfl⟩
  · rw [min_eq_right (le_trans h1 hlh), max_eq_left h1]
  · rw [min_eq_left h1, max_eq_right hlh]
  · rw [min_eq_right h2, max_eq_right h1]

/-- The pitch after ProcessMouseMovement with constrainPitch = true, and the
sensitivity, which the call does not change. -/
theorem Camera.ProcessMouseMovement_pitch (cos sin sqrt : K → K) (c : Camera K) (x y : K) :
    (c.ProcessMouseMovement cos sin sqrt x y true).Pitch
      = max (-89) (min 89 (c.Pitch + c.MouseSensitivity * y)) ∧
    (c.ProcessMouseMovement cos sin sqrt x y true).MouseSensitivity = c.MouseSensitivity := by
  constructor
  · apply clamp_cases _ _ _ _ (by norm_num)
    simp only [Camera.ProcessMouseMovement, Camera.updateCameraVectors, if_true]
    rw [mul_comm c.MouseSensitivity y]
    split_ifs with h1 h2 h2
    · norm_num at h2
    · exact Or.inr (Or.inl ⟨le_of_lt h1, rfl⟩)
    · exact Or.inl ⟨le_of_lt h2, rfl⟩
    · exact Or.inr (Or.inr ⟨not_lt.1 h2, not_lt.1 h1, rfl⟩)
  · simp only [Camera.ProcessMouseMovement, Camera.updateCameraVectors, if_true]
    split_ifs <;> rfl

/-- The zoom after ProcessMouseScroll from a zoom in [1, 45]. -/
theorem Camera.ProcessMouseScroll_zoom (c : Camera K) (yoffset : K) (c1 : 1 ≤ c.Zoom)
    (c45 : c.Zoom ≤ 45) :
    (c.ProcessMouseScroll yoffset).Zoom = max 1 (min 45 (c.Zoom - yoffset)) := by
  apply clamp_cases _ _ _ _ (by norm_num)
  by_cases a : c.Zoom - yoffset ≤ 1
  · left
    refine ⟨a, ?_⟩
    simp [Camera.ProcessMouseScroll, c1, c45, a]
  · by_cases b : 45 ≤ c.Zoom - yoffset
    · right; left
      refine ⟨b, ?_⟩
      simp [Camera.ProcessMouseScroll, c1, c45, a, b]
    · right; right
      refine ⟨le_of_lt (not_le.1 a), le_of_lt (not_le.1 b), ?_⟩
      simp [Camera.ProcessMouseScroll, c1, c45, a, b]

/-- C13: for every camera state and every xoffset, yoffset, ProcessMouseMovement
with constrainPitch = true sets Pitch to clamp(Pitch + MouseSensitivity*yoffset,
-89, 89); from Pitch = 0 with sensitivity 0.1, yoffset = 1000 gives Pitch = 89,
and the same input once more leaves Pitch at 89. -/
theorem mouse_pitch_clamp (cos sin sqrt : K → K) (cam : Camera K) (xoffset yoffset : K) :
    (cam.ProcessMouseMovement cos sin sqrt xoffset yoffset true).Pitch
      = max (-89) (min 89 (cam.Pitch + cam.MouseSensitivity * yoffset)) ∧
    (Camera.ProcessMouseMovement cos sin sqrt { cam with Pitch := 0, MouseSensitivity := 1 / 10 }
      xoffset 1000 true).Pitch = 89 ∧
    (Camera.ProcessMouseMovement cos sin sqrt
      (Camera.ProcessMouseMovement cos sin sqrt
        { cam with Pitch := 0, MouseSensitivity := 1 / 10 } xoffset 1000 true)
      xoffset 1000 true).Pitch = 89 := by
  refine ⟨(Camera.ProcessMouseMovement_pitch cos sin sqrt cam xoffset yoffset).1, ?_, ?_⟩
  · rw [(Camera.ProcessMouseMovement_pitch cos sin sqrt _ _ _).1]
    norm_num
  · rw [(Camera.ProcessMouseMovement_pitch cos sin sqrt _ _ _).1,
      (Camera.ProcessMouseMovement_pitch cos sin sqrt _ _ _).2,
      (Camera.ProcessMouseMovement_pitch cos sin sqrt _ _ _).1]
    norm_num

/-- C14: for every Zoom in [1, 45] and every yoffset, ProcessMouseScroll leaves
Zoom = clamp(Zoom - yoffset, 1, 45); and when that result is 1 or 45, the same
call once more leaves Zoom unchanged. -/
theorem scroll_zoom_clamp (cam : Camera K) (yoffset : K) (h1 : 1 ≤ cam.Zoom)
    (h45 : cam.Zoom ≤ 45) :
    (cam.ProcessMouseScroll yoffset).Zoom = max 1 (min 45 (cam.Zoom - yoffset)) ∧
    (((cam.ProcessMouseScroll yoffset).Zoom = 1 ∨ (cam.ProcessMouseScroll yoffset).Zoom = 45) →
      ((cam.ProcessMouseScroll yoffset).ProcessMouseScroll yoffset).Zoom
        = (cam.ProcessMouseScroll yoffset).Zoom) := by
  have hz := Camera.ProcessMouseScroll_zoom cam yoffset h1 h45
  refine ⟨hz, ?_⟩
  intro hb
  have hlo : 1 ≤ (cam.ProcessMouseScroll yoffset).Zoom := by rw [hz]; exact le_max_left _ _
  have hhi : (cam.ProcessMouseScroll yoffset).Zoom ≤ 45 := by
    rw [hz]; exact max_le (by norm_num) (min_le_left _ _)
  rw [Camera.ProcessMouseScroll_zoom _ yoffset hlo hhi]
  rcases hb with hb | hb
  · have hy : cam.Zoom - yoffset ≤ 1 := by
      rw [hz] at hb
      by_contra hcon
      have h3 : 1 < min 45 (cam.Zoom - yoffset) := lt_min (by norm_num) (not_le.1 hcon)
      rw [max_eq_right (le_of_lt h3)] at hb
      linarith
    have hy0 : 0 ≤ yoffset := by linarith
    rw [hb, min_eq_right (by linarith), max_eq_left (by linarith)]
  · have hy : 45 ≤ cam.Zoom - yoffset := by
      rw [hz] at hb
      by_contra hcon
      have h3 : min 45 (cam.Zoom - yoffset) < 45 := min_lt_iff.2 (Or.inr (not_le.1 hcon))
      have h4 : max 1 (min 45 (cam.Zoom - yoffset)) < 45 := max_lt (by norm_num) h3
      linarith
    rw [hb, min_eq_left (by linarith), max_eq_right (by norm_num)]

/-- C15: with the default-constructed glm::mat4 the identity, getCartTrans
returns the matrix whose columns are (right,0), (up,0), (front,0) and
(origin - up + 1.5*front, 1); it maps a local point (x,y,z,1) to
origin - up + 1.5*front + x*right + y*up + z*front. -/
theorem cart_transform (origin front up right : Vec3 K) :
    Camera.getCartTrans Mat4.identity origin front up right =
      ⟨Vec4.ofVec3 right 0, Vec4.ofVec3 up 0, Vec4.ofVec3 front 0,
       Vec4.ofVec3 ((origin.sub up).add (front.scale (3 / 2))) 1⟩ ∧
    ∀ x y z : K,
      (Camera.getCartTrans Mat4.identity origin front up right).mulVec ⟨x, y, z, 1⟩ =
        Vec4.ofVec3 (((((origin.sub up).add (front.scale (3 / 2))).add (right.scale x)).add
          (up.scale y)).add (front.scale z)) 1 := by
  constructor
  · simp only [Camera.getCartTrans, Mat4.translate, Mat4.mul, Mat4.mulVec, Mat4.identity,
      Vec4.add, Vec4.scale, Vec4.ofVec3, Vec3.add, Vec3.sub, Vec3.scale, Vec3.smul]
    ext <;> simp <;> ring
  · intro x y z
    simp only [Camera.getCartTrans, Mat4.translate, Mat4.mul, Mat4.mulVec, Mat4.identity,
      Vec4.add, Vec4.scale, Vec4.ofVec3, Vec3.add, Vec3.sub, Vec3.scale, Vec3.smul]
    ext <;> simp <;> ring

/-- C17: make_face appends exactly six vertices, with positions A,B,C,C,B,D,
all with the normal normalize((C-A) x (B-A)) and the texture coordinates
A=(0,1), B=(1,1), C=(0,0), D=(1,0); the vertices already in the mesh and the
other members of the track are unchanged. -/
theorem make_face_appends (sqrt : K → K) (t : Track K) (A B C D : Vec3 K) (flipNormal : Bool) :
    (t.make_face sqrt A B C D flipNormal).vertices =
      t.vertices ++
        [⟨A, ((C.sub A).cross (B.sub A)).normalize sqrt, ⟨0, 1⟩⟩,
         ⟨B, ((C.sub A).cross (B.sub A)).normalize sqrt, ⟨1, 1⟩⟩,
         ⟨C, ((C.sub A).cross (B.sub A)).normalize sqrt, ⟨0, 0⟩⟩,
         ⟨C, ((C.sub A).cross (B.sub A)).normalize sqrt, ⟨0, 0⟩⟩,
         ⟨B, ((C.sub A).cross (B.sub A)).normalize sqrt, ⟨1, 1⟩⟩,
         ⟨D, ((C.sub A).cross (B.sub A)).normalize sqrt, ⟨1, 0⟩⟩] ∧
    (t.make_face sqrt A B C D flipNormal).vertices.length = t.vertices.length + 6 ∧
    (t.make_face sqrt A B C D flipNormal).controlPoints = t.controlPoints ∧
    (t.make_face sqrt A B C D flipNormal).hmax = t.hmax ∧
    (t.make_face sqrt A B C D flipNormal).max_s = t.max_s := by
  refine ⟨rfl, ?_, rfl, rfl, rfl⟩
  simp [Track.make_face]

/-- The positions of the vertices that one make_face call appends. -/
theorem Track.make_face_positions (sqrt : K → K) (t : Track K) (A B C D : Vec3 K) (f : Bool) :
    (t.make_face sqrt A B C D f).vertices.map Vertex.Position =
      t.vertices.map Vertex.Position ++ [A, B, C, C, B, D] := by
  simp [Track.make_face]

/-- C18 (amended): for every frame, makePlank with offset (0.5, 0.1) appends
exactly 24 vertices, the four quad faces up, back, bottom and front of the box
centered at the frame origin with half-extents 0.9*0.5 along Right, 0.7*0.1
along Up and 0.7*0.1 along Front; the two end faces, across Right, are not
emitted. -/
theorem makePlank_open_box (sqrt : K → K) (t : Track K) (o : Orientation K) :
    (t.makePlank sqrt o ⟨1 / 2, 1 / 10⟩).vertices.length = t.vertices.length + 24 ∧
    (t.makePlank sqrt o ⟨1 / 2, 1 / 10⟩).vertices.map Vertex.Position =
      t.vertices.map Vertex.Position ++
        [o.corner (-(9 / 20)) (7 / 100) (7 / 100), o.corner (9 / 20) (7 / 100) (7 / 100),
         o.corner (-(9 / 20)) (7 / 100) (-(7 / 100)), o.corner (-(9 / 20)) (7 / 100) (-(7 / 100)),
         o.corner (9 / 20) (7 / 100) (7 / 100), o.corner (9 / 20) (7 / 100) (-(7 / 100)),
         o.corner (-(9 / 20)) (-(7 / 100)) (7 / 100), o.corner (9 / 20) (-(7 / 100)) (7 / 100),
         o.corner (-(9 / 20)) (7 / 100) (7 / 100), o.corner (-(9 / 20)) (7 / 100) (7 / 100),
         o.corner (9 / 20) (-(7 / 100)) (7 / 100), o.corner (9 / 20) (7 / 100) (7 / 100),
         o.corner (-(9 / 20)) (-(7 / 100)) (-(7 / 100)),
         o.corner (9 / 20) (-(7 / 100)) (-(7 / 100)),
         o.corner (-(9 / 20)) (-(7 / 100)) (7 / 100), o.corner (-(9 / 20)) (-(7 / 100)) (7 / 100),
         o.corner (9 / 20) (-(7 / 100)) (-(7 / 100)), o.corner (9 / 20) (-(7 / 100)) (7 / 100),
         o.corner (-(9 / 20)) (7 / 100) (-(7 / 100)), o.corner (9 / 20) (7 / 100) (-(7 / 100)),
         o.corner (-(9 / 20)) (-(7 / 100)) (-(7 / 100)),
         o.corner (-(9 / 20)) (-(7 / 100)) (-(7 / 100)),
         o.corner (9 / 20) (7 / 100) (-(7 / 100)),
         o.corner (9 / 20) (-(7 / 100)) (-(7 / 100))] := by
  have hc : ∀ (r u f : K),
      o.corner r u f = ⟨o.origin.x + o.Right.x * r + o.Up.x * u + o.Front.x * f,
        o.origin.y + o.Right.y * r + o.Up.y * u + o.Front.y * f,
        o.origin.z + o.Right.z * r + o.Up.z * u + o.Front.z * f⟩ := by
    intro r u f; rfl
  constructor
  · simp [Track.makePlank, Track.make_face]
  · simp only [Track.makePlank, Track.make_face_positions, List.append_assoc, List.cons_append,
      List.nil_append, hc]
    congr 1
    simp only [Vec3.add, Vec3.sub, Vec3.scale, List.cons.injEq, Vec3.mk.injEq, and_true]
    refine ⟨?_, ?_, ?_, ?_, ?_, ?_, ?_, ?_, ?_, ?_, ?_, ?_, ?_, ?_, ?_, ?_, ?_, ?_, ?_, ?_, ?_, ?_,
      ?_, ?_⟩ <;> refine ⟨?_, ?_, ?_⟩ <;> ring

end Input

/-- C14 witness: from Zoom = 45 a scroll of 50 leaves Zoom = 1, and the same
scroll once more leaves Zoom = 1. -/
theorem scroll_zoom_clamp_witness :
    (1 : ℚ) ≤ freshCamera.Zoom ∧ freshCamera.Zoom ≤ 45 ∧
    (freshCamera.ProcessMouseScroll 50).Zoom = 1 ∧
    ((freshCamera.ProcessMouseScroll 50).ProcessMouseScroll 50).Zoom = 1 := by
  have h1 : (1 : ℚ) ≤ freshCamera.Zoom := by norm_num [freshCamera]
  have h2 : freshCamera.Zoom ≤ 45 := by norm_num [freshCamera]
  obtain ⟨hz, hrep⟩ := scroll_zoom_clamp freshCamera 50 h1 h2
  have hz1 : (freshCamera.ProcessMouseScroll 50).Zoom = 1 := by
    rw [hz]; norm_num [freshCamera]
  exact ⟨h1, h2, hz1, (hrep (Or.inl hz1)).trans hz1⟩

/-- C18 counterexample: on the axis frame makePlank emits 24 vertices (four
faces), not the 36 of a closed box of six faces. -/
theorem makePlank_emits_24_vertices :
    ((⟨[], [], 0, 0⟩ : Track ℚ).makePlank Rat.sqrt (axisFrame ℚ) ⟨1 / 2, 1 / 10⟩).vertices.length
      = 24 ∧
    ((⟨[], [], 0, 0⟩ : Track ℚ).makePlank Rat.sqrt (axisFrame ℚ) ⟨1 / 2, 1 / 10⟩).vertices.length
      ≠ 36 := by
  have h : ((⟨[], [], 0, 0⟩ : Track ℚ).makePlank Rat.sqrt (axisFrame ℚ)
      ⟨1 / 2, 1 / 10⟩).vertices.length = 24 := by
    simp [Track.makePlank, Track.make_face]
  exact ⟨h, by rw [h]; decide⟩

/-! ## Counting rail parts and planks -/

section VertexCounts

variable {K : Type} [LinearOrderedField K]

theorem Track.makeRailPart_length (sqrt : K → K) (t : Track K) (o1 o2 : Orientation K)
    (offset : Vec2 K) :
    (t.makeRailPart sqrt o1 o2 offset).vertices.length = t.vertices.length + 48 := by
  simp [Track.makeRailPart, Track.make_face]

theorem Track.makePlank_length (sqrt : K → K) (t : Track K) (o : Orientation K)
    (offset : Vec2 K) :
    (t.makePlank sqrt o offset).vertices.length = t.vertices.length + 24 := by
  simp [Track.makePlank, Track.make_face]

/-- The first loop of create_track leaves the vertices as they were. -/
theorem Track.create_track_points_vertices (pts : List (Vec3 K)) :
    ∀ (t t' : Track K) (cur : Vec3 K), Track.create_track_points t cur pts = some t' →
      t'.vertices = t.vertices := by
  induction pts with
  | nil =>
    intro t t' cur h
    simp only [Track.create_track_points, Option.some.injEq] at h
    subst h; rfl
  | cons pt rest ih =>
    intro t t' cur h
    simp only [Track.create_track_points, bind, Option.bind] at h
    cases hv : addInt t.max_s 1 with
    | none => rw [hv] at h; cases h
    | some v =>
      rw [hv] at h
      have h2 := ih _ _ _ h
      exact h2

end VertexCounts

section PlankCount

variable {K : Type} [LinearOrderedField K] [FloorRing K]

/-- At the sample s = k/32 the tie test fmod(s, 0.125) <= 0.02 holds exactly
when k is a multiple of 4, that is when s is a multiple of 0.125. -/
theorem fmod_tie_test (k : ℕ) : fmod ((k : K) / 32) (1 / 8) ≤ 1 / 50 ↔ 4 ∣ k := by
  have hq : (k : K) / 32 / (1 / 8) = (k : K) / 4 := by field_simp; ring
  have hk : (k : K) = 4 * ((k / 4 : ℕ) : K) + ((k % 4 : ℕ) : K) := by
    have := Nat.div_add_mod k 4
    exact_mod_cast this.symm
  have hr : (k % 4 : ℕ) < 4 := Nat.mod_lt _ (by norm_num)
  have hr' : ((k % 4 : ℕ) : K) < 4 := by exact_mod_cast hr
  have hr0 : (0 : K) ≤ ((k % 4 : ℕ) : K) := Nat.cast_nonneg _
  have hfl : ⌊(k : K) / 4⌋ = ((k / 4 : ℕ) : Int) := by
    rw [Int.floor_eq_iff, Int.cast_natCast]
    constructor
    · rw [le_div_iff₀ (by norm_num)]; linarith
    · rw [div_lt_iff₀ (by norm_num)]; linarith
  have hnn : (0 : K) ≤ (k : K) / 4 := by positivity
  have hval : fmod ((k : K) / 32) (1 / 8) = ((k % 4 : ℕ) : K) / 32 := by
    simp only [fmod, hq, hnn, if_true, hfl, Int.cast_natCast]
    rw [eq_div_iff (by norm_num)]
    linarith
  rw [hval, Nat.dvd_iff_mod_eq_zero]
  constructor
  · intro h
    have h2 : ((k % 4 : ℕ) : K) < 1 := by
      rw [div_le_iff₀ (by norm_num)] at h
      linarith
    have h3 : (k % 4 : ℕ) < 1 := by exact_mod_cast h2
    omega
  · intro h
    rw [h]; norm_num

/-- One pass of the extrusion loop body at s = k/32 appends the 48 vertices of
the rail part and, exactly when 4 divides k, the 24 vertices of a plank. -/
theorem Track.create_track_step_length (sqrt : K → K) (t t' : Track K) (o o' : Orientation K)
    (k : ℕ) (h : Track.create_track_step sqrt (1 / 32) t o ((k : K) / 32) = some (t', o')) :
    t'.vertices.length = t.vertices.length + 48 + (if 4 ∣ k then 24 else 0) := by
  cases hp : t.get_point ((k : K) / 32) with
  | none =>
    have hnone : Track.create_track_step sqrt (1 / 32) t o ((k : K) / 32) = none := by
      simp only [Track.create_track_step, hp, bind, Option.bind]
    rw [hnone] at h; cases h
  | some p =>
    cases hq : t.get_point ((k : K) / 32 + 1 / 32) with
    | none =>
      have hnone : Track.create_track_step sqrt (1 / 32) t o ((k : K) / 32) = none := by
        simp only [Track.create_track_step, hp, hq, bind, Option.bind]
      rw [hnone] at h; cases h
    | some q =>
      simp only [Track.create_track_step, hp, hq, bind, Option.bind, Option.some.injEq,
        Prod.mk.injEq] at h
      obtain ⟨h1, -⟩ := h
      rw [← h1]
      by_cases hk : 4 ∣ k
      · rw [if_pos ((fmod_tie_test k).2 hk), if_pos hk, Track.makePlank_length,
          Track.makeRailPart_length]
      · rw [if_neg (fun hc => hk ((fmod_tie_test k).1 hc)), if_neg hk,
          Track.makeRailPart_length]

/-- Whatever the extrusion loop returns when started at s = k/32, k ≥ 1, on a
track with max_s = N < 524288: it has made the passes k, ..., 32 * N, each
appending a rail part, and a plank on the passes that are multiples of 4. -/
theorem Track.create_track_rails_length (sqrt : K → K) (N : ℕ) (hN : N < 524288) :
    ∀ (fuel : ℕ) (t t' : Track K) (o : Orientation K) (k : ℕ), 1 ≤ k → t.max_s = (N : Int) →
      Track.create_track_rails sqrt (1 / 32) fuel t o ((k : K) / 32) = some t' →
      t'.vertices.length
        = t.vertices.length + 48 * (32 * N + 1 - k) + 24 * (8 * N - (k - 1) / 4) := by
  have hcond : ∀ (t : Track K) (k : ℕ), t.max_s = (N : Int) →
      ((k : K) / 32 ≤ (t.max_s : K) ↔ k ≤ 32 * N) := by
    intro t k hm
    rw [hm, div_le_iff₀ (by norm_num), Int.cast_natCast]
    constructor
    · intro h
      have : (k : K) ≤ ((N * 32 : ℕ) : K) := by push_cast; exact h
      have := Nat.cast_le.1 this
      omega
    · intro h
      have : (k : K) ≤ ((32 * N : ℕ) : K) := Nat.cast_le.2 h
      push_cast at this
      linarith
  intro fuel
  induction fuel with
  | zero =>
    intro t t' o k hk hm h
    by_cases hc : (k : K) / 32 ≤ (t.max_s : K)
    · simp [Track.create_track_rails, hc] at h
    · simp only [Track.create_track_rails, hc, if_false, Option.some.injEq] at h
      subst h
      have : ¬ k ≤ 32 * N := fun h => hc ((hcond t k hm).2 h)
      have e1 : 32 * N + 1 - k = 0 := by omega
      have e2 : 8 * N - (k - 1) / 4 = 0 := by omega
      omega
  | succ n ih =>
    intro t t' o k hk hm h
    by_cases hc : (k : K) / 32 ≤ (t.max_s : K)
    · have hle : k ≤ 32 * N := (hcond t k hm).1 hc
      simp only [Track.create_track_rails, hc, if_true, bind, Option.bind] at h
      cases hstep : Track.create_track_step sqrt (1 / 32) t o ((k : K) / 32) with
      | none => rw [hstep] at h; cases h
      | some r =>
        obtain ⟨t2, o2⟩ := r
        rw [hstep] at h
        simp only [] at h
        have hlen := Track.create_track_step_length sqrt t t2 o o2 k hstep
        obtain ⟨-, -, hm2⟩ := Track.create_track_step_inv sqrt (1 / 32) t t2 o o2 _ hstep
        have hs : (k : K) / 32 + 1 / 32 = ((k + 1 : ℕ) : K) / 32 := by push_cast; ring
        rw [hs, toFloat_step (k + 1) (by omega)] at h
        have := ih t2 t' o2 (k + 1) (by omega) (hm2.trans hm) h
        rw [this, hlen]
        by_cases hd : 4 ∣ k
        · rw [if_pos hd]
          obtain ⟨j, rfl⟩ := hd
          omega
        · rw [if_neg hd]
          have : k % 4 ≠ 0 := fun h0 => hd (Nat.dvd_of_mod_eq_zero h0)
          omega
    · simp only [Track.create_track_rails, hc, if_false, Option.some.injEq] at h
      subst h
      have : ¬ k ≤ 32 * N := fun h => hc ((hcond t k hm).2 h)
      have e1 : 32 * N + 1 - k = 0 := by omega
      have e2 : 8 * N - (k - 1) / 4 = 0 := by omega
      omega

/-- Whatever construction returns is what the extrusion loop returns, started
at s = 1/32 with the seed frame on the track state the first loop leaves: the
stored control points, no vertices, the inflated hmax, and max_s the number of
displacements. -/
theorem Track.construct_rails (sqrt : K → K) (fuel : ℕ) (pts : List (Vec3 K)) (t : Track K)
    (h : Track.construct sqrt fuel pts = some t) :
    ∃ o, Track.create_track_seed sqrt (1 / 32)
        (⟨storedPoints ⟨-2, 0, -2⟩ pts, [], raisedHmax 0 ⟨-2, 0, -2⟩ pts * (21 / 20),
          (pts.length : Int)⟩ : Track K) = some o ∧
      Track.create_track_rails sqrt (1 / 32) fuel
        (⟨storedPoints ⟨-2, 0, -2⟩ pts, [], raisedHmax 0 ⟨-2, 0, -2⟩ pts * (21 / 20),
          (pts.length : Int)⟩ : Track K) o (((1 : ℕ) : K) / 32) = some t := by
  simp only [Track.construct, Track.create_track, bind, Option.bind] at h
  cases h0 : Track.create_track_points (⟨[], [], 0, 0⟩ : Track K) ⟨-2, 0, -2⟩ pts with
  | none => rw [h0] at h; cases h
  | some t0 =>
    rw [h0] at h
    simp only [] at h
    obtain ⟨c1, c2, c3⟩ := Track.create_track_points_inv pts _ t0 _ h0
    have cv := Track.create_track_points_vertices pts _ t0 _ h0
    have ht0 : (⟨t0.controlPoints, t0.vertices, t0.hmax * (21 / 20), t0.max_s⟩ : Track K) =
        ⟨storedPoints ⟨-2, 0, -2⟩ pts, [], raisedHmax 0 ⟨-2, 0, -2⟩ pts * (21 / 20),
          (pts.length : Int)⟩ := by
      rw [c1, c2, c3, cv]; simp
    rw [ht0] at h
    cases hp : Track.get_point
        (⟨storedPoints ⟨-2, 0, -2⟩ pts, [], raisedHmax 0 ⟨-2, 0, -2⟩ pts * (21 / 20),
          (pts.length : Int)⟩ : Track K) 0 with
    | none => rw [hp] at h; cases h
    | some p =>
      rw [hp] at h
      simp only [] at h
      cases hq : Track.get_point
          (⟨storedPoints ⟨-2, 0, -2⟩ pts, [], raisedHmax 0 ⟨-2, 0, -2⟩ pts * (21 / 20),
            (pts.length : Int)⟩ : Track K) (0 + 1 / 32) with
      | none => rw [hq] at h; cases h
      | some q =>
        rw [hq] at h
        simp only [] at h
        have e : (1 : K) * (1 / 32) = ((1 : ℕ) : K) / 32 := by norm_num
        rw [e] at h
        exact ⟨_, by simp only [Track.create_track_seed, hp, hq, bind, Option.bind], h⟩

/-- On a track of 524288 control points or more the extrusion loop does not
end: started at a sample s = k/32 ≤ 524288 it makes passes at the samples up
to 524288 and then stays at s = 524288, where s += step_size stores s again. -/
theorem Track.create_track_rails_diverges (sqrt : K → K) :
    ∀ (fuel : ℕ) (t : Track K) (o : Orientation K) (k : ℕ), k ≤ 16777216 →
      524288 ≤ t.max_s →
      Track.create_track_rails sqrt (1 / 32) fuel t o ((k : K) / 32) = none := by
  intro fuel
  induction fuel with
  | zero =>
    intro t o k hk hb
    have hc : (k : K) / 32 ≤ (t.max_s : K) := (sample_le_iff k t.max_s).2 (by omega)
    simp [Track.create_track_rails, hc]
  | succ n ih =>
    intro t o k hk hb
    have hc : (k : K) / 32 ≤ (t.max_s : K) := (sample_le_iff k t.max_s).2 (by omega)
    simp only [Track.create_track_rails, hc, if_true, bind, Option.bind]
    cases hstep : Track.create_track_step sqrt (1 / 32) t o ((k : K) / 32) with
    | none => rfl
    | some r =>
      obtain ⟨t2, o2⟩ := r
      obtain ⟨-, -, hm2⟩ := Track.create_track_step_inv sqrt (1 / 32) t t2 o o2 _ hstep
      simp only []
      rcases Nat.lt_or_ge k 16777216 with hlt | hge
      · have hs : (k : K) / 32 + 1 / 32 = ((k + 1 : ℕ) : K) / 32 := by push_cast; ring
        rw [hs, toFloat_step (k + 1) (by omega)]
        exact ih t2 o2 (k + 1) (by omega) (by rw [hm2]; exact hb)
      · have hk2 : k = 16777216 := le_antisymm hk hge
        have hs : (k : K) / 32 + 1 / 32 = (524288 : K) + 1 / 32 := by
          rw [hk2]; norm_num
        have he : (524288 : K) = (k : K) / 32 := by rw [hk2]; norm_num
        rw [hs, toFloat_stall, he]
        exact ih t2 o2 k hk (by rw [hm2]; exact hb)

/-- Construction does not return on 524288 displacements or more. -/
theorem Track.construct_none_of_long (sqrt : K → K) (fuel : ℕ) (pts : List (Vec3 K))
    (h : 524288 ≤ pts.length) : Track.construct sqrt fuel pts = none := by
  cases hcon : Track.construct sqrt fuel pts with
  | none => rfl
  | some t =>
    obtain ⟨o, -, hrails⟩ := Track.construct_rails sqrt fuel pts t hcon
    rw [Track.create_track_rails_diverges sqrt fuel _ o 1 (by norm_num)
      (by show (524288 : Int) ≤ (pts.length : Int); omega)] at hrails
    cases hrails

/-- A track that construction returns has fewer than 524288 control points. -/
theorem Track.construct_short (sqrt : K → K) (fuel : ℕ) (pts : List (Vec3 K)) (t : Track K)
    (h : Track.construct sqrt fuel pts = some t) : pts.length < 524288 := by
  by_contra hcon
  rw [Track.construct_none_of_long sqrt fuel pts (by omega)] at h
  cases h

/-- C16 (amended): at the sample s = k/32 the tie test holds exactly when 4
divides k (s is a multiple of 0.125), each pass of the extrusion loop appends
the 48 vertices of a rail part and, exactly then, the 24 vertices of one
makePlank call; so a track create_track returns for N = max_s displacements
holds 48 * 32 * N rail vertices and the 24 * 8 * N vertices of exactly 8 * N
planks; and create_track does return for 1 ≤ N < 524288, the sizes for which
the float counter reaches max_s. -/
theorem plank_count (sqrt : K → K) (fuel : ℕ) (pts : List (Vec3 K)) (hne : pts ≠ []) :
    (∀ k : ℕ, fmod ((k : K) / 32) (1 / 8) ≤ 1 / 50 ↔ 4 ∣ k) ∧
    (∀ (t t' : Track K) (o o' : Orientation K) (k : ℕ),
      Track.create_track_step sqrt (1 / 32) t o ((k : K) / 32) = some (t', o') →
      t'.vertices.length = t.vertices.length + 48 + (if 4 ∣ k then 24 else 0)) ∧
    (∀ t, Track.construct sqrt fuel pts = some t →
      t.max_s = (pts.length : Int) ∧
      t.vertices.length = 48 * (32 * pts.length) + 24 * (8 * pts.length)) ∧
    (pts.length < 524288 → 32 * pts.length ≤ fuel →
      ∃ t, Track.construct sqrt fuel pts = some t) := by
  refine ⟨fmod_tie_test, Track.create_track_step_length sqrt, ?_, ?_⟩
  · intro t ht
    obtain ⟨o, -, hrails⟩ := Track.construct_rails sqrt fuel pts t ht
    obtain ⟨-, -, hms⟩ := Track.construct_inv sqrt fuel pts t ht
    have hshort := Track.construct_short sqrt fuel pts t ht
    have := Track.create_track_rails_length sqrt pts.length hshort fuel _ t o 1 (le_refl _) rfl
      hrails
    rw [this]
    simp only [List.length_nil, Nat.sub_self, Nat.zero_div]
    exact ⟨hms, by omega⟩
  · intro hlen hfuel
    obtain ⟨t, ht, -⟩ := Track.construct_some sqrt fuel pts hne hlen hfuel
    exact ⟨t, ht⟩

/-- C2: on every track the constructor returns, so for every track the program
can hold, get_point(s + max_s) = get_point(s) for every s in [0, max_s), and
both are defined (over exact arithmetic); such a track has 1 ≤ max_s < 524288
control points, so the index arithmetic stays inside the int range. -/
theorem get_point_periodic (sqrt : K → K) (fuel : ℕ) (pts : List (Vec3 K)) (t : Track K)
    (h : Track.construct sqrt fuel pts = some t) (s : K) (hs0 : 0 ≤ s)
    (hs1 : s < (t.max_s : K)) :
    1 ≤ t.max_s ∧ t.get_point (s + (t.max_s : K)) = t.get_point s ∧
      (t.get_point s).isSome = true := by
  obtain ⟨hc, -, hm⟩ := Track.construct_inv sqrt fuel pts t h
  have hshort := Track.construct_short sqrt fuel pts t h
  have hne : pts ≠ [] := by
    intro e
    rw [e, Track.construct_nil] at h
    cases h
  have hpos : 1 ≤ pts.length := by
    cases pts with
    | nil => exact absurd rfl hne
    | cons _ _ => simp
  have hN : 1 ≤ t.max_s := by rw [hm]; omega
  have hlen : (t.controlPoints.length : Int) = t.max_s := by
    rw [hc, hm, storedPoints_length]
  have hfl : ⌊s⌋ < t.max_s := Int.floor_lt.2 hs1
  exact ⟨hN, Track.get_point_add_max_s t s hN hlen hs0 (by simp only [INT_MAX]; omega)⟩

end PlankCount

/-- C16 witness: for the ten displacements (max_s = 10) construction returns a
track with 48 * 320 + 24 * 80 = 17280 vertices: 320 rail parts and exactly 80
planks. -/
theorem plank_count_witness :
    tenPoints ≠ [] ∧ tenPoints.length < 524288 ∧
    ∃ t, Track.construct Rat.sqrt 320 tenPoints = some t ∧ t.max_s = 10 ∧
      t.vertices.length = 48 * 320 + 24 * 80 := by
  have hne : tenPoints ≠ [] := by simp [tenPoints]
  obtain ⟨-, -, hcount, hex⟩ := plank_count Rat.sqrt 320 tenPoints hne
  obtain ⟨t, ht⟩ := hex (by decide) (by decide)
  obtain ⟨hm, hv⟩ := hcount t ht
  exact ⟨hne, by decide, t, ht, hm, hv⟩

/-- The long line has 524288 displacements. -/
theorem longLine_length : longLine.length = 524288 := List.length_replicate _ _

/-- C16 counterexample: on a track file of 524288 displacements the first loop
of create_track ends with max_s = 524288, the seed frame and every pass of the
extrusion loop at a sample k/32 ≤ 524288 are defined, but the float counter
cannot leave 524288, since 524288 + 1/32 is stored as 524288: the loop never
ends, whatever the fuel, and makePlank is not called 8 * max_s times. -/
theorem extrusion_never_ends_on_long_track :
    longLine ≠ [] ∧ longLine.length = 524288 ∧
    Track.create_track_points (⟨[], [], 0, 0⟩ : Track ℚ) ⟨-2, 0, -2⟩ longLine
      = some ⟨storedPoints ⟨-2, 0, -2⟩ longLine, [], raisedHmax 0 ⟨-2, 0, -2⟩ longLine,
          524288⟩ ∧
    (∀ t : Track ℚ, t.controlPoints = storedPoints ⟨-2, 0, -2⟩ longLine → t.max_s = 524288 →
      (Track.create_track_seed Rat.sqrt (1 / 32) t).isSome = true ∧
      ∀ (o : Orientation ℚ) (k : ℕ), k ≤ 16777216 →
        (Track.create_track_step Rat.sqrt (1 / 32) t o ((k : ℚ) / 32)).isSome = true) ∧
    toFloat ((524288 : ℚ) + 1 / 32) = 524288 ∧
    ∀ fuel, Track.construct Rat.sqrt fuel longLine = none := by
  have hl := longLine_length
  have hne : longLine ≠ [] := by
    intro e
    rw [e] at hl
    simp at hl
  refine ⟨hne, hl, ?_, ?_, toFloat_stall, fun fuel =>
    Track.construct_none_of_long Rat.sqrt fuel longLine (by rw [hl])⟩
  · rw [Track.create_track_points_eq longLine _ _ (le_refl _)
      (by show (0 : Int) + (longLine.length : Int) ≤ INT_MAX; rw [hl]; decide)]
    simp only [List.nil_append, hl]
    rfl
  · intro t hc hm
    have hN : 1 ≤ t.max_s := by rw [hm]; decide
    have hlen : (t.controlPoints.length : Int) = t.max_s := by
      rw [hc, hm, storedPoints_length, hl]; rfl
    have hpt : ∀ s : ℚ, 0 ≤ s → s ≤ 524289 → (t.get_point s).isSome = true := by
      intro s h0 h1
      have hfl : ⌊s⌋ ≤ 524289 := Int.floor_le_iff.2 (by
        have : s < ((524289 : Int) : ℚ) + 1 := by push_cast; linarith
        exact this)
      obtain ⟨_, _, _, _, -, -, -, -, hp⟩ :=
        Track.get_point_eq t s hN hlen h0 (by rw [hm]; simp only [INT_MAX]; omega)
      rw [hp]; rfl
    constructor
    · obtain ⟨p, hp⟩ := Option.isSome_iff_exists.1 (hpt 0 (le_refl _) (by norm_num))
      obtain ⟨q, hq⟩ := Option.isSome_iff_exists.1 (hpt (0 + 1 / 32) (by norm_num) (by norm_num))
      simp only [Track.create_track_seed, hp, hq, bind, Option.bind]
      rfl
    · intro o k hk
      have hk2 : (k : ℚ) ≤ 16777216 := by exact_mod_cast hk
      obtain ⟨p, hp⟩ := Option.isSome_iff_exists.1
        (hpt ((k : ℚ) / 32) (by positivity) (by
          rw [div_le_iff₀ (by norm_num)]; linarith))
      obtain ⟨q, hq⟩ := Option.isSome_iff_exists.1
        (hpt ((k : ℚ) / 32 + 1 / 32) (by positivity) (by
          have : (k : ℚ) / 32 ≤ 524288 := by
            rw [div_le_iff₀ (by norm_num)]; linarith
          linarith))
      obtain ⟨t', o', hstep, -⟩ :=
        Track.create_track_step_some Rat.sqrt (1 / 32) t o ((k : ℚ) / 32) p q hp hq
      rw [hstep]; rfl

/-- C2 witness: on the track built from the uneven line (max_s = 4), at
s = 0.0001, get_point(s + 4) and get_point(s) are the same point. -/
theorem get_point_periodic_witness :
    ∃ t, Track.construct Rat.sqrt 128 unevenLine = some t ∧
      (0 : ℚ) ≤ 1 / 10000 ∧ (1 / 10000 : ℚ) < (t.max_s : ℚ) ∧ t.max_s = 4 ∧
      t.get_point (1 / 10000 + (t.max_s : ℚ)) = t.get_point (1 / 10000) ∧
      t.get_point (1 / 10000) = some ⟨199990001 / 2000000000000, 50, 0⟩ := by
  obtain ⟨t, ht, hc, hh, hm⟩ := unevenLine_track
  obtain ⟨-, g1, -, -⟩ := unevenLine_points t hc hm
  have h0 : (0 : ℚ) ≤ 1 / 10000 := by norm_num
  have h1 : (1 / 10000 : ℚ) < (t.max_s : ℚ) := by rw [hm]; norm_num
  obtain ⟨-, hper, -⟩ := get_point_periodic Rat.sqrt 128 unevenLine t ht (1 / 10000) h0 h1
  exact ⟨t, ht, h0, h1, hm, hper, g1⟩

/-! ## Orientation frames -/

section FrameAlgebra

variable {K : Type} [LinearOrderedField K]

theorem Vec3.dot_self_nonneg (v : Vec3 K) : 0 ≤ v.dot v := by
  simp only [Vec3.dot]
  nlinarith [mul_self_nonneg v.x, mul_self_nonneg v.y, mul_self_nonneg v.z]

theorem Vec3.eq_zero_of_dot_self (v : Vec3 K) (h : v.dot v = 0) : v = ⟨0, 0, 0⟩ := by
  simp only [Vec3.dot] at h
  have hx := mul_self_nonneg v.x
  have hy := mul_self_nonneg v.y
  have hz := mul_self_nonneg v.z
  ext
  · exact mul_self_eq_zero.1 (by linarith)
  · exact mul_self_eq_zero.1 (by linarith)
  · exact mul_self_eq_zero.1 (by linarith)

/-- A square root function that squares back and is never negative sends 1 to 1. -/
theorem sqrt_one_of_laws (sqrt : K → K) (hsq : ∀ x : K, 0 ≤ x → sqrt x * sqrt x = x)
    (hnn : ∀ x : K, 0 ≤ sqrt x) : sqrt 1 = 1 := by
  have h := hsq 1 zero_le_one
  have h0 := hnn 1
  have h2 : (sqrt 1 - 1) * (sqrt 1 + 1) = 0 := by ring_nf; linarith
  rcases mul_eq_zero.1 h2 with h3 | h3
  · linarith
  · linarith

theorem Vec3.sub_ne_zero (q p : Vec3 K) (h : q ≠ p) : q.sub p ≠ ⟨0, 0, 0⟩ := by
  intro e
  apply h
  have ex := congrArg Vec3.x e
  have ey := congrArg Vec3.y e
  have ez := congrArg Vec3.z e
  simp only [Vec3.sub] at ex ey ez
  ext
  · linarith
  · linarith
  · linarith

/-- The normalization of a vector that is not the zero vector has dot product 1
with itself. -/
theorem Vec3.normalize_dot_self (sqrt : K → K) (hsq : ∀ x : K, 0 ≤ x → sqrt x * sqrt x = x)
    (v : Vec3 K) (hv : v ≠ ⟨0, 0, 0⟩) :
    (v.normalize sqrt).dot (v.normalize sqrt) = 1 := by
  have hd : v.dot v ≠ 0 := fun h0 => hv (Vec3.eq_zero_of_dot_self v h0)
  have hs := hsq _ (Vec3.dot_self_nonneg v)
  have hne : sqrt (v.dot v) ≠ 0 := by
    intro h0; rw [h0] at hs; simp at hs; exact hd hs.symm
  have e : (v.normalize sqrt).dot (v.normalize sqrt)
      = v.dot v * (1 / sqrt (v.dot v) * (1 / sqrt (v.dot v))) := by
    simp only [Vec3.normalize, Vec3.scale, Vec3.dot]; ring
  rw [e]
  field_simp
  exact hs.symm

/-- The normalization of a vector that is not the zero vector has length 1. -/
theorem Vec3.normalize_length (sqrt : K → K) (hsq : ∀ x : K, 0 ≤ x → sqrt x * sqrt x = x)
    (hnn : ∀ x : K, 0 ≤ sqrt x) (v : Vec3 K) (hv : v ≠ ⟨0, 0, 0⟩) :
    (v.normalize sqrt).length sqrt = 1 := by
  rw [Vec3.length, Vec3.normalize_dot_self sqrt hsq v hv]
  exact sqrt_one_of_laws sqrt hsq hnn

theorem Vec3.dot_normalize_cross_left (sqrt : K → K) (a b : Vec3 K) :
    a.dot ((a.cross b).normalize sqrt) = 0 := by
  simp only [Vec3.normalize, Vec3.scale, Vec3.dot, Vec3.cross]; ring

theorem Vec3.dot_normalize_cross_right (sqrt : K → K) (a b : Vec3 K) :
    b.dot ((a.cross b).normalize sqrt) = 0 := by
  simp only [Vec3.normalize, Vec3.scale, Vec3.dot, Vec3.cross]; ring

/-- The cross product of two perpendicular unit vectors is a unit vector. -/
theorem Vec3.cross_dot_self (a b : Vec3 K) (ha : a.dot a = 1) (hb : b.dot b = 1)
    (hab : a.dot b = 0) : (a.cross b).dot (a.cross b) = 1 := by
  have e : (a.cross b).dot (a.cross b) = a.dot a * b.dot b - a.dot b * a.dot b := by
    simp only [Vec3.dot, Vec3.cross]; ring
  rw [e, ha, hb, hab]; ring

/-- A frame with unit, perpendicular Front and Up whose Right is
normalize(Front x Up) is orthonormal. -/
theorem Orientation.orthonormal_of (sqrt : K → K)
    (hsq : ∀ x : K, 0 ≤ x → sqrt x * sqrt x = x) (hnn : ∀ x : K, 0 ≤ sqrt x)
    (o : Orientation K) (hF : o.Front.dot o.Front = 1) (hU : o.Up.dot o.Up = 1)
    (hFU : o.Front.dot o.Up = 0) (hR : o.Right = (o.Front.cross o.Up).normalize sqrt) :
    o.orthonormal sqrt := by
  have h1 := sqrt_one_of_laws sqrt hsq hnn
  have hc := Vec3.cross_dot_self o.Front o.Up hF hU hFU
  have hRR : o.Right.dot o.Right = 1 := by
    rw [hR]
    have e : ((o.Front.cross o.Up).normalize sqrt).dot ((o.Front.cross o.Up).normalize sqrt)
        = (o.Front.cross o.Up).dot (o.Front.cross o.Up)
          * (1 / sqrt ((o.Front.cross o.Up).dot (o.Front.cross o.Up))
            * (1 / sqrt ((o.Front.cross o.Up).dot (o.Front.cross o.Up)))) := by
      simp only [Vec3.normalize, Vec3.scale, Vec3.dot]; ring
    rw [e, hc, h1]; norm_num
  refine ⟨?_, ?_, ?_, hFU, ?_, ?_⟩
  · rw [Vec3.length, hF, h1]
  · rw [Vec3.length, hU, h1]
  · rw [Vec3.length, hRR, h1]
  · rw [hR]; exact Vec3.dot_normalize_cross_left sqrt _ _
  · rw [hR]; exact Vec3.dot_normalize_cross_right sqrt _ _

/-- A vector c * (3,4,0) with c > 0 normalizes to (3/5,4/5,0) when the square
root is exact on squares. -/
theorem normalize_slanted (sqrt : K → K) (hs : ∀ a : K, 0 ≤ a → sqrt (a * a) = a) (c : K)
    (hc : 0 < c) : (⟨3 * c, 4 * c, 0⟩ : Vec3 K).normalize sqrt = ⟨3 / 5, 4 / 5, 0⟩ := by
  have h : sqrt (3 * c * (3 * c) + 4 * c * (4 * c) + 0 * 0) = 5 * c := by
    rw [show 3 * c * (3 * c) + 4 * c * (4 * c) + 0 * 0 = 5 * c * (5 * c) by ring]
    exact hs _ (by linarith)
  have hne : c ≠ 0 := ne_of_gt hc
  simp only [Vec3.normalize, Vec3.dot, Vec3.scale, h]
  ext
  · simp; field_simp; ring
  · simp; field_simp; ring
  · simp

end FrameAlgebra

section Frames

variable {K : Type} [LinearOrderedField K] [FloorRing K]

/-- The frame a completed pass of the extrusion loop body leaves in Ori_Pn. -/
theorem Track.create_track_step_frame (sqrt : K → K) (step : K) (t t' : Track K)
    (o o' : Orientation K) (s : K)
    (h : Track.create_track_step sqrt step t o s = some (t', o')) :
    ∃ p q, t.get_point s = some p ∧ t.get_point (s + step) = some q ∧
      o'.origin = p ∧ o'.Front = (q.sub p).normalize sqrt ∧
      o'.Up = (if s ≥ (t.max_s : K) - 64 * step then
          ((o.Right.cross o'.Front).normalize sqrt).add
            (Vec3.smul ((s - ((t.max_s : K) - 64 * step)) / (64 * step))
              ((⟨0, 1, 0⟩ : Vec3 K).sub ((o.Right.cross o'.Front).normalize sqrt)))
        else (o.Right.cross o'.Front).normalize sqrt) ∧
      o'.Right = (o'.Front.cross o'.Up).normalize sqrt := by
  cases hp : t.get_point s with
  | none =>
    have hnone : Track.create_track_step sqrt step t o s = none := by
      simp only [Track.create_track_step, hp, bind, Option.bind]
    rw [hnone] at h; cases h
  | some p =>
    cases hq : t.get_point (s + step) with
    | none =>
      have hnone : Track.create_track_step sqrt step t o s = none := by
        simp only [Track.create_track_step, hp, hq, bind, Option.bind]
      rw [hnone] at h; cases h
    | some q =>
      simp only [Track.create_track_step, hp, hq, bind, Option.bind, Option.some.injEq,
        Prod.mk.injEq] at h
      obtain ⟨-, h2⟩ := h
      subst h2
      exact ⟨p, q, rfl, rfl, rfl, rfl, rfl, rfl⟩

/-- The seed frame of create_track, when it is built. -/
theorem Track.create_track_seed_frame (sqrt : K → K) (step : K) (t : Track K)
    (o : Orientation K) (h : Track.create_track_seed sqrt step t = some o) :
    ∃ p q, t.get_point 0 = some p ∧ t.get_point (0 + step) = some q ∧
      o.origin = p ∧ o.Front = (q.sub p).normalize sqrt ∧ o.Up = ⟨0, 1, 0⟩ ∧
      o.Right = (o.Front.cross o.Up).normalize sqrt := by
  cases hp : t.get_point 0 with
  | none =>
    have hnone : Track.create_track_seed sqrt step t = none := by
      simp only [Track.create_track_seed, hp, bind, Option.bind]
    rw [hnone] at h; cases h
  | some p =>
    cases hq : t.get_point (0 + step) with
    | none =>
      have hnone : Track.create_track_seed sqrt step t = none := by
        simp only [Track.create_track_seed, hp, hq, bind, Option.bind]
      rw [hnone] at h; cases h
    | some q =>
      simp only [Track.create_track_seed, hp, hq, bind, Option.bind, Option.some.injEq] at h
      subst h
      exact ⟨p, q, rfl, rfl, rfl, rfl, rfl, rfl⟩

/-- On the first segment of the slanted track get_point is the blend of the
window (-3,-4,0), (0,0,0), (3,4,0), (9,12,0). -/
theorem slantedTrack_get_point (u : K) (h0 : 0 ≤ u) (h1 : u < 1) :
    (slantedTrack K).get_point u
      = some (Track.interpolate ⟨-3, -4, 0⟩ ⟨0, 0, 0⟩ ⟨3, 4, 0⟩ ⟨9, 12, 0⟩ (1 / 2) u) := by
  have f : ⌊u⌋ = 0 := by
    rw [Int.floor_eq_iff]; constructor
    · simpa using h0
    · simpa using h1
  simp only [Track.get_point, Track.get_point_window, slantedTrack, f, toInt, addInt, subInt,
    INT_MAX, INT_MIN, bind, Option.bind]
  simp [modInt_of_pos, vecAt]

/-- The points of the slanted track at s = 0, 1/32 and 2/32. -/
theorem slantedTrack_points :
    (slantedTrack K).get_point 0 = some ⟨0, 0, 0⟩ ∧
    (slantedTrack K).get_point (0 + 1 / 32) = some ⟨3 * (2017 / 65536), 4 * (2017 / 65536), 0⟩ ∧
    (slantedTrack K).get_point (1 / 32) = some ⟨3 * (2017 / 65536), 4 * (2017 / 65536), 0⟩ ∧
    (slantedTrack K).get_point (1 / 32 + 1 / 32)
      = some ⟨3 * (497 / 8192), 4 * (497 / 8192), 0⟩ := by
  have e1 : (0 : K) + 1 / 32 = 1 / 32 := by norm_num
  have e2 : (1 / 32 + 1 / 32 : K) = 1 / 16 := by norm_num
  rw [e1, e2, slantedTrack_get_point 0 (le_refl _) zero_lt_one,
    slantedTrack_get_point (1 / 32) (by norm_num) (by norm_num),
    slantedTrack_get_point (1 / 16) (by norm_num) (by norm_num)]
  simp only [Track.interpolate_poly, Option.some.injEq]
  refine ⟨?_, ?_, ?_, ?_⟩ <;> ext <;> norm_num

end Frames

section SlantedFrames

variable {K : Type} [LinearOrderedField K] [FloorRing K]

/-- On the slanted track, with a square root that is exact on squares, the
seed frame is Front = (3/5,4/5,0), Up = (0,1,0), Right = (0,0,1), and the first
pass of the extrusion loop turns it into Front = (3/5,4/5,0),
Up = (-4/5,3/5,0), Right = (0,0,1). -/
theorem slantedTrack_frames (sqrt : K → K) (hs : ∀ a : K, 0 ≤ a → sqrt (a * a) = a) :
    Track.create_track_seed sqrt (1 / 32) (slantedTrack K)
      = some ⟨⟨3 / 5, 4 / 5, 0⟩, ⟨0, 1, 0⟩, ⟨0, 0, 1⟩, ⟨0, 0, 0⟩⟩ ∧
    ∃ t', Track.create_track_step sqrt (1 / 32) (slantedTrack K)
        ⟨⟨3 / 5, 4 / 5, 0⟩, ⟨0, 1, 0⟩, ⟨0, 0, 1⟩, ⟨0, 0, 0⟩⟩ (1 / 32)
      = some (t', ⟨⟨3 / 5, 4 / 5, 0⟩, ⟨-4 / 5, 3 / 5, 0⟩, ⟨0, 0, 1⟩,
          ⟨3 * (2017 / 65536), 4 * (2017 / 65536), 0⟩⟩) := by
  obtain ⟨g0, g1, g2, g3⟩ := @slantedTrack_points K _ _
  have hone : sqrt 1 = 1 := by simpa using hs 1 zero_le_one
  have hF0 : ((⟨3 * (2017 / 65536), 4 * (2017 / 65536), 0⟩ : Vec3 K).sub ⟨0, 0, 0⟩).normalize sqrt
      = ⟨3 / 5, 4 / 5, 0⟩ := by
    have e : (Vec3.sub ⟨3 * (2017 / 65536), 4 * (2017 / 65536), 0⟩ ⟨0, 0, 0⟩ : Vec3 K)
        = ⟨3 * (2017 / 65536), 4 * (2017 / 65536), 0⟩ := by
      ext <;> simp [Vec3.sub]
    rw [e]; exact normalize_slanted sqrt hs _ (by norm_num)
  have hF1 : ((⟨3 * (497 / 8192), 4 * (497 / 8192), 0⟩ : Vec3 K).sub
      ⟨3 * (2017 / 65536), 4 * (2017 / 65536), 0⟩).normalize sqrt = ⟨3 / 5, 4 / 5, 0⟩ := by
    have e : (Vec3.sub ⟨3 * (497 / 8192), 4 * (497 / 8192), 0⟩
        ⟨3 * (2017 / 65536), 4 * (2017 / 65536), 0⟩ : Vec3 K)
        = ⟨3 * (1959 / 65536), 4 * (1959 / 65536), 0⟩ := by
      ext <;> simp [Vec3.sub] <;> norm_num
    rw [e]; exact normalize_slanted sqrt hs _ (by norm_num)
  have hR : ((⟨3 / 5, 4 / 5, 0⟩ : Vec3 K).cross ⟨0, 1, 0⟩).normalize sqrt = ⟨0, 0, 1⟩ := by
    have hq : sqrt ((3 / 5 : K) * (3 / 5)) = 3 / 5 := hs _ (by norm_num)
    simp only [Vec3.normalize, Vec3.dot, Vec3.scale, Vec3.cross]
    rw [show ((4 / 5 : K) * 0 - 1 * 0) * (4 / 5 * 0 - 1 * 0)
        + (0 * 0 - 0 * (3 / 5)) * (0 * 0 - 0 * (3 / 5))
        + (3 / 5 * 1 - 0 * (4 / 5)) * (3 / 5 * 1 - 0 * (4 / 5)) = 3 / 5 * (3 / 5) by norm_num, hq]
    ext <;> norm_num
  have hU : ((⟨0, 0, 1⟩ : Vec3 K).cross ⟨3 / 5, 4 / 5, 0⟩).normalize sqrt
      = ⟨-4 / 5, 3 / 5, 0⟩ := by
    simp only [Vec3.normalize, Vec3.dot, Vec3.scale, Vec3.cross]
    rw [show ((0 : K) * 0 - 4 / 5 * 1) * (0 * 0 - 4 / 5 * 1)
        + (1 * (3 / 5) - 0 * 0) * (1 * (3 / 5) - 0 * 0)
        + (0 * (4 / 5) - 3 / 5 * 0) * (0 * (4 / 5) - 3 / 5 * 0) = 1 by norm_num, hone]
    ext <;> norm_num
  have hR1 : ((⟨3 / 5, 4 / 5, 0⟩ : Vec3 K).cross ⟨-4 / 5, 3 / 5, 0⟩).normalize sqrt
      = ⟨0, 0, 1⟩ := by
    simp only [Vec3.normalize, Vec3.dot, Vec3.scale, Vec3.cross]
    rw [show ((4 / 5 : K) * 0 - 3 / 5 * 0) * (4 / 5 * 0 - 3 / 5 * 0)
        + (0 * (-4 / 5) - 0 * (3 / 5)) * (0 * (-4 / 5) - 0 * (3 / 5))
        + (3 / 5 * (3 / 5) - -4 / 5 * (4 / 5)) * (3 / 5 * (3 / 5) - -4 / 5 * (4 / 5)) = 1
        by norm_num, hone]
    ext <;> norm_num
  constructor
  · simp only [Track.create_track_seed, g0, g1, bind, Option.bind, hF0, hR]
  · obtain ⟨t', o', hstep, -⟩ := Track.create_track_step_some sqrt (1 / 32) (slantedTrack K)
      ⟨⟨3 / 5, 4 / 5, 0⟩, ⟨0, 1, 0⟩, ⟨0, 0, 1⟩, ⟨0, 0, 0⟩⟩ (1 / 32) _ _ g2 g3
    obtain ⟨p, q, hp, hq, e1, e2, e3, e4⟩ :=
      Track.create_track_step_frame sqrt (1 / 32) _ t' _ o' _ hstep
    have hpp := Option.some.inj (hp.symm.trans g2)
    have hqq := Option.some.inj (hq.symm.trans g3)
    have hblend : ¬ ((1 / 32 : K) ≥ (((slantedTrack K).max_s : Int) : K) - 64 * (1 / 32)) := by
      simp only [slantedTrack]; norm_num
    rw [hpp, hqq, hF1] at e2
    rw [if_neg hblend, e2, hU] at e3
    rw [e2, e3, hR1] at e4
    refine ⟨t', ?_⟩
    rw [hstep]
    congr 2
    ext1
    · exact e2
    · exact e3
    · exact e4
    · rw [e1, hpp]

end SlantedFrames

section SlantedAlgebra

variable {K : Type} [LinearOrderedField K]

/-- At u = 1 the blend is its third point. -/
theorem Track.interpolate_one (A B C D : Vec3 K) (tau : K) :
    Track.interpolate A B C D tau 1 = C := by
  rw [Track.interpolate_poly]
  ext <;> simp <;> ring

/-- The blend of four points on the line through (3,4,0) lies on that line. -/
theorem interpolate_on_slanted_line (A B C D : Vec3 K) (u : K)
    (hA : A.z = 0 ∧ 4 * A.x = 3 * A.y) (hB : B.z = 0 ∧ 4 * B.x = 3 * B.y)
    (hC : C.z = 0 ∧ 4 * C.x = 3 * C.y) (hD : D.z = 0 ∧ 4 * D.x = 3 * D.y) :
    (Track.interpolate A B C D (1 / 2) u).z = 0 ∧
    4 * (Track.interpolate A B C D (1 / 2) u).x = 3 * (Track.interpolate A B C D (1 / 2) u).y := by
  rw [Track.interpolate_poly]
  obtain ⟨a1, a2⟩ := hA
  obtain ⟨b1, b2⟩ := hB
  obtain ⟨c1, c2⟩ := hC
  obtain ⟨d1, d2⟩ := hD
  constructor
  · simp only [a1, b1, c1, d1]; ring
  · simp only
    linear_combination (1 + (1 / 2 - 3) * u ^ 2 + (2 - 1 / 2) * u ^ 3) * b2
      + (1 / 2 * u + (3 - 2 * (1 / 2)) * u ^ 2 + (1 / 2 - 2) * u ^ 3) * c2
      + (- (1 / 2) * u + 2 * (1 / 2) * u ^ 2 - 1 / 2 * u ^ 3) * a2
      + (- (1 / 2) * u ^ 2 + 1 / 2 * u ^ 3) * d2

/-- The x coordinate of the blend gained over one sample step of 1/32, for a
window with integer x coordinates, as an integer polynomial in the sample
number over 65536. -/
theorem interpolate_sample_step (A B C D : Vec3 K) (a b c d : Int) (hA : A.x = (a : K))
    (hB : B.x = (b : K)) (hC : C.x = (c : K)) (hD : D.x = (d : K)) (i : ℕ) :
    (Track.interpolate A B C D (1 / 2) (((i + 1 : ℕ) : K) / 32)).x
        - (Track.interpolate A B C D (1 / 2) ((i : K) / 32)).x
      = ((1024 * (c - a) + 32 * (2 * a - 5 * b + 4 * c - d) * (2 * (i : Int) + 1)
          + (-a + 3 * b - 3 * c + d) * (3 * (i : Int) ^ 2 + 3 * (i : Int) + 1) : Int) : K)
        / 65536 := by
  rw [Track.interpolate_poly, Track.interpolate_poly]
  simp only [hA, hB, hC, hD]
  push_cast
  ring

/-- A non-zero vector c * (3,4,0) normalizes to (3/5,4/5,0) or to its opposite,
and to (3/5,4/5,0) when c > 0, when the square root is exact on squares. -/
theorem normalize_slanted_sign (sqrt : K → K) (hs : ∀ a : K, 0 ≤ a → sqrt (a * a) = a) (c : K)
    (hc : c ≠ 0) :
    ∃ e : K, (e = 1 ∨ e = -1) ∧ (0 < c → e = 1) ∧
      (⟨3 * c, 4 * c, 0⟩ : Vec3 K).normalize sqrt = ⟨3 / 5 * e, 4 / 5 * e, 0⟩ := by
  rcases lt_or_gt_of_ne hc with h | h
  · refine ⟨-1, Or.inr rfl, fun h2 => absurd h2 (not_lt.2 (le_of_lt h)), ?_⟩
    have hq : sqrt (3 * c * (3 * c) + 4 * c * (4 * c) + 0 * 0) = -(5 * c) := by
      rw [show 3 * c * (3 * c) + 4 * c * (4 * c) + 0 * 0 = -(5 * c) * -(5 * c) by ring]
      exact hs _ (by linarith)
    simp only [Vec3.normalize, Vec3.dot, Vec3.scale, hq]
    ext
    · simp; field_simp; ring
    · simp; field_simp; ring
    · simp
  · refine ⟨1, Or.inl rfl, fun _ => rfl, ?_⟩
    rw [normalize_slanted sqrt hs c h]
    ext <;> simp

/-- The vector (0,0,1) x (e * (3/5,4/5,0)) with e = 1 or e = -1 has length 1: it
normalizes to itself, e * (-4/5,3/5,0). -/
theorem normalize_cross_slanted (sqrt : K → K) (hone : sqrt 1 = 1) (e : K)
    (he : e = 1 ∨ e = -1) :
    ((⟨0, 0, 1⟩ : Vec3 K).cross ⟨3 / 5 * e, 4 / 5 * e, 0⟩).normalize sqrt
      = ⟨-4 / 5 * e, 3 / 5 * e, 0⟩ := by
  have hd : ((⟨0, 0, 1⟩ : Vec3 K).cross ⟨3 / 5 * e, 4 / 5 * e, 0⟩).dot
      ((⟨0, 0, 1⟩ : Vec3 K).cross ⟨3 / 5 * e, 4 / 5 * e, 0⟩) = 1 := by
    rcases he with rfl | rfl <;> norm_num [Vec3.cross, Vec3.dot]
  simp only [Vec3.normalize, hd, hone]
  ext <;> simp [Vec3.scale, Vec3.cross]
  ring

/-- A vector (0,0,z) with z > 0 normalizes to (0,0,1) when the square root is
exact on squares. -/
theorem normalize_vertical (sqrt : K → K) (hs : ∀ a : K, 0 ≤ a → sqrt (a * a) = a) (z : K)
    (hz : 0 < z) : (⟨0, 0, z⟩ : Vec3 K).normalize sqrt = ⟨0, 0, 1⟩ := by
  have hq : sqrt (0 * 0 + 0 * 0 + z * z) = z := by
    rw [show (0 : K) * 0 + 0 * 0 + z * z = z * z by ring]
    exact hs _ (le_of_lt hz)
  have hne : z ≠ 0 := ne_of_gt hz
  simp only [Vec3.normalize, Vec3.dot, Vec3.scale, hq]
  ext
  · simp
  · simp
  · simp; field_simp

end SlantedAlgebra

section SlantedRun

variable {K : Type} [LinearOrderedField K] [FloorRing K]

/-- On a track whose control points are those of the slanted track, get_point
at the sample k/32 blends the window of segment k / 32 at the local parameter
(k mod 32)/32. -/
theorem slantedTrack_sample (t : Track K)
    (hc : t.controlPoints = [⟨0, 0, 0⟩, ⟨3, 4, 0⟩, ⟨9, 12, 0⟩, ⟨-3, -4, 0⟩]) (hm : t.max_s = 4)
    (k : ℕ) (hk : k ≤ 1024) :
    t.get_point ((k : K) / 32)
      = some (Track.interpolate
          (t.controlPoints.getD ((k / 32 + 3) % 4) ⟨0, 0, 0⟩)
          (t.controlPoints.getD ((k / 32) % 4) ⟨0, 0, 0⟩)
          (t.controlPoints.getD ((k / 32 + 1) % 4) ⟨0, 0, 0⟩)
          (t.controlPoints.getD ((k / 32 + 2) % 4) ⟨0, 0, 0⟩)
          (1 / 2) (((k % 32 : ℕ) : K) / 32)) := by
  have hdiv : (k : K) / 32 = ((k / 32 : ℕ) : K) + ((k % 32 : ℕ) : K) / 32 := by
    have h := Nat.div_add_mod k 32
    have h2 : ((32 * (k / 32) + k % 32 : ℕ) : K) = (k : K) := by rw [h]
    push_cast at h2
    rw [← h2]; ring
  have hlt : ((k % 32 : ℕ) : K) / 32 < 1 := by
    rw [div_lt_one (by norm_num)]
    exact_mod_cast Nat.mod_lt k (by norm_num)
  have hnn : (0 : K) ≤ ((k % 32 : ℕ) : K) / 32 := by positivity
  have hfl : ⌊(k : K) / 32⌋ = ((k / 32 : ℕ) : Int) := by
    rw [Int.floor_eq_iff, hdiv]
    constructor
    · simp only [Int.cast_natCast]; linarith
    · simp only [Int.cast_natCast]; linarith
  have hu : (k : K) / 32 - ((⌊(k : K) / 32⌋ : Int) : K) = ((k % 32 : ℕ) : K) / 32 := by
    rw [hfl, Int.cast_natCast]; linarith
  have hj : k / 32 ≤ 32 := by omega
  obtain ⟨a, b, c, d, ha, hb, hcc, hd, hg⟩ :=
    Track.get_point_eq t ((k : K) / 32) (by rw [hm]; norm_num) (by rw [hc, hm]; rfl)
      (by positivity) (by rw [hfl, hm]; simp only [INT_MAX]; omega)
  rw [hg, hu]
  rw [hfl, hm] at ha hb hcc hd
  have i1 : (((k / 32 : ℕ) : Int) - 1) % 4 = (((k / 32 + 3) % 4 : ℕ) : Int) := by omega
  have i2 : ((k / 32 : ℕ) : Int) % 4 = (((k / 32) % 4 : ℕ) : Int) := by omega
  have i3 : (((k / 32 : ℕ) : Int) + 1) % 4 = (((k / 32 + 1) % 4 : ℕ) : Int) := by omega
  have i4 : (((k / 32 : ℕ) : Int) + 2) % 4 = (((k / 32 + 2) % 4 : ℕ) : Int) := by omega
  rw [i1] at ha; rw [i2] at hb; rw [i3] at hcc; rw [i4] at hd
  have key : ∀ (n : ℕ) (v : Vec3 K), vecAt t.controlPoints ((n : ℕ) : Int) = some v →
      t.controlPoints.getD n ⟨0, 0, 0⟩ = v := by
    intro n v h
    simp only [vecAt, Int.toNat_ofNat, Int.natCast_nonneg, if_true] at h
    simp [List.getD, h]
  rw [key _ _ ha, key _ _ hb, key _ _ hcc, key _ _ hd]

/-- On a track whose control points are those of the slanted track, get_point
at j + i/32 with i ≤ 32 blends the window of segment j at the local parameter
i/32 (at i = 32 the next segment starts at the third point of this window). -/
theorem slantedTrack_at (t : Track K)
    (hc : t.controlPoints = [⟨0, 0, 0⟩, ⟨3, 4, 0⟩, ⟨9, 12, 0⟩, ⟨-3, -4, 0⟩]) (hm : t.max_s = 4)
    (j i : ℕ) (hj : j ≤ 16) (hi : i ≤ 32) :
    t.get_point ((j : K) + (i : K) / 32)
      = some (Track.interpolate
          (t.controlPoints.getD ((j + 3) % 4) ⟨0, 0, 0⟩)
          (t.controlPoints.getD (j % 4) ⟨0, 0, 0⟩)
          (t.controlPoints.getD ((j + 1) % 4) ⟨0, 0, 0⟩)
          (t.controlPoints.getD ((j + 2) % 4) ⟨0, 0, 0⟩)
          (1 / 2) ((i : K) / 32)) := by
  rcases Nat.lt_or_ge i 32 with h | h
  · have h1 : (32 * j + i) / 32 = j := by omega
    have h2 : (32 * j + i) % 32 = i := by omega
    have h3 := slantedTrack_sample t hc hm (32 * j + i) (by omega)
    rw [h1, h2] at h3
    rw [← h3]
    congr 1
    push_cast; ring
  · have hi32 : i = 32 := by omega
    subst hi32
    have h1 : (32 * (j + 1)) / 32 = j + 1 := by omega
    have h2 : (32 * (j + 1)) % 32 = 0 := by omega
    have h3 := slantedTrack_sample t hc hm (32 * (j + 1)) (by omega)
    rw [h1, h2] at h3
    rw [show ((0 : ℕ) : K) / 32 = 0 by simp, Track.interpolate_zero] at h3
    rw [show ((32 : ℕ) : K) / 32 = 1 by norm_num, Track.interpolate_one, ← h3]
    congr 1
    push_cast; ring

/-- Along the run of the extrusion loop on the slanted track (samples k/32,
k ≤ 128) the two points a pass reads lie on the line through (3,4,0) and differ,
and from k = 102 on the second lies ahead of the first. -/
theorem slantedTrack_steps (t : Track K)
    (hc : t.controlPoints = [⟨0, 0, 0⟩, ⟨3, 4, 0⟩, ⟨9, 12, 0⟩, ⟨-3, -4, 0⟩]) (hm : t.max_s = 4)
    (k : ℕ) (hk : k ≤ 128) :
    ∃ p q : Vec3 K, t.get_point ((k : K) / 32) = some p ∧
      t.get_point ((k : K) / 32 + 1 / 32) = some q ∧
      p.z = 0 ∧ q.z = 0 ∧ 4 * p.x = 3 * p.y ∧ 4 * q.x = 3 * q.y ∧ p.x ≠ q.x ∧
      (102 ≤ k → p.x < q.x) := by
  have hk1 : (k : K) / 32 = ((k / 32 : ℕ) : K) + ((k % 32 : ℕ) : K) / 32 := by
    have h := Nat.div_add_mod k 32
    have h2 : ((32 * (k / 32) + k % 32 : ℕ) : K) = (k : K) := by rw [h]
    push_cast at h2
    rw [← h2]; ring
  have hk2 : (k : K) / 32 + 1 / 32 = ((k / 32 : ℕ) : K) + ((k % 32 + 1 : ℕ) : K) / 32 := by
    rw [hk1]; push_cast; ring
  have hi : k % 32 < 32 := Nat.mod_lt k (by norm_num)
  have hj : k / 32 ≤ 4 := by omega
  have hjk : 32 * (k / 32) + k % 32 = k := Nat.div_add_mod k 32
  rw [hk2, hk1, slantedTrack_at t hc hm _ _ (by omega) (by omega),
    slantedTrack_at t hc hm _ _ (by omega) (by omega), hc]
  generalize k / 32 = j at hj hjk
  generalize k % 32 = i at hi hjk
  refine ⟨_, _, rfl, rfl, ?_⟩
  have d0 : ∀ n : ℕ, n < 32 → (0 : Int) < 1024 * (3 - -3) + 32 * (2 * -3 - 5 * 0 + 4 * 3 - 9)
      * (2 * (n : Int) + 1) + (- -3 + 3 * 0 - 3 * 3 + 9) * (3 * (n : Int) ^ 2 + 3 * (n : Int) + 1) := by
    decide
  have d1 : ∀ n : ℕ, n < 32 → (1024 * (9 - 0) + 32 * (2 * 0 - 5 * 3 + 4 * 9 - -3)
      * (2 * (n : Int) + 1) + (- 0 + 3 * 3 - 3 * 9 + -3) * (3 * (n : Int) ^ 2 + 3 * (n : Int) + 1)
      : Int) ≠ 0 := by
    decide
  have d2 : ∀ n : ℕ, n < 32 → (1024 * (-3 - 3) + 32 * (2 * 3 - 5 * 9 + 4 * -3 - 0)
      * (2 * (n : Int) + 1) + (- 3 + 3 * 9 - 3 * -3 + 0) * (3 * (n : Int) ^ 2 + 3 * (n : Int) + 1)
      : Int) ≠ 0 := by
    decide
  have d3 : ∀ n : ℕ, n < 32 → (1024 * (0 - 9) + 32 * (2 * 9 - 5 * -3 + 4 * 0 - 3)
      * (2 * (n : Int) + 1) + (- 9 + 3 * -3 - 3 * 0 + 3) * (3 * (n : Int) ^ 2 + 3 * (n : Int) + 1)
      : Int) ≠ 0 ∧ (6 ≤ n → (0 : Int) < 1024 * (0 - 9) + 32 * (2 * 9 - 5 * -3 + 4 * 0 - 3)
      * (2 * (n : Int) + 1) + (- 9 + 3 * -3 - 3 * 0 + 3)
      * (3 * (n : Int) ^ 2 + 3 * (n : Int) + 1)) := by
    decide
  have hpos : ∀ z : Int, 0 < z → (0 : K) < (z : K) / 65536 := fun z hz =>
    div_pos (Int.cast_pos.2 hz) (by norm_num)
  have hne : ∀ z : Int, z ≠ 0 → ((z : K) / 65536) ≠ 0 := fun z hz =>
    div_ne_zero (Int.cast_ne_zero.2 hz) (by norm_num)
  have hj5 : j = 0 ∨ j = 1 ∨ j = 2 ∨ j = 3 ∨ j = 4 := by omega
  rcases hj5 with rfl | rfl | rfl | rfl | rfl <;>
    simp only [Nat.reduceAdd, Nat.reduceMod, List.getD_cons_succ, List.getD_cons_zero]
  · have hl := fun u => interpolate_on_slanted_line (⟨-3, -4, 0⟩ : Vec3 K) ⟨0, 0, 0⟩ ⟨3, 4, 0⟩
      ⟨9, 12, 0⟩ u (by norm_num) (by norm_num) (by norm_num) (by norm_num)
    have hd := interpolate_sample_step (⟨-3, -4, 0⟩ : Vec3 K) ⟨0, 0, 0⟩ ⟨3, 4, 0⟩ ⟨9, 12, 0⟩
      (-3) 0 3 9 (by norm_num) (by norm_num) (by norm_num) (by norm_num) i
    have hq := hpos _ (d0 i hi)
    rw [← hd] at hq
    exact ⟨(hl _).1, (hl _).1, (hl _).2, (hl _).2, fun e => by rw [e] at hq; simp at hq,
      fun _ => by linarith⟩
  · have hl := fun u => interpolate_on_slanted_line (⟨0, 0, 0⟩ : Vec3 K) ⟨3, 4, 0⟩ ⟨9, 12, 0⟩
      ⟨-3, -4, 0⟩ u (by norm_num) (by norm_num) (by norm_num) (by norm_num)
    have hd := interpolate_sample_step (⟨0, 0, 0⟩ : Vec3 K) ⟨3, 4, 0⟩ ⟨9, 12, 0⟩ ⟨-3, -4, 0⟩
      0 3 9 (-3) (by norm_num) (by norm_num) (by norm_num) (by norm_num) i
    have hq := hne _ (d1 i hi)
    rw [← hd] at hq
    exact ⟨(hl _).1, (hl _).1, (hl _).2, (hl _).2, fun e => hq (by rw [e]; simp),
      fun h => by omega⟩
  · have hl := fun u => interpolate_on_slanted_line (⟨3, 4, 0⟩ : Vec3 K) ⟨9, 12, 0⟩ ⟨-3, -4, 0⟩
      ⟨0, 0, 0⟩ u (by norm_num) (by norm_num) (by norm_num) (by norm_num)
    have hd := interpolate_sample_step (⟨3, 4, 0⟩ : Vec3 K) ⟨9, 12, 0⟩ ⟨-3, -4, 0⟩ ⟨0, 0, 0⟩
      3 9 (-3) 0 (by norm_num) (by norm_num) (by norm_num) (by norm_num) i
    have hq := hne _ (d2 i hi)
    rw [← hd] at hq
    exact ⟨(hl _).1, (hl _).1, (hl _).2, (hl _).2, fun e => hq (by rw [e]; simp),
      fun h => by omega⟩
  · have hl := fun u => interpolate_on_slanted_line (⟨9, 12, 0⟩ : Vec3 K) ⟨-3, -4, 0⟩ ⟨0, 0, 0⟩
      ⟨3, 4, 0⟩ u (by norm_num) (by norm_num) (by norm_num) (by norm_num)
    have hd := interpolate_sample_step (⟨9, 12, 0⟩ : Vec3 K) ⟨-3, -4, 0⟩ ⟨0, 0, 0⟩ ⟨3, 4, 0⟩
      9 (-3) 0 3 (by norm_num) (by norm_num) (by norm_num) (by norm_num) i
    have hq := hne _ (d3 i hi).1
    rw [← hd] at hq
    refine ⟨(hl _).1, (hl _).1, (hl _).2, (hl _).2, fun e => hq (by rw [e]; simp), fun h => ?_⟩
    have hq2 := hpos _ ((d3 i hi).2 (by omega))
    rw [← hd] at hq2
    linarith
  · have hl := fun u => interpolate_on_slanted_line (⟨-3, -4, 0⟩ : Vec3 K) ⟨0, 0, 0⟩ ⟨3, 4, 0⟩
      ⟨9, 12, 0⟩ u (by norm_num) (by norm_num) (by norm_num) (by norm_num)
    have hd := interpolate_sample_step (⟨-3, -4, 0⟩ : Vec3 K) ⟨0, 0, 0⟩ ⟨3, 4, 0⟩ ⟨9, 12, 0⟩
      (-3) 0 3 9 (by norm_num) (by norm_num) (by norm_num) (by norm_num) i
    have hq := hpos _ (d0 i hi)
    rw [← hd] at hq
    exact ⟨(hl _).1, (hl _).1, (hl _).2, (hl _).2, fun e => by rw [e] at hq; simp at hq,
      fun _ => by linarith⟩

/-- Every pass of the extrusion loop on the slanted track (samples k/32,
k ≤ 128) that starts from a frame with Right = (0,0,1) is defined, reads two
different points, takes no normalize at the zero vector (Right_prev x Front and
Front x Up are non-zero) and leaves a frame with Right = (0,0,1) again, on a
track with the same control points.  The seed frame has Right = (0,0,1), so
this holds along the whole run of create_track on that track. -/
theorem slantedTrack_pass (sqrt : K → K) (hs : ∀ a : K, 0 ≤ a → sqrt (a * a) = a)
    (t : Track K)
    (hc : t.controlPoints = [⟨0, 0, 0⟩, ⟨3, 4, 0⟩, ⟨9, 12, 0⟩, ⟨-3, -4, 0⟩]) (hm : t.max_s = 4)
    (o : Orientation K) (hR : o.Right = ⟨0, 0, 1⟩) (k : ℕ) (hk : k ≤ 128) :
    ∃ t' o' p q, Track.create_track_step sqrt (1 / 32) t o ((k : K) / 32) = some (t', o') ∧
      t.get_point ((k : K) / 32) = some p ∧ t.get_point ((k : K) / 32 + 1 / 32) = some q ∧
      q ≠ p ∧ o.Right.cross o'.Front ≠ ⟨0, 0, 0⟩ ∧ o'.Front.cross o'.Up ≠ ⟨0, 0, 0⟩ ∧
      o'.Right = ⟨0, 0, 1⟩ ∧ t'.controlPoints = t.controlPoints ∧ t'.max_s = t.max_s := by
  obtain ⟨p, q, hp, hq, pz, qz, pl, ql, hne, hfw⟩ := slantedTrack_steps t hc hm k hk
  obtain ⟨t', o', hstep, hcp, -, hms⟩ :=
    Track.create_track_step_some sqrt (1 / 32) t o _ p q hp hq
  obtain ⟨p', q', hp', hq', -, e2, e3, e4⟩ :=
    Track.create_track_step_frame sqrt (1 / 32) t t' o o' _ hstep
  have hpp : p' = p := Option.some.inj (hp'.symm.trans hp)
  have hqq : q' = q := Option.some.inj (hq'.symm.trans hq)
  subst hpp hqq
  have hone : sqrt 1 = 1 := by simpa using hs 1 zero_le_one
  have hcne : (q'.x - p'.x) / 3 ≠ 0 := by
    intro h
    apply hne
    have h3 : q'.x - p'.x = 0 := by
      have := congrArg (fun v => v * 3) h
      simpa using this
    linarith
  have hsub : q'.sub p' = ⟨3 * ((q'.x - p'.x) / 3), 4 * ((q'.x - p'.x) / 3), 0⟩ := by
    ext
    · simp only [Vec3.sub]; ring
    · simp only [Vec3.sub]; linear_combination (-1 / 3) * ql + (1 / 3) * pl
    · simp only [Vec3.sub, pz, qz]; ring
  obtain ⟨e, he, hepos, hF⟩ := normalize_slanted_sign sqrt hs _ hcne
  rw [hsub, hF] at e2
  have hU0 := normalize_cross_slanted sqrt hone e he
  rw [hR, e2, hU0, hm] at e3
  have hee : e * e = 1 := by rcases he with rfl | rfl <;> norm_num
  have hback : e = -1 → k < 102 := by
    intro h1
    by_contra h2
    have h3 := hfw (by omega)
    have h4 : (0 : K) < (q'.x - p'.x) / 3 := by
      apply div_pos <;> linarith
    have h5 := hepos h4
    rw [h5] at h1
    norm_num at h1
  have hkK : ((k : K)) ≤ 128 := by exact_mod_cast hk
  have hUp : ∃ g : K, 0 ≤ g ∧ g ≤ 1 ∧ (e = -1 → g < 5 / 8) ∧
      o'.Up = ⟨-4 / 5 * e * (1 - g), 3 / 5 * e * (1 - g) + g, 0⟩ := by
    by_cases hb : (k : K) / 32 ≥ ((4 : Int) : K) - 64 * (1 / 32)
    · rw [if_pos hb] at e3
      have hb2 : (64 : K) ≤ k := by
        have : ((4 : Int) : K) = 4 := by norm_num
        rw [this] at hb
        have h6 : (4 : K) - 64 * (1 / 32) = 2 := by norm_num
        rw [h6, ge_iff_le, le_div_iff₀ (by norm_num)] at hb
        linarith
      refine ⟨((k : K) / 32 - (((4 : Int) : K) - 64 * (1 / 32))) / (64 * (1 / 32)), ?_, ?_, ?_, ?_⟩
      · apply div_nonneg _ (by norm_num)
        linarith
      · rw [div_le_one (by norm_num)]
        have : ((4 : Int) : K) = 4 := by norm_num
        rw [this]
        linarith
      · intro h1
        have h2 : (k : K) < 102 := by exact_mod_cast hback h1
        have : ((4 : Int) : K) = 4 := by norm_num
        rw [this, div_lt_iff₀ (by norm_num)]
        linarith
      · rw [e3]
        ext <;> simp [Vec3.add, Vec3.smul, Vec3.sub] <;> ring
    · rw [if_neg hb] at e3
      refine ⟨0, le_refl _, zero_le_one, fun _ => by norm_num, ?_⟩
      rw [e3]
      ext <;> simp
  obtain ⟨g, hg0, hg1, hg2, hUp⟩ := hUp
  have hz : (0 : K) < (1 - g) + 3 / 5 * e * g := by
    rcases he with h | h
    · rw [h]; linarith
    · rw [h]; have := hg2 h; linarith
  have hFU : o'.Front.cross o'.Up = ⟨0, 0, (1 - g) + 3 / 5 * e * g⟩ := by
    rw [e2, hUp]
    ext
    · simp [Vec3.cross]
    · simp [Vec3.cross]
    · simp only [Vec3.cross]
      linear_combination (1 - g) * hee
  refine ⟨t', o', p', q', hstep, hp, hq, ?_, ?_, ?_, ?_, hcp, hms⟩
  · intro h
    apply hne
    rw [h]
  · rw [hR, e2]
    intro h
    have h2 := congrArg Vec3.x h
    simp only [Vec3.cross] at h2
    rcases he with h3 | h3 <;> rw [h3] at h2 <;> norm_num at h2
  · rw [hFU]
    intro h
    have h2 := congrArg Vec3.z h
    simp only at h2
    linarith
  · rw [e4, hFU]
    exact normalize_vertical sqrt hs _ hz

end SlantedRun

section FrameClaim

variable {K : Type} [LinearOrderedField K] [FloorRing K]

/-- C19 (amended): over exact arithmetic whose square root squares back and is
never negative, and where the vectors handed to normalize are not the zero
vector (the two points read differ, and the cross products named below are
non-zero).  The seed frame has Front of length 1, Up = (0,1,0), so that
Front . Up is the y component of Front, and, when Front x Up is non-zero,
Right = normalize(Front x Up) of length 1 perpendicular to Front and to Up; it
is orthonormal when Front is horizontal.  A pass of the extrusion loop before
the blend (s < max_s - 64 * step) leaves an orthonormal frame with
Up = normalize(Right_prev x Front) and Right = normalize(Front x Up), when
Right_prev x Front is non-zero.  A pass inside the blend leaves Front of length
1, Up = U + f * ((0,1,0) - U) with U = normalize(Right_prev x Front) and the
mixing factor f, not normalized again, and, when Front x Up is non-zero, Right
of length 1 perpendicular to Front and to Up. -/
theorem frame_orthonormal_before_blend (sqrt : K → K)
    (hsq : ∀ x : K, 0 ≤ x → sqrt x * sqrt x = x) (hnn : ∀ x : K, 0 ≤ sqrt x) :
    (∀ (t : Track K) (o : Orientation K),
      Track.create_track_seed sqrt (1 / 32) t = some o →
      ∃ p q, t.get_point 0 = some p ∧ t.get_point (0 + 1 / 32) = some q ∧
        o.origin = p ∧ o.Front = (q.sub p).normalize sqrt ∧ o.Up = ⟨0, 1, 0⟩ ∧
        o.Right = (o.Front.cross o.Up).normalize sqrt ∧ o.Up.length sqrt = 1 ∧
        (q ≠ p → o.Front.length sqrt = 1 ∧ o.Front.dot o.Up = o.Front.y) ∧
        (q ≠ p → o.Front.cross o.Up ≠ ⟨0, 0, 0⟩ →
          o.Right.length sqrt = 1 ∧ o.Front.dot o.Right = 0 ∧ o.Up.dot o.Right = 0) ∧
        (q ≠ p → o.Front.y = 0 → o.orthonormal sqrt)) ∧
    (∀ (t t' : Track K) (o o' : Orientation K) (s : K),
      Track.create_track_step sqrt (1 / 32) t o s = some (t', o') →
      ∃ p q, t.get_point s = some p ∧ t.get_point (s + 1 / 32) = some q ∧
        o'.origin = p ∧ o'.Front = (q.sub p).normalize sqrt ∧
        o'.Right = (o'.Front.cross o'.Up).normalize sqrt ∧
        (q ≠ p → o'.Front.length sqrt = 1) ∧
        (s < (t.max_s : K) - 64 * (1 / 32) →
          o'.Up = (o.Right.cross o'.Front).normalize sqrt ∧
          (q ≠ p → o.Right.cross o'.Front ≠ ⟨0, 0, 0⟩ → o'.orthonormal sqrt)) ∧
        ((t.max_s : K) - 64 * (1 / 32) ≤ s →
          o'.Up = ((o.Right.cross o'.Front).normalize sqrt).add
            (Vec3.smul ((s - ((t.max_s : K) - 64 * (1 / 32))) / (64 * (1 / 32)))
              ((⟨0, 1, 0⟩ : Vec3 K).sub ((o.Right.cross o'.Front).normalize sqrt))) ∧
          (q ≠ p → o.Right.cross o'.Front ≠ ⟨0, 0, 0⟩ →
            o'.Front.cross o'.Up ≠ ⟨0, 0, 0⟩ →
            o'.Right.length sqrt = 1 ∧ o'.Front.dot o'.Right = 0 ∧
              o'.Up.dot o'.Right = 0))) := by
  have h1 := sqrt_one_of_laws sqrt hsq hnn
  constructor
  · intro t o h
    obtain ⟨p, q, hp, hq, hO, hF, hU, hR⟩ := Track.create_track_seed_frame sqrt _ t o h
    have hUU : o.Up.dot o.Up = 1 := by rw [hU]; simp [Vec3.dot]
    have hFU : o.Front.dot o.Up = o.Front.y := by rw [hU]; simp [Vec3.dot]
    have hFF : q ≠ p → o.Front.dot o.Front = 1 := fun hne => by
      rw [hF]; exact Vec3.normalize_dot_self sqrt hsq _ (Vec3.sub_ne_zero q p hne)
    refine ⟨p, q, hp, hq, hO, hF, hU, hR, by rw [Vec3.length, hUU, h1], ?_, ?_, ?_⟩
    · intro hne
      exact ⟨by rw [Vec3.length, hFF hne, h1], hFU⟩
    · intro _ hcr
      refine ⟨?_, ?_, ?_⟩
      · rw [hR]; exact Vec3.normalize_length sqrt hsq hnn _ hcr
      · rw [hR]; exact Vec3.dot_normalize_cross_left sqrt _ _
      · rw [hR]; exact Vec3.dot_normalize_cross_right sqrt _ _
    · intro hne hy
      exact Orientation.orthonormal_of sqrt hsq hnn o (hFF hne) hUU (hFU.trans hy) hR
  · intro t t' o o' s h
    obtain ⟨p, q, hp, hq, hO, hF, hU, hR⟩ := Track.create_track_step_frame sqrt _ t t' o o' s h
    have hFF : q ≠ p → o'.Front.dot o'.Front = 1 := fun hne => by
      rw [hF]; exact Vec3.normalize_dot_self sqrt hsq _ (Vec3.sub_ne_zero q p hne)
    refine ⟨p, q, hp, hq, hO, hF, hR, fun hne => by rw [Vec3.length, hFF hne, h1], ?_, ?_⟩
    · intro hs
      rw [if_neg (not_le.2 hs)] at hU
      refine ⟨hU, fun hne hcr => ?_⟩
      have hFU : o'.Front.dot o'.Up = 0 := by
        rw [hU]; exact Vec3.dot_normalize_cross_right sqrt _ _
      have hUU : o'.Up.dot o'.Up = 1 := by
        rw [hU]; exact Vec3.normalize_dot_self sqrt hsq _ hcr
      exact Orientation.orthonormal_of sqrt hsq hnn o' (hFF hne) hUU hFU hR
    · intro hs
      rw [if_pos hs] at hU
      refine ⟨hU, fun _ _ hcr => ⟨?_, ?_, ?_⟩⟩
      · rw [hR]; exact Vec3.normalize_length sqrt hsq hnn _ hcr
      · rw [hR]; exact Vec3.dot_normalize_cross_left sqrt _ _
      · rw [hR]; exact Vec3.dot_normalize_cross_right sqrt _ _

end FrameClaim

/-- C19 witness: over the reals with the real square root, the first pass of
the extrusion loop on the slanted track (s = 1/32, before the blend, started
from the seed frame) reads two different points, Right_prev x Front is not
zero, and the pass leaves the orthonormal frame Front = (3/5,4/5,0),
Up = (-4/5,3/5,0), Right = (0,0,1). -/
theorem frame_orthonormal_before_blend_witness :
    (∀ x : ℝ, 0 ≤ x → Real.sqrt x * Real.sqrt x = x) ∧ (∀ x : ℝ, 0 ≤ Real.sqrt x) ∧
    ∃ t' o', Track.create_track_step Real.sqrt (1 / 32) (slantedTrack ℝ)
        ⟨⟨3 / 5, 4 / 5, 0⟩, ⟨0, 1, 0⟩, ⟨0, 0, 1⟩, ⟨0, 0, 0⟩⟩ (1 / 32) = some (t', o') ∧
      (1 / 32 : ℝ) < ((slantedTrack ℝ).max_s : ℝ) - 64 * (1 / 32) ∧
      (slantedTrack ℝ).get_point (1 / 32) ≠ (slantedTrack ℝ).get_point (1 / 32 + 1 / 32) ∧
      (⟨0, 0, 1⟩ : Vec3 ℝ).cross o'.Front ≠ ⟨0, 0, 0⟩ ∧
      o'.Front = ⟨3 / 5, 4 / 5, 0⟩ ∧ o'.Up = ⟨-4 / 5, 3 / 5, 0⟩ ∧ o'.Right = ⟨0, 0, 1⟩ ∧
      o'.orthonormal Real.sqrt := by
  have hsq : ∀ x : ℝ, 0 ≤ x → Real.sqrt x * Real.sqrt x = x := fun x hx => Real.mul_self_sqrt hx
  have hnn : ∀ x : ℝ, 0 ≤ Real.sqrt x := Real.sqrt_nonneg
  obtain ⟨-, t', hstep⟩ := slantedTrack_frames Real.sqrt (fun a ha => Real.sqrt_mul_self ha)
  obtain ⟨-, -, g2, g3⟩ := @slantedTrack_points ℝ _ _
  have hlt : (1 / 32 : ℝ) < ((slantedTrack ℝ).max_s : ℝ) - 64 * (1 / 32) := by
    simp only [slantedTrack]; norm_num
  have hcr : (⟨0, 0, 1⟩ : Vec3 ℝ).cross ⟨3 / 5, 4 / 5, 0⟩ ≠ ⟨0, 0, 0⟩ := by
    intro e
    have := congrArg Vec3.y e
    norm_num [Vec3.cross] at this
  have hpq : (slantedTrack ℝ).get_point (1 / 32) ≠
      (slantedTrack ℝ).get_point (1 / 32 + 1 / 32) := by
    rw [g2, g3]
    intro e
    have := congrArg Vec3.x (Option.some.inj e)
    norm_num at this
  obtain ⟨p, q, hp, hq, -, -, -, -, hbefore, -⟩ :=
    (frame_orthonormal_before_blend Real.sqrt hsq hnn).2 _ _ _ _ _ hstep
  have hne : q ≠ p := by
    intro e
    apply hpq
    rw [hp, hq, e]
  exact ⟨hsq, hnn, t', _, hstep, hlt, hpq, hcr, rfl, rfl, rfl, (hbefore hlt).2 hne hcr⟩

/-- C19, the claim as stated fails: the seed frame of the track built from the
slanted displacements, which the first pass hands to makeRailPart, has
Front = (3/5,4/5,0) and Up = (0,1,0) with Front . Up = 4/5, so it is not
orthonormal.  No frame vector is the normalize of the zero vector: for the seed
the two points read differ and Front x Up = (0,0,3/5), and every pass k ≤ 128 of the
extrusion loop that starts from a frame with Right = (0,0,1), as the seed has,
reads two different points, has Right_prev x Front and Front x Up non-zero and
leaves Right = (0,0,1), so the cross products of this track are non-zero along
the whole run. -/
theorem seed_frame_not_orthonormal :
    ∃ t o, Track.construct Rat.sqrt 128 slantedPoints = some t ∧
      Track.create_track_seed Rat.sqrt (1 / 32) (slantedTrack ℚ) = some o ∧
      Track.create_track_rails Rat.sqrt (1 / 32) 128 (slantedTrack ℚ) o (1 / 32) = some t ∧
      (slantedTrack ℚ).get_point 0 = some ⟨0, 0, 0⟩ ∧
      (slantedTrack ℚ).get_point (0 + 1 / 32)
        = some ⟨3 * (2017 / 65536), 4 * (2017 / 65536), 0⟩ ∧
      o = ⟨⟨3 / 5, 4 / 5, 0⟩, ⟨0, 1, 0⟩, ⟨0, 0, 1⟩, ⟨0, 0, 0⟩⟩ ∧
      o.Front.cross o.Up = ⟨0, 0, 3 / 5⟩ ∧
      o.Front.dot o.Up = 4 / 5 ∧ ¬ o.orthonormal Rat.sqrt ∧
      (∀ (u : Track ℚ) (f : Orientation ℚ) (k : ℕ),
        u.controlPoints = (slantedTrack ℚ).controlPoints → u.max_s = 4 →
        f.Right = ⟨0, 0, 1⟩ → k ≤ 128 →
        ∃ u' f' p q,
          Track.create_track_step Rat.sqrt (1 / 32) u f ((k : ℚ) / 32) = some (u', f') ∧
          u.get_point ((k : ℚ) / 32) = some p ∧ u.get_point ((k : ℚ) / 32 + 1 / 32) = some q ∧
          q ≠ p ∧ f.Right.cross f'.Front ≠ ⟨0, 0, 0⟩ ∧ f'.Front.cross f'.Up ≠ ⟨0, 0, 0⟩ ∧
          f'.Right = ⟨0, 0, 1⟩ ∧ u'.controlPoints = u.controlPoints ∧ u'.max_s = u.max_s) := by
  obtain ⟨t, ht, -⟩ :=
    Track.construct_some Rat.sqrt 128 slantedPoints (by simp [slantedPoints]) (by decide)
      (by decide)
  obtain ⟨o, hseed, hrails⟩ := Track.construct_rails Rat.sqrt 128 slantedPoints t ht
  have hst : (⟨storedPoints ⟨-2, 0, -2⟩ slantedPoints, [],
      raisedHmax 0 ⟨-2, 0, -2⟩ slantedPoints * (21 / 20), (slantedPoints.length : Int)⟩ : Track ℚ)
      = slantedTrack ℚ := by
    ext1
    · norm_num [slantedPoints, slantedTrack, storedPoints, Vec3.add, Vec3.scale]
    · rfl
    · norm_num [slantedPoints, slantedTrack, raisedHmax, Vec3.add]
    · rfl
  rw [hst] at hseed hrails
  have e : (((1 : ℕ) : ℚ)) / 32 = 1 / 32 := by norm_num
  rw [e] at hrails
  obtain ⟨hs0, -⟩ := slantedTrack_frames Rat.sqrt
    (fun a ha => by rw [Rat.sqrt_eq, abs_of_nonneg ha])
  obtain ⟨g0, g1, -, -⟩ := @slantedTrack_points ℚ _ _
  have ho : o = ⟨⟨3 / 5, 4 / 5, 0⟩, ⟨0, 1, 0⟩, ⟨0, 0, 1⟩, ⟨0, 0, 0⟩⟩ :=
    Option.some.inj (hseed.symm.trans hs0)
  have hd : o.Front.dot o.Up = 4 / 5 := by rw [ho]; norm_num [Vec3.dot]
  have hx : o.Front.cross o.Up = ⟨0, 0, 3 / 5⟩ := by
    rw [ho]; ext <;> norm_num [Vec3.cross]
  refine ⟨t, o, ht, hseed, hrails, g0, g1, ho, hx, hd, ?_, ?_⟩
  · intro h
    have h4 := h.2.2.2.1
    rw [hd] at h4
    norm_num at h4
  · intro u f k hu hm hf hk
    exact slantedTrack_pass Rat.sqrt (fun a ha => by rw [Rat.sqrt_eq, abs_of_nonneg ha]) u hu hm
      f hf k hk

/-! ## Plank face normals -/

section PlankNormals

variable {K : Type} [LinearOrderedField K]

/-- A normalized vector keeps a strictly positive dot product, when the square
root squares back and is never negative. -/
theorem Vec3.normalize_dot_pos (sqrt : K → K) (hsq : ∀ x : K, 0 ≤ x → sqrt x * sqrt x = x)
    (hnn : ∀ x : K, 0 ≤ sqrt x) (v w : Vec3 K) (h : 0 < v.dot w) :
    0 < (v.normalize sqrt).dot w := by
  have hv : v.dot v ≠ 0 := by
    intro h0
    have e := Vec3.eq_zero_of_dot_self v h0
    rw [e] at h
    simp [Vec3.dot] at h
  have hs := hsq _ (Vec3.dot_self_nonneg v)
  have hne : sqrt (v.dot v) ≠ 0 := by
    intro h0; rw [h0] at hs; simp at hs; exact hv hs.symm
  have hpos : 0 < sqrt (v.dot v) := lt_of_le_of_ne (hnn _) (Ne.symm hne)
  have e : (v.normalize sqrt).dot w = v.dot w * (1 / sqrt (v.dot v)) := by
    simp only [Vec3.normalize, Vec3.scale, Vec3.dot]; ring
  rw [e]
  positivity

/-- The vertices that four make_face calls in a row append, read face by face:
whatever holds of the four corners and the normal of each call holds of the
corners and of every vertex normal of each group of six appended vertices. -/
theorem Track.four_faces_lookup (sqrt : K → K) (t : Track K)
    (A1 B1 C1 D1 A2 B2 C2 D2 A3 B3 C3 D3 A4 B4 C4 D4 : Vec3 K) (f1 f2 f3 f4 : Bool)
    (P : Vec3 K → Vec3 K → Vec3 K → Vec3 K → Vec3 K → Prop)
    (h1 : P A1 B1 C1 D1 (((C1.sub A1).cross (B1.sub A1)).normalize sqrt))
    (h2 : P A2 B2 C2 D2 (((C2.sub A2).cross (B2.sub A2)).normalize sqrt))
    (h3 : P A3 B3 C3 D3 (((C3.sub A3).cross (B3.sub A3)).normalize sqrt))
    (h4 : P A4 B4 C4 D4 (((C4.sub A4).cross (B4.sub A4)).normalize sqrt))
    (i j : ℕ) (hi : i < 4) (hj : j < 6) (a b c d v : Vertex K)
    (ha : (((((t.make_face sqrt A1 B1 C1 D1 f1).make_face sqrt A2 B2 C2 D2 f2).make_face sqrt
      A3 B3 C3 D3 f3).make_face sqrt A4 B4 C4 D4 f4).vertices.drop t.vertices.length)[6 * i]?
        = some a)
    (hb : (((((t.make_face sqrt A1 B1 C1 D1 f1).make_face sqrt A2 B2 C2 D2 f2).make_face sqrt
      A3 B3 C3 D3 f3).make_face sqrt A4 B4 C4 D4 f4).vertices.drop t.vertices.length)[6 * i + 1]?
        = some b)
    (hc : (((((t.make_face sqrt A1 B1 C1 D1 f1).make_face sqrt A2 B2 C2 D2 f2).make_face sqrt
      A3 B3 C3 D3 f3).make_face sqrt A4 B4 C4 D4 f4).vertices.drop t.vertices.length)[6 * i + 2]?
        = some c)
    (hd : (((((t.make_face sqrt A1 B1 C1 D1 f1).make_face sqrt A2 B2 C2 D2 f2).make_face sqrt
      A3 B3 C3 D3 f3).make_face sqrt A4 B4 C4 D4 f4).vertices.drop t.vertices.length)[6 * i + 5]?
        = some d)
    (hv : (((((t.make_face sqrt A1 B1 C1 D1 f1).make_face sqrt A2 B2 C2 D2 f2).make_face sqrt
      A3 B3 C3 D3 f3).make_face sqrt A4 B4 C4 D4 f4).vertices.drop t.vertices.length)[6 * i + j]?
        = some v) :
    P a.Position b.Position c.Position d.Position v.Normal := by
  simp only [Track.make_face, List.append_assoc, List.cons_append, List.nil_append,
    List.drop_left] at ha hb hc hd hv
  interval_cases i <;> interval_cases j <;>
    simp only [Nat.reduceMul, Nat.reduceAdd, List.getElem?_cons_succ, List.getElem?_cons_zero,
      Option.some.injEq] at ha hb hc hd hv <;>
    subst ha hb hc hd hv <;> assumption

end PlankNormals

section PlankNormalsClaim

variable {K : Type} [LinearOrderedField K]

/-- A vector of length 1 has dot product 1 with itself, when the square root
squares back. -/
theorem Vec3.dot_self_of_length (sqrt : K → K) (hsq : ∀ x : K, 0 ≤ x → sqrt x * sqrt x = x)
    (v : Vec3 K) (h : v.length sqrt = 1) : v.dot v = 1 := by
  have hs := hsq _ (Vec3.dot_self_nonneg v)
  rw [Vec3.length] at h
  rw [h] at hs
  linarith

/-- C21: over exact arithmetic whose square root squares back and is never
negative, for every orthonormal frame with Right = Front x Up and every offset
with positive components (the program passes (0.5, 0.1)), makePlank appends 24
vertices, and in each of the four groups of six, the quad with corners A, B, C,
D at places 0, 1, 2, 5, every vertex carries the make_face normal
normalize((C - A) x (B - A)), and that normal has a strictly positive dot
product with the vector from the frame origin to the centroid (A + B + C + D)/4
of the face: the normal points outward. -/
theorem plank_normals_outward (sqrt : K → K) (hsq : ∀ x : K, 0 ≤ x → sqrt x * sqrt x = x)
    (hnn : ∀ x : K, 0 ≤ sqrt x) (t : Track K) (o : Orientation K) (offset : Vec2 K)
    (hx : 0 < offset.x) (hy : 0 < offset.y) (ho : o.orthonormal sqrt)
    (hR : o.Right = o.Front.cross o.Up) :
    ((t.makePlank sqrt o offset).vertices.drop t.vertices.length).length = 24 ∧
    ∀ i j : ℕ, i < 4 → j < 6 → ∀ a b c d v : Vertex K,
      ((t.makePlank sqrt o offset).vertices.drop t.vertices.length)[6 * i]? = some a →
      ((t.makePlank sqrt o offset).vertices.drop t.vertices.length)[6 * i + 1]? = some b →
      ((t.makePlank sqrt o offset).vertices.drop t.vertices.length)[6 * i + 2]? = some c →
      ((t.makePlank sqrt o offset).vertices.drop t.vertices.length)[6 * i + 5]? = some d →
      ((t.makePlank sqrt o offset).vertices.drop t.vertices.length)[6 * i + j]? = some v →
      v.Normal = ((c.Position.sub a.Position).cross (b.Position.sub a.Position)).normalize sqrt ∧
      0 < v.Normal.dot
        (((((a.Position.add b.Position).add c.Position).add d.Position).scale (1 / 4)).sub
          o.origin) := by
  have hF : o.Front.dot o.Front = 1 := Vec3.dot_self_of_length sqrt hsq _ ho.1
  have hU : o.Up.dot o.Up = 1 := Vec3.dot_self_of_length sqrt hsq _ ho.2.1
  have hFU : o.Front.dot o.Up = 0 := ho.2.2.2.1
  have hc : (0 : K) < 4 * (offset.y * (7 / 10)) * (offset.x * (9 / 10)) * (offset.y * (7 / 10))
      * (o.Front.dot o.Front * o.Up.dot o.Up - o.Front.dot o.Up * o.Front.dot o.Up) := by
    rw [hF, hU, hFU]
    have h1 : 0 < offset.y * (7 / 10) := by positivity
    have h2 : 0 < offset.x * (9 / 10) := by positivity
    have h3 : (0 : K) < 1 * 1 - 0 * 0 := by norm_num
    positivity
  constructor
  · rw [List.length_drop, Track.makePlank_length]
    omega
  · intro i j hi hj a b c d v ha hb hc' hd hv
    refine Track.four_faces_lookup sqrt t _ _ _ _ _ _ _ _ _ _ _ _ _ _ _ _ false false false false
      (fun a b c d n => n = ((c.sub a).cross (b.sub a)).normalize sqrt ∧
        0 < n.dot (((((a.add b).add c).add d).scale (1 / 4)).sub o.origin))
      ?_ ?_ ?_ ?_ i j hi hj a b c d v ha hb hc' hd hv
    all_goals
      refine ⟨rfl, Vec3.normalize_dot_pos sqrt hsq hnn _ _ ?_⟩
      refine lt_of_lt_of_eq hc ?_
      rw [hR]
      simp only [Vec3.dot, Vec3.cross, Vec3.sub, Vec3.add, Vec3.scale]
      ring

end PlankNormalsClaim

/-- C21 witness: over the reals with the real square root, on the axis frame
(Front = (1,0,0), Up = (0,1,0), Right = (0,0,1) = Front x Up) with the offset
(0.5, 0.1) of the program, the first face of the plank has the corners
(0.07, 0.07, -0.45), (0.07, 0.07, 0.45), (-0.07, 0.07, -0.45),
(-0.07, 0.07, 0.45), its centroid is (0, 0.07, 0), and the normal of its first
vertex has a positive dot product with the vector from the origin to that
centroid. -/
theorem plank_normals_outward_witness :
    (∀ x : ℝ, 0 ≤ x → Real.sqrt x * Real.sqrt x = x) ∧ (∀ x : ℝ, 0 ≤ Real.sqrt x) ∧
    (0 : ℝ) < (⟨1 / 2, 1 / 10⟩ : Vec2 ℝ).x ∧ (0 : ℝ) < (⟨1 / 2, 1 / 10⟩ : Vec2 ℝ).y ∧
    (axisFrame ℝ).orthonormal Real.sqrt ∧
    (axisFrame ℝ).Right = (axisFrame ℝ).Front.cross (axisFrame ℝ).Up ∧
    ∃ a b c d : Vertex ℝ,
      (((⟨[], [], 0, 0⟩ : Track ℝ).makePlank Real.sqrt (axisFrame ℝ) ⟨1 / 2, 1 / 10⟩).vertices.drop
        0)[0]? = some a ∧
      (((⟨[], [], 0, 0⟩ : Track ℝ).makePlank Real.sqrt (axisFrame ℝ) ⟨1 / 2, 1 / 10⟩).vertices.drop
        0)[1]? = some b ∧
      (((⟨[], [], 0, 0⟩ : Track ℝ).makePlank Real.sqrt (axisFrame ℝ) ⟨1 / 2, 1 / 10⟩).vertices.drop
        0)[2]? = some c ∧
      (((⟨[], [], 0, 0⟩ : Track ℝ).makePlank Real.sqrt (axisFrame ℝ) ⟨1 / 2, 1 / 10⟩).vertices.drop
        0)[5]? = some d ∧
      a.Position = ⟨7 / 100, 7 / 100, -(9 / 20)⟩ ∧ b.Position = ⟨7 / 100, 7 / 100, 9 / 20⟩ ∧
      c.Position = ⟨-(7 / 100), 7 / 100, -(9 / 20)⟩ ∧
      d.Position = ⟨-(7 / 100), 7 / 100, 9 / 20⟩ ∧
      ((((a.Position.add b.Position).add c.Position).add d.Position).scale (1 / 4)).sub
        (axisFrame ℝ).origin = ⟨0, 7 / 100, 0⟩ ∧
      0 < a.Normal.dot
        (((((a.Position.add b.Position).add c.Position).add d.Position).scale (1 / 4)).sub
          (axisFrame ℝ).origin) := by
  have hsq : ∀ x : ℝ, 0 ≤ x → Real.sqrt x * Real.sqrt x = x := fun x hx => Real.mul_self_sqrt hx
  have hnn : ∀ x : ℝ, 0 ≤ Real.sqrt x := Real.sqrt_nonneg
  have hx : (0 : ℝ) < (⟨1 / 2, 1 / 10⟩ : Vec2 ℝ).x := by norm_num
  have hy : (0 : ℝ) < (⟨1 / 2, 1 / 10⟩ : Vec2 ℝ).y := by norm_num
  have ho : (axisFrame ℝ).orthonormal Real.sqrt := by
    simp [Orientation.orthonormal, axisFrame, Vec3.length, Vec3.dot]
  have hR : (axisFrame ℝ).Right = (axisFrame ℝ).Front.cross (axisFrame ℝ).Up := by
    ext <;> simp [axisFrame, Vec3.cross]
  obtain ⟨-, hall⟩ := plank_normals_outward Real.sqrt hsq hnn (⟨[], [], 0, 0⟩ : Track ℝ)
    (axisFrame ℝ) ⟨1 / 2, 1 / 10⟩ hx hy ho hR
  obtain ⟨a, b, c, d, ha, hb, hc, hd, pa, pb, pc, pd⟩ : ∃ a b c d : Vertex ℝ,
      (((⟨[], [], 0, 0⟩ : Track ℝ).makePlank Real.sqrt (axisFrame ℝ) ⟨1 / 2, 1 / 10⟩).vertices.drop
        0)[0]? = some a ∧
      (((⟨[], [], 0, 0⟩ : Track ℝ).makePlank Real.sqrt (axisFrame ℝ) ⟨1 / 2, 1 / 10⟩).vertices.drop
        0)[1]? = some b ∧
      (((⟨[], [], 0, 0⟩ : Track ℝ).makePlank Real.sqrt (axisFrame ℝ) ⟨1 / 2, 1 / 10⟩).vertices.drop
        0)[2]? = some c ∧
      (((⟨[], [], 0, 0⟩ : Track ℝ).makePlank Real.sqrt (axisFrame ℝ) ⟨1 / 2, 1 / 10⟩).vertices.drop
        0)[5]? = some d ∧
      a.Position = ⟨7 / 100, 7 / 100, -(9 / 20)⟩ ∧ b.Position = ⟨7 / 100, 7 / 100, 9 / 20⟩ ∧
      c.Position = ⟨-(7 / 100), 7 / 100, -(9 / 20)⟩ ∧
      d.Position = ⟨-(7 / 100), 7 / 100, 9 / 20⟩ := by
    refine ⟨_, _, _, _, rfl, rfl, rfl, rfl, ?_, ?_, ?_, ?_⟩ <;> ext <;>
      simp [Track.makePlank, Track.make_face, axisFrame, Vec3.add, Vec3.sub, Vec3.scale] <;>
      norm_num
  have hout := hall 0 0 (by norm_num) (by norm_num) a b c d a ha hb hc hd ha
  refine ⟨hsq, hnn, hx, hy, ho, hR, a, b, c, d, ha, hb, hc, hd, pa, pb, pc, pd, ?_, hout.2⟩
  rw [pa, pb, pc, pd]
  ext <;> norm_num [axisFrame, Vec3.add, Vec3.sub, Vec3.scale]

end Coaster
